import Mathlib

/-!
# RaceStand: standings and projection engine

A shallow embedding of the points, standings and status functions of
`src/extension/racestand/racestand.js`, followed by the properties proved of them.

Conventions of the embedding:

* JavaScript numbers that hold points are `Int`; counts, ranks, indices and positions are `Nat`.
* A `position` that is `null` is `none`; a stored position is `some p`.
* The global `state` object is passed explicitly as a `State`.
* `Array.prototype.sort(compareFn)` is a stable sort; for a consistent comparator its result is
  determined by stability alone, and it is embedded as the stable insertion sort `jsSort`.
* A call that would throw a `TypeError` returns `none`.
* `String.prototype.localeCompare` belongs to the host: `calculateStandingsOn` takes it as an
  argument, and `calculateStandings` is its instance for the order of the characters.
* Where the writes of a function matter, it is embedded a second time as a program on an
  explicit heap of objects and arrays (`calculateStandingsInHeap`).
-/

namespace RaceStand

/-! ## Data model -/

/-- One race result: `position` is `null` (here `none`) or a number, `fastestLap` a flag. -/
structure Result where
  position : Option Nat
  fastestLap : Bool
  deriving DecidableEq

/-- The record `state.championship` (the display name plays no part in the engine). -/
structure Championship where
  scoring : List Int
  totalRounds : Nat
  countBest : Nat
  flEnabled : Bool
  flBonus : Int
  targetPosition : Nat
  deriving DecidableEq

/-- One entry of `state.competitors`. -/
structure Competitor where
  id : String
  name : String
  isMyDriver : Bool
  results : List Result
  deriving DecidableEq

/-- The engine-relevant part of the global `state`. -/
structure State where
  championship : Championship
  competitors : List Competitor
  deriving DecidableEq

/-! ## Array helpers -/

/-- The stable sort behind `arr.sort(cmp)`: `a` is placed before `b` when `cmp a b ≤ 0`. -/
def jsSort {α : Type} (cmp : α → α → Int) (l : List α) : List α :=
  List.insertionSort (fun a b => cmp a b ≤ 0) l

/-- The expression `scoring[position - 1] || 0`: an index outside the table (also index `-1`,
reached from position `0`) reads `undefined`, which `||` turns into `0`. -/
def scoringAt (scoring : List Int) (position : Nat) : Int :=
  if position = 0 then 0 else scoring.getD (position - 1) 0

/-! ## Points calculation -/

/-- Source: `calculateRacePoints(position, hasFastestLap)`. -/
def calculateRacePoints (st : State) (position : Option Nat) (hasFastestLap : Bool) : Int :=
  match position with
  | none => 0
  | some p =>
    let positionPoints := scoringAt st.championship.scoring p
    let flPoints := if st.championship.flEnabled && hasFastestLap then st.championship.flBonus else 0
    positionPoints + flPoints

/-- The tail shared by the aggregators: sort descending, `slice(0, countBest)`, `reduce` by `+`. -/
def bestSum (countBest : Nat) (points : List Int) : Int :=
  let sorted := jsSort (fun a b => b - a) points
  let best := sorted.take countBest
  best.foldl (fun sum pts => sum + pts) 0

/-- Source: `calculateTotalPoints(results)`. -/
def calculateTotalPoints (st : State) (results : List Result) : Int :=
  let racePoints := results.map (fun r => calculateRacePoints st r.position r.fastestLap)
  bestSum st.championship.countBest racePoints

/-- Source: `calculateMaxPossiblePoints(competitor)`. The index loop that overwrites
`allPoints[i]` where `competitor.results[i].position === null` is the `zipWith`. -/
def calculateMaxPossiblePoints (st : State) (competitor : Competitor) : Int :=
  let maxRacePoints := scoringAt st.championship.scoring 1 +
    (if st.championship.flEnabled then st.championship.flBonus else 0)
  let currentRacePoints :=
    competitor.results.map (fun r => calculateRacePoints st r.position r.fastestLap)
  let allPoints := List.zipWith
    (fun (r : Result) (p : Int) => if r.position = none then maxRacePoints else p)
    competitor.results currentRacePoints
  bestSum st.championship.countBest allPoints

/-- Source: `calculateMinPossiblePoints(competitor)`. -/
def calculateMinPossiblePoints (st : State) (competitor : Competitor) : Int :=
  let currentRacePoints :=
    competitor.results.map (fun r => calculateRacePoints st r.position r.fastestLap)
  bestSum st.championship.countBest currentRacePoints

/-- Source: `countPositionFinishes(results, position)`. -/
def countPositionFinishes (results : List Result) (position : Nat) : Nat :=
  (results.filter (fun r => r.position = some position)).length

/-- The per-race values `results.map(r => calculateRacePoints(r.position, r.fastestLap))`. -/
def racePointsOf (st : State) (results : List Result) : List Int :=
  results.map (fun r => calculateRacePoints st r.position r.fastestLap)

/-! ## Standings -/

/-- The object built for each competitor by the `map` at the start of `calculateStandings`. -/
structure StandingEntry where
  competitorId : String
  name : String
  isMyDriver : Bool
  totalPoints : Int
  wins : Nat
  results : List Result
  deriving DecidableEq

/-- A standing after the rank pass has set `isTied` and `rank`. -/
structure Standing extends StandingEntry where
  isTied : Bool
  rank : Nat
  deriving DecidableEq

/-- The positions `1, 2, ..., 20` visited by `for (let pos = 1; pos <= 20; pos++)`. -/
def tiebreakPositions : List Nat := List.range' 1 20

/-- Modelled from the spec: `String.prototype.localeCompare` is the host's collation and no code
of the repository; the spec names the last tie-break "name, lexicographic ascending", and this
is the lexicographic order of the strings' character lists, reported as `-1`, `0` or `1`. It is
one of the orders a host may have; what is proved of the order of names is stated for
`calculateStandingsOn`, which takes the host's collation as an argument. -/
def localeCompare (a b : String) : Int :=
  if a.toList < b.toList then -1 else if a = b then 0 else 1

/-- The tie-break loop of the sort comparator over the positions still to visit: `some d` when
the loop returns `bCount - aCount` at the first position where the counts differ, `none` when it
runs to its end. -/
def countDiff (a b : List Result) : List Nat → Option Int
  | [] => none
  | pos :: rest =>
    let aCount := countPositionFinishes a pos
    let bCount := countPositionFinishes b pos
    if bCount ≠ aCount then some ((bCount : Int) - (aCount : Int)) else countDiff a b rest

/-- The comparator handed to `standings.sort`. -/
def compareStandings (a b : StandingEntry) : Int :=
  if b.totalPoints ≠ a.totalPoints then b.totalPoints - a.totalPoints
  else
    match countDiff a.results b.results tiebreakPositions with
    | some d => d
    | none => localeCompare a.name b.name

/-- The loop of the rank pass that clears `isTied` at the first position whose counts differ;
the value is the `isTied` the loop leaves behind when it is entered with `isTied = true`. -/
def sameFinishes (a b : List Result) : List Nat → Bool
  | [] => true
  | pos :: rest =>
    let aCount := countPositionFinishes a pos
    let bCount := countPositionFinishes b pos
    if aCount ≠ bCount then false else sameFinishes a b rest

/-- The value of `isTied` computed for `standing` at an index above `0`: equal points with
`prev`, and then the loop over the positions. -/
def tiedWith (standing prev : StandingEntry) : Bool :=
  decide (standing.totalPoints = prev.totalPoints) &&
    sameFinishes standing.results prev.results tiebreakPositions

/-- The `forEach` of the rank pass, run from `index` on. `currentRank` is the variable of that
name and `prev` is `standings[index - 1]`, which is `none` exactly at index `0`. -/
def assignRanks : Nat → Nat → Option StandingEntry → List StandingEntry → List Standing
  | _, _, _, [] => []
  | index, currentRank, none, standing :: rest =>
    { toStandingEntry := standing, isTied := false, rank := currentRank } ::
      assignRanks (index + 1) currentRank (some standing) rest
  | index, currentRank, some prev, standing :: rest =>
    let isTied := tiedWith standing prev
    let currentRank := if !isTied then index + 1 else currentRank
    { toStandingEntry := standing, isTied := isTied, rank := currentRank } ::
      assignRanks (index + 1) currentRank (some standing) rest

/-- The entries built by the first `map` of `calculateStandings`. -/
def standingEntries (st : State) : List StandingEntry :=
  st.competitors.map (fun comp =>
    { competitorId := comp.id
      name := comp.name
      isMyDriver := comp.isMyDriver
      totalPoints := calculateTotalPoints st comp.results
      wins := countPositionFinishes comp.results 1
      results := comp.results })

/-- Source: `calculateStandings()`. -/
def calculateStandings (st : State) : List Standing :=
  let standings := standingEntries st
  let sorted := jsSort compareStandings standings
  assignRanks 0 1 none sorted

/-! ## Standings on a host collation -/

/-- The comparator handed to `standings.sort`, with the host's
`String.prototype.localeCompare` passed as `collate`. -/
def compareStandingsOn (collate : String → String → Int) (a b : StandingEntry) : Int :=
  if b.totalPoints ≠ a.totalPoints then b.totalPoints - a.totalPoints
  else
    match countDiff a.results b.results tiebreakPositions with
    | some d => d
    | none => collate a.name b.name

/-- Source: `calculateStandings()`, with the host's `localeCompare` passed as `collate`. -/
def calculateStandingsOn (collate : String → String → Int) (st : State) : List Standing :=
  let standings := standingEntries st
  let sorted := jsSort (compareStandingsOn collate) standings
  assignRanks 0 1 none sorted

/-! ## Position status -/

/-- The status strings returned by `calculatePositionStatus`. -/
inductive Status where
  | NONE
  | GUARANTEED
  | SECURED
  | ON_TRACK
  | ACHIEVABLE
  | NOT_POSSIBLE
  deriving DecidableEq

/-- The record built for each rival in `allRivals` (without the display text `maxBreakdown`). -/
structure Rival where
  id : String
  name : String
  currentPoints : Int
  currentRank : Nat
  maxPoints : Int
  minPoints : Int
  isThreat : Bool
  canOvertake : Bool
  canBeCaught : Bool
  deriving DecidableEq

/-- The object returned by `calculatePositionStatus`, without the display texts `message` and
`details`. The four `my...` fields are `undefined` (here `none`) in the `NONE` result. -/
structure PositionStatus where
  status : Status
  myCurrentRank : Option Nat
  myCurrentPoints : Option Int
  myMaxPoints : Option Int
  myMinPoints : Option Int
  threats : List Rival
  rivals : List Rival
  deriving DecidableEq

/-- A `map` whose callback may throw: the first failure aborts the whole `map`. -/
def mapOrThrow {α β : Type} (f : α → Option β) : List α → Option (List β)
  | [] => some []
  | a :: l =>
    match f a with
    | none => none
    | some b =>
      match mapOrThrow f l with
      | none => none
      | some bs => some (b :: bs)

/-- The callback of the `map` that builds `allRivals`; reading `rivalStanding.totalPoints` throws
when no standing carries the rival's id. -/
def rivalRecord (st : State) (standings : List Standing) (myCurrentPoints myMaxPoints
    myMinPoints : Int) (rival : Competitor) : Option Rival :=
  match standings.find? (fun s => s.competitorId = rival.id) with
  | none => none
  | some rivalStanding =>
    let rivalMaxPoints := calculateMaxPossiblePoints st rival
    let rivalMinPoints := calculateMinPossiblePoints st rival
    some
      { id := rival.id
        name := rival.name
        currentPoints := rivalStanding.totalPoints
        currentRank := rivalStanding.rank
        maxPoints := rivalMaxPoints
        minPoints := rivalMinPoints
        isThreat := decide (rivalMaxPoints ≥ myMinPoints)
        canOvertake := decide (rivalMaxPoints > myCurrentPoints)
        canBeCaught := decide (rivalMinPoints < myMaxPoints) }

/-- The filter callback that selects `rivalsForPosition`. -/
def nearTargetPosition (targetDriver : Option Standing) (targetPosition : Nat) (rival : Rival) :
    Bool :=
  let positionRange := ((rival.currentRank : Int) - (targetPosition : Int)).natAbs
  let nearTarget := decide (positionRange ≤ 2)
  let couldReachTarget :=
    match targetDriver with
    | none => false
    | some t => decide (rival.maxPoints ≥ t.totalPoints)
  let isAtTarget := decide (rival.currentRank = targetPosition)
  nearTarget || couldReachTarget || isAtTarget

/-- Source: `calculatePositionStatus(myDriver, targetPosition)`. The result is `none` when the
call throws a `TypeError`; `myDriver = none` stands for a falsy argument. The texts `message`
and `details`, and `belowTargetDriver`, `topThreat` and `bestPossibleRank`, which feed only
those texts, are left out. -/
def calculatePositionStatus (st : State) (myDriver : Option Competitor) (targetPosition : Nat) :
    Option PositionStatus :=
  let noneResult : PositionStatus :=
    { status := Status.NONE, myCurrentRank := none, myCurrentPoints := none, myMaxPoints := none,
      myMinPoints := none, threats := [], rivals := [] }
  match myDriver with
  | none => some noneResult
  | some myDriver =>
    if st.competitors.length < 2 then some noneResult
    else
      let standings := calculateStandings st
      match standings.find? (fun s => s.competitorId = myDriver.id) with
      | none => none
      | some myStanding =>
        let myCurrentRank := myStanding.rank
        let myCurrentPoints := myStanding.totalPoints
        let myMaxPoints := calculateMaxPossiblePoints st myDriver
        let myMinPoints := calculateMinPossiblePoints st myDriver
        let targetDriver := standings.find? (fun s => s.rank = targetPosition)
        match mapOrThrow (rivalRecord st standings myCurrentPoints myMaxPoints myMinPoints)
            (st.competitors.filter (fun c => c.id ≠ myDriver.id)) with
        | none => none
        | some unsortedRivals =>
          let allRivals := jsSort
            (fun a b : Rival => (a.currentRank : Int) - (b.currentRank : Int)) unsortedRivals
          let rivalsForPosition := allRivals.filter (nearTargetPosition targetDriver targetPosition)
          let remainingRaces := (myDriver.results.filter (fun r => r.position = none)).length
          let hasRemainingRaces := decide (remainingRaces > 0)
          let status :=
            if myCurrentRank ≤ targetPosition then
              let threatsFromBelow := allRivals.filter (fun t =>
                (decide (t.currentRank > targetPosition) || decide (t.currentRank = myCurrentRank))
                  && decide (t.maxPoints ≥ myMinPoints))
              if threatsFromBelow.length = 0 ∧ hasRemainingRaces = false then Status.GUARANTEED
              else if threatsFromBelow.length = 0 then Status.SECURED
              else Status.ON_TRACK
            else
              let driverToOvertake := standings.find? (fun s => s.rank = targetPosition)
              let driverToOvertakeComp :=
                match driverToOvertake with
                | some d => st.competitors.find? (fun c => c.id = d.competitorId)
                | none => none
              let targetDriverMinPoints :=
                match driverToOvertakeComp with
                | some c => calculateMinPossiblePoints st c
                | none => 0
              if myMaxPoints > targetDriverMinPoints then Status.ACHIEVABLE
              else Status.NOT_POSSIBLE
          some
            { status := status
              myCurrentRank := some myCurrentRank
              myCurrentPoints := some myCurrentPoints
              myMaxPoints := some myMaxPoints
              myMinPoints := some myMinPoints
              threats := allRivals.filter (fun r => r.isThreat)
              rivals := rivalsForPosition }

/-! ## Scenario generator -/

/-- The status strings of a scenario. -/
inductive ScenarioStatus where
  | SAFE
  | RISK
  | FAIL
  deriving DecidableEq

/-- A scenario object pushed by `generateScenarios`, without the display fields
`resultsDisplay` and `rivalsBreakdown`. -/
structure Scenario where
  results : List Nat
  myPoints : Int
  rivalMaxPoints : Int
  status : ScenarioStatus
  deriving DecidableEq

/-- The loop `positions.forEach((pos, i) => { arr[remainingRaceIndices[i]] = f(pos) })`. A
position beyond the end of `remainingRaceIndices` writes to no array element. The race indices
are indices of the results array (every results array has `totalRounds` entries), so a write
never extends the array. -/
def assignAt {α : Type} (f : Nat → α) : List α → List Nat → List Nat → List α
  | arr, pos :: positions, raceIdx :: remainingRaceIndices =>
    assignAt f (arr.set raceIdx (f pos)) positions remainingRaceIndices
  | arr, _, _ => arr

/-- Source: `calcPointsWithResults(positions)`, a closure of `generateScenarios` over
`currentRacePoints` and `remainingRaceIndices`. -/
def calcPointsWithResults (st : State) (currentRacePoints : List Int)
    (remainingRaceIndices : List Nat) (positions : List Nat) : Int :=
  let allPoints := assignAt (fun pos => scoringAt st.championship.scoring pos)
    currentRacePoints positions remainingRaceIndices
  bestSum st.championship.countBest allPoints

/-- The value written for the rival in a race where the user takes `userPos`. -/
def rivalBestInRace (st : State) (userPos : Nat) : Int :=
  let maxRacePoints := scoringAt st.championship.scoring 1 +
    (if st.championship.flEnabled then st.championship.flBonus else 0)
  let rivalBestPos := userPos + 1
  let rivalBestPoints := scoringAt st.championship.scoring rivalBestPos +
    (if st.championship.flEnabled then st.championship.flBonus else 0)
  if userPos ≤ 1 then rivalBestPoints else maxRacePoints

/-- Source: `calcRivalMaxWithUserPositions(userPositions)`, a closure of `generateScenarios`
over `keyRivalComp` and `remainingRaceIndices`. -/
def calcRivalMaxWithUserPositions (st : State) (keyRivalComp : Option Competitor)
    (remainingRaceIndices : List Nat) (userPositions : List Nat) : Int :=
  match keyRivalComp with
  | none => 0
  | some k =>
    let rivalRacePoints := k.results.map (fun r => calculateRacePoints st r.position r.fastestLap)
    let updated := assignAt (rivalBestInRace st) rivalRacePoints userPositions remainingRaceIndices
    bestSum st.championship.countBest updated

/-- The `if` chain that sets `status` in each of the three enumeration branches. -/
def classify (myFinalPoints scenarioRivalMax rivalMinPoints : Int) : ScenarioStatus :=
  if myFinalPoints > scenarioRivalMax then ScenarioStatus.SAFE
  else if myFinalPoints > rivalMinPoints then ScenarioStatus.RISK
  else ScenarioStatus.FAIL

/-- The body shared by the three enumeration branches: the scenario pushed for `positions`. -/
def classifyScenario (st : State) (currentRacePoints : List Int)
    (keyRivalComp : Option Competitor) (rivalMinPoints : Int) (remainingRaceIndices : List Nat)
    (positions : List Nat) : Scenario :=
  let myFinalPoints := calcPointsWithResults st currentRacePoints remainingRaceIndices positions
  let scenarioRivalMax :=
    calcRivalMaxWithUserPositions st keyRivalComp remainingRaceIndices positions
  { results := positions
    myPoints := myFinalPoints
    rivalMaxPoints := scenarioRivalMax
    status := classify myFinalPoints scenarioRivalMax rivalMinPoints }

/-- Source: the generator `generateCombinations(remaining, current)`; the list holds its yields
in order. -/
def generateCombinations (keyPositions : List Nat) : Nat → List Nat → List (List Nat)
  | 0, current => [jsSort (fun a b => (a : Int) - (b : Int)) current]
  | remaining + 1, current =>
    keyPositions.flatMap (fun pos => generateCombinations keyPositions remaining (current ++ [pos]))

/-- A loop that keeps the first element for each key and skips elements whose key was seen. -/
def dedupeBy {α κ : Type} [DecidableEq κ] (key : α → κ) : List κ → List α → List α
  | _, [] => []
  | seen, x :: xs =>
    if key x ∈ seen then dedupeBy key seen xs
    else x :: dedupeBy key (key x :: seen) xs

/-- The candidate position lists of the three enumeration branches, in the order they are
classified. Joined with commas, combinations of one length are equal exactly when they are equal
as lists, so the `seen` set of strings is a set of lists. -/
def candidatePositions (maxPosition remainingRaces : Nat) : List (List Nat) :=
  let positionsToTry := List.range' 1 maxPosition
  if remainingRaces = 1 then positionsToTry.map (fun pos => [pos])
  else if remainingRaces = 2 then
    positionsToTry.flatMap (fun pos1 =>
      (positionsToTry.filter (fun pos2 => decide (pos1 ≤ pos2))).map (fun pos2 => [pos1, pos2]))
  else
    let keyPositions := [1, 2, 3, 4, 5, min 8 maxPosition, min 10 maxPosition]
    dedupeBy (fun combo => combo) [] (generateCombinations keyPositions remainingRaces [])

/-- The object `statusOrder`. -/
def statusOrder : ScenarioStatus → Int
  | ScenarioStatus.SAFE => 0
  | ScenarioStatus.RISK => 1
  | ScenarioStatus.FAIL => 2

/-- The comparator handed to `scenarios.sort`. -/
def compareScenarios (a b : Scenario) : Int :=
  if statusOrder a.status ≠ statusOrder b.status then statusOrder a.status - statusOrder b.status
  else if a.myPoints ≠ b.myPoints then b.myPoints - a.myPoints
  else
    let sumA : Nat := a.results.foldl (fun s p => s + p) 0
    let sumB : Nat := b.results.foldl (fun s p => s + p) 0
    (sumB : Int) - (sumA : Int)

/-- The key rival block of `generateScenarios` (source lines 1166-1199): the values of
`keyRival` and `keyRivalComp` after it. -/
def scenariosKeyRival (st : State) (standings : List Standing) (myDriver : Competitor)
    (myCurrentRank targetPosition : Nat) : Option Standing × Option Competitor :=
  if myCurrentRank ≤ targetPosition then
    let rivalStanding := standings.find? (fun s => s.rank = targetPosition + 1)
    let rivalStanding :=
      match rivalStanding with
      | some r => some r
      | none =>
        let tiedRivals := standings.filter (fun s : Standing =>
          decide (s.rank = myCurrentRank) && decide (s.competitorId ≠ myDriver.id))
        if tiedRivals.length > 0 then tiedRivals[0]? else none
    match rivalStanding with
    | some r => (some r, st.competitors.find? (fun c : Competitor => c.id = r.competitorId))
    | none => (none, none)
  else
    let rivalStanding := standings.find? (fun s => s.rank = targetPosition)
    match rivalStanding with
    | some r => (some r, st.competitors.find? (fun c : Competitor => c.id = r.competitorId))
    | none => (none, none)

/-- The scenarios classified by `generateScenarios`, in the order they are pushed, before the
sort; `none` when reading `myStanding.rank` throws. -/
def classifiedScenarios (st : State) (myDriver : Competitor) (targetPosition : Nat)
    (remainingRaceIndices : List Nat) : Option (List Scenario) :=
  let standings := calculateStandings st
  let maxPosition := min (st.championship.scoring.length + 3) 20
  let remainingRaces := remainingRaceIndices.length
  let currentRacePoints :=
    myDriver.results.map (fun r => calculateRacePoints st r.position r.fastestLap)
  match standings.find? (fun s => s.competitorId = myDriver.id) with
  | none => none
  | some myStanding =>
    let myCurrentRank := myStanding.rank
    let keyRivalComp := (scenariosKeyRival st standings myDriver myCurrentRank targetPosition).2
    let rivalMinPoints :=
      match keyRivalComp with
      | some k => calculateMinPossiblePoints st k
      | none => 0
    some ((candidatePositions maxPosition remainingRaces).map
      (classifyScenario st currentRacePoints keyRivalComp rivalMinPoints remainingRaceIndices))

/-- The tail of `generateScenarios`: sort, deduplicate by status and points, cap each status. -/
def presentScenarios (scenarios : List Scenario) : List Scenario :=
  let sorted := jsSort compareScenarios scenarios
  let deduplicatedScenarios := dedupeBy (fun s => (s.status, s.myPoints)) [] sorted
  let safeScenarios :=
    (deduplicatedScenarios.filter (fun s => s.status = ScenarioStatus.SAFE)).take 5
  let riskScenarios :=
    (deduplicatedScenarios.filter (fun s => s.status = ScenarioStatus.RISK)).take 3
  let failScenarios :=
    (deduplicatedScenarios.filter (fun s => s.status = ScenarioStatus.FAIL)).take 2
  safeScenarios ++ riskScenarios ++ failScenarios

/-- Source: `generateScenarios(myDriver, targetPosition, remainingRaceIndices)`. -/
def generateScenarios (st : State) (myDriver : Competitor) (targetPosition : Nat)
    (remainingRaceIndices : List Nat) : Option (List Scenario) :=
  match classifiedScenarios st myDriver targetPosition remainingRaceIndices with
  | none => none
  | some scenarios => some (presentScenarios scenarios)

/-! ## Required results -/

/-- The `type` strings returned by `calculateRequiredResults`. -/
inductive RequiredType where
  | NONE
  | COMPLETE
  | GUARANTEED
  | NOT_POSSIBLE
  | SCENARIOS
  deriving DecidableEq

/-- The object returned by `calculateRequiredResults`, without the display texts `message` and
`contention`. `rivalMaxPoints` and `rivalName` are present only in the `SCENARIOS` result;
`messageScenario` is the scenario whose `resultsDisplay` the message quotes. -/
structure RequiredResults where
  type : RequiredType
  scenarios : List Scenario
  rivalMaxPoints : Option Int
  rivalName : Option String
  messageScenario : Option Scenario
  deriving DecidableEq

/-- The indices pushed to `remainingRaceIndices` by the `forEach` over `myDriver.results`. -/
def remainingIndices : List Result → Nat → List Nat
  | [], _ => []
  | r :: rest, i =>
    if r.position = none then i :: remainingIndices rest (i + 1)
    else remainingIndices rest (i + 1)

/-- The key rival block of `calculateRequiredResults` (source lines 1009-1043): the values of
`keyRival`, `keyRivalComp` and `rivalMaxPoints` after it. -/
def requiredKeyRival (st : State) (standings : List Standing) (myDriver : Competitor)
    (myCurrentRank targetPosition : Nat) : Option Standing × Option Competitor × Int :=
  if myCurrentRank ≤ targetPosition then
    let rivalStanding := standings.find? (fun s => s.rank = targetPosition + 1)
    let rivalStanding :=
      match rivalStanding with
      | some r => some r
      | none =>
        let tiedRivals := standings.filter (fun s : Standing =>
          decide (s.rank = myCurrentRank) && decide (s.competitorId ≠ myDriver.id))
        if tiedRivals.length > 0 then tiedRivals[0]? else none
    match rivalStanding with
    | some r =>
      let keyRivalComp := st.competitors.find? (fun c : Competitor => c.id = r.competitorId)
      let rivalMaxPoints :=
        match keyRivalComp with
        | some k => calculateMaxPossiblePoints st k
        | none => 0
      (some r, keyRivalComp, rivalMaxPoints)
    | none => (none, none, 0)
  else
    let rivalStanding := standings.find? (fun s => s.rank = targetPosition)
    match rivalStanding with
    | some r =>
      let keyRivalComp := st.competitors.find? (fun c : Competitor => c.id = r.competitorId)
      let rivalMaxPoints :=
        match keyRivalComp with
        | some k => calculateMaxPossiblePoints st k
        | none => 0
      (some r, keyRivalComp, rivalMaxPoints)
    | none => (none, none, 0)

/-- The scenario quoted by the message of a `SCENARIOS` result: the last `SAFE` scenario if
there is one, else the first `RISK` scenario, else none. -/
def quotedScenario (scenarios : List Scenario) : Option Scenario :=
  let safeScenarios := scenarios.filter (fun s => s.status = ScenarioStatus.SAFE)
  let riskScenarios := scenarios.filter (fun s => s.status = ScenarioStatus.RISK)
  if safeScenarios.length > 0 then safeScenarios[safeScenarios.length - 1]?
  else if riskScenarios.length > 0 then riskScenarios[0]?
  else none

/-- Source: `calculateRequiredResults(myDriver, targetPosition)`. The result is `none` when the
call throws a `TypeError`; `myDriver = none` stands for a falsy argument. The texts `message` and
`contention`, and `bestPossibleRank`, which feeds only the message, are left out. -/
def calculateRequiredResults (st : State) (myDriver : Option Competitor)
    (targetPosition : Nat) : Option RequiredResults :=
  let terminal (t : RequiredType) : RequiredResults :=
    { type := t, scenarios := [], rivalMaxPoints := none, rivalName := none,
      messageScenario := none }
  match myDriver with
  | none => some (terminal RequiredType.NONE)
  | some myDriver =>
    if st.competitors.length < 2 then some (terminal RequiredType.NONE)
    else
      let standings := calculateStandings st
      match standings.find? (fun s => s.competitorId = myDriver.id) with
      | none => none
      | some myStanding =>
        let myCurrentRank := myStanding.rank
        let myMaxPoints := calculateMaxPossiblePoints st myDriver
        let myMinPoints := calculateMinPossiblePoints st myDriver
        let remainingRaceIndices := remainingIndices myDriver.results 0
        let remainingRaces := remainingRaceIndices.length
        if remainingRaces = 0 then some (terminal RequiredType.COMPLETE)
        else
          let (keyRival, _, rivalMaxPoints) :=
            requiredKeyRival st standings myDriver myCurrentRank targetPosition
          let canBeCaught :=
            match keyRival with
            | some _ => decide (rivalMaxPoints ≥ myMinPoints)
            | none => false
          if myCurrentRank ≤ targetPosition ∧ canBeCaught = false then
            some (terminal RequiredType.GUARANTEED)
          else
            let targetRivalStanding := standings.find? (fun s => s.rank = targetPosition)
            let targetRivalComp :=
              match targetRivalStanding with
              | some t => st.competitors.find? (fun c => c.id = t.competitorId)
              | none => none
            let targetRivalMinPoints :=
              match targetRivalComp with
              | some c => calculateMinPossiblePoints st c
              | none => 0
            if myCurrentRank > targetPosition ∧ myMaxPoints ≤ targetRivalMinPoints then
              some (terminal RequiredType.NOT_POSSIBLE)
            else
              match generateScenarios st myDriver targetPosition remainingRaceIndices with
              | none => none
              | some scenarios =>
                some
                  { type := RequiredType.SCENARIOS
                    scenarios := scenarios
                    rivalMaxPoints := some rivalMaxPoints
                    rivalName := keyRival.map (fun k => k.name)
                    messageScenario := quotedScenario scenarios }

/-! ## State actions -/

/-- The argument `updates` of `updateConfig`: the configuration fields it carries (`none` for a
field the object does not have). -/
structure ConfigUpdates where
  scoring : Option (List Int)
  totalRounds : Option Nat
  countBest : Option Nat
  flEnabled : Option Bool
  flBonus : Option Int
  targetPosition : Option Nat
  deriving DecidableEq

/-- The call `Object.assign(state.championship, updates)`. -/
def assignUpdates (ch : Championship) (updates : ConfigUpdates) : Championship :=
  { scoring := updates.scoring.getD ch.scoring
    totalRounds := updates.totalRounds.getD ch.totalRounds
    countBest := updates.countBest.getD ch.countBest
    flEnabled := updates.flEnabled.getD ch.flEnabled
    flBonus := updates.flBonus.getD ch.flBonus
    targetPosition := updates.targetPosition.getD ch.targetPosition }

/-- The loop `while (comp.results.length < totalRounds) comp.results.push(...)`, run for at
most `fuel` rounds. -/
def pushWhileShort (totalRounds : Nat) : Nat → List Result → List Result
  | 0, results => results
  | fuel + 1, results =>
    if results.length < totalRounds then
      pushWhileShort totalRounds fuel (results ++ [{ position := none, fastestLap := false }])
    else results

/-- The body of the `forEach` of `updateConfig` for one competitor: the loop, which needs at
most `totalRounds` rounds, and then the assignment `comp.results.length = totalRounds`. -/
def resizeResults (totalRounds : Nat) (comp : Competitor) : Competitor :=
  let results := pushWhileShort totalRounds totalRounds comp.results
  { comp with results := results.take totalRounds }

/-- Source: `updateConfig(updates)`, as a step on the state (`render` only displays). -/
def updateConfig (st : State) (updates : ConfigUpdates) : State :=
  let championship := assignUpdates st.championship updates
  let championship :=
    if championship.countBest > championship.totalRounds then
      { championship with countBest := championship.totalRounds }
    else championship
  { championship := championship
    competitors := st.competitors.map (resizeResults championship.totalRounds) }

/-- The guarded write `if (c.results[raceIndex]) c.results[raceIndex].fastestLap = value`. -/
def setFlag (raceIndex : Nat) (value : Bool) (c : Competitor) : Competitor :=
  match c.results[raceIndex]? with
  | some r => { c with results := c.results.set raceIndex { r with fastestLap := value } }
  | none => c

/-- A write through `state.competitors.find(c => c.id === competitorId)`: `f` is applied to the
first competitor with that id, and to none when there is no such competitor. -/
def updateFirst (competitorId : String) (f : Competitor → Competitor) :
    List Competitor → List Competitor
  | [] => []
  | c :: rest =>
    if c.id = competitorId then f c :: rest else c :: updateFirst competitorId f rest

/-- Source: `setFastestLap(competitorId, raceIndex, hasFl)`, as a step on the state. -/
def setFastestLap (st : State) (competitorId : String) (raceIndex : Nat) (hasFl : Bool) :
    State :=
  let competitors :=
    if hasFl = true then st.competitors.map (setFlag raceIndex false) else st.competitors
  { st with competitors := updateFirst competitorId (setFlag raceIndex hasFl) competitors }

/-! ## The heap -/

/-- A cell of the JavaScript heap, as far as `calculateStandings` reads or creates it; an
address is an index into the list of cells. `config` is the object `state.championship`;
`results` is a `results` array with its result objects; `competitor` is a competitor object,
with the address of its `results` array; `array` is an array of objects, given by the addresses
of its elements; `standing` is a standing object, with the address of the `results` array it
shares with its competitor, and with `isTied` and `rank` that are `undefined` (here `none`)
until they are assigned. The arrays that `calculateTotalPoints` and `countPositionFinishes`
create with `map`, `filter` and the spread copy, and sort in place, are reachable from nothing
else; these functions appear with their values. -/
inductive Cell where
  | config (championship : Championship)
  | results (items : List Result)
  | competitor (id name : String) (isMyDriver : Bool) (results : Nat)
  | array (items : List Nat)
  | standing (competitorId name : String) (isMyDriver : Bool) (totalPoints : Int) (wins : Nat)
      (results : Nat) (isTied : Option Bool) (rank : Option Nat)
  deriving DecidableEq

/-- The global `state`: the addresses of the object `state.championship` and of the array
`state.competitors`. -/
structure StateRef where
  championship : Nat
  competitors : Nat
  deriving DecidableEq

/-- The creation of an object or array: it is stored at the next free address. -/
def alloc (heap : List Cell) (cell : Cell) : Nat × List Cell :=
  (heap.length, heap ++ [cell])

/-- The read of a `results` array. -/
def readResults (heap : List Cell) (address : Nat) : Option (List Result) :=
  match heap[address]? with
  | some (Cell.results items) => some items
  | _ => none

/-- The read of a competitor object with its results. -/
def readCompetitor (heap : List Cell) (address : Nat) : Option Competitor :=
  match heap[address]? with
  | some (Cell.competitor id name isMyDriver results) =>
    match readResults heap results with
    | some items => some { id := id, name := name, isMyDriver := isMyDriver, results := items }
    | none => none
  | _ => none

/-- The global state as it stands in the heap; `none` if the addresses do not lead to a
configuration, an array of competitors and their results. -/
def readState (heap : List Cell) (root : StateRef) : Option State :=
  match heap[root.championship]?, heap[root.competitors]? with
  | some (Cell.config championship), some (Cell.array items) =>
    match mapOrThrow (readCompetitor heap) items with
    | some competitors => some { championship := championship, competitors := competitors }
    | none => none
  | _, _ => none

/-- The callback of `state.competitors.map(comp => (...))`, run over the addresses of the
competitors: each call reads its competitor, computes `totalPoints` and `wins` from the state
as it stands, and creates the standing object, whose `results` is the competitor's array. The
value is the addresses of the new objects and the heap after the calls; `none` when a read
throws. -/
def buildStandings (root : StateRef) : List Nat → List Cell → Option (List Nat × List Cell)
  | [], heap => some ([], heap)
  | comp :: rest, heap =>
    match heap[comp]?, readState heap root with
    | some (Cell.competitor id name isMyDriver results), some st =>
      match readResults heap results with
      | some items =>
        let totalPoints := calculateTotalPoints st items
        let wins := countPositionFinishes items 1
        let (standing, heap) :=
          alloc heap (Cell.standing id name isMyDriver totalPoints wins results none none)
        match buildStandings root rest heap with
        | some (standings, heap) => some (standing :: standings, heap)
        | none => none
      | none => none
    | _, _ => none

/-- The fields of the standing object at `address` that the comparator and the rank pass
read. -/
def readEntry (heap : List Cell) (address : Nat) : Option StandingEntry :=
  match heap[address]? with
  | some (Cell.standing competitorId name isMyDriver totalPoints wins results _ _) =>
    match readResults heap results with
    | some items =>
      some { competitorId := competitorId, name := name, isMyDriver := isMyDriver,
             totalPoints := totalPoints, wins := wins, results := items }
    | none => none
  | _ => none

/-- The comparator of the sort on what is read at two addresses of the array. -/
def compareRead (collate : String → String → Int) :
    Option StandingEntry → Option StandingEntry → Int
  | some a, some b => compareStandingsOn collate a b
  | _, _ => 0

/-- The assignments `standing.isTied = isTied` and `standing.rank = rank` to the standing
object at `address`. -/
def writeRank (heap : List Cell) (address : Nat) (isTied : Bool) (rank : Nat) : List Cell :=
  match heap[address]? with
  | some (Cell.standing competitorId name isMyDriver totalPoints wins results _ _) =>
    heap.set address
      (Cell.standing competitorId name isMyDriver totalPoints wins results (some isTied)
        (some rank))
  | _ => heap

/-- The rank pass `standings.forEach((standing, index) => ...)` over the addresses still to
visit; `prev` is the address `standings[index - 1]`, `none` at index 0. -/
def rankPass : Nat → Nat → Option Nat → List Nat → List Cell → Option (List Cell)
  | _, _, _, [], heap => some heap
  | index, currentRank, none, standing :: rest, heap =>
    rankPass (index + 1) currentRank (some standing) rest
      (writeRank heap standing false currentRank)
  | index, currentRank, some prev, standing :: rest, heap =>
    match readEntry heap standing, readEntry heap prev with
    | some s, some p =>
      let isTied := tiedWith s p
      let currentRank := if !isTied then index + 1 else currentRank
      rankPass (index + 1) currentRank (some standing) rest
        (writeRank heap standing isTied currentRank)
    | _, _ => none

/-- Source: `calculateStandings()` as a program on the heap, with the host's `localeCompare`
passed as `collate`: the `map` creates the standing objects and the array `standings`, the sort
writes the sorted addresses to that array, the rank pass writes `isTied` and `rank` to the
objects of the array. The value is the address of the array returned and the heap after the
call. -/
def calculateStandingsInHeap (collate : String → String → Int) (root : StateRef)
    (heap : List Cell) : Option (Nat × List Cell) :=
  match heap[root.competitors]? with
  | some (Cell.array competitors) =>
    match buildStandings root competitors heap with
    | some (objects, heap) =>
      let (standings, heap) := alloc heap (Cell.array objects)
      let sorted :=
        jsSort (fun a b => compareRead collate (readEntry heap a) (readEntry heap b)) objects
      let heap := heap.set standings (Cell.array sorted)
      match rankPass 0 1 none sorted heap with
      | some heap => some (standings, heap)
      | none => none
    | none => none
  | _ => none

/-- The read of a standing object whose `isTied` and `rank` have been assigned. -/
def readStanding (heap : List Cell) (address : Nat) : Option Standing :=
  match heap[address]? with
  | some (Cell.standing competitorId name isMyDriver totalPoints wins results (some isTied)
      (some rank)) =>
    match readResults heap results with
    | some items =>
      some { competitorId := competitorId, name := name, isMyDriver := isMyDriver,
             totalPoints := totalPoints, wins := wins, results := items, isTied := isTied,
             rank := rank }
    | none => none
  | _ => none

/-- The deep value of the array of standings at `address`. -/
def readStandings (heap : List Cell) (address : Nat) : Option (List Standing) :=
  match heap[address]? with
  | some (Cell.array items) => mapOrThrow (readStanding heap) items
  | _ => none

/-! ## Notions used to state the claims -/

/-- The configurations the engine accepts: `scoring` non-empty with non-negative entries,
`flBonus` non-negative and `1 ≤ countBest ≤ totalRounds`. -/
def Accepted (ch : Championship) : Prop :=
  ch.scoring ≠ [] ∧ (∀ x ∈ ch.scoring, 0 ≤ x) ∧ 0 ≤ ch.flBonus ∧
    1 ≤ ch.countBest ∧ ch.countBest ≤ ch.totalRounds

instance (ch : Championship) : Decidable (Accepted ch) := by
  unfold Accepted
  infer_instance

/-- Result `r'` takes the place of result `r` in a completion: an absent position is replaced
by a positive position with any fastest-lap flag, an entered result is kept as it is. -/
def fillsAbsent (r r' : Result) : Bool :=
  match r.position with
  | none =>
    match r'.position with
    | some p => decide (1 ≤ p)
    | none => false
  | some _ => decide (r' = r)

/-- List `compl` completes list `orig`: same length, and race by race `fillsAbsent`. -/
def completes : List Result → List Result → Bool
  | [], [] => true
  | r :: rs, r' :: rs' => fillsAbsent r r' && completes rs rs'
  | _, _ => false

/-- The completion that enters first place with the fastest lap in every absent race. -/
def bestCompletion (results : List Result) : List Result :=
  results.map (fun r =>
    if r.position = none then { position := some 1, fastestLap := true } else r)

/-- The list `allPoints` of `calculateMaxPossiblePoints`, written as one `map`. -/
def maxPointsOf (st : State) (results : List Result) : List Int :=
  results.map (fun r =>
    if r.position = none then
      scoringAt st.championship.scoring 1 +
        (if st.championship.flEnabled then st.championship.flBonus else 0)
    else calculateRacePoints st r.position r.fastestLap)

/-- On the positions `ps`, `a` is not behind `b` on finish counts: the tie-break loop of the
comparator does not return a positive value. -/
def CountsLe (ps : List Nat) (a b : List Result) : Prop :=
  ∀ d, countDiff a b ps = some d → d ≤ 0

/-- Entry `a` is not behind `b` on the first two sort levels (points, then finish counts). -/
def KeyLe (a b : StandingEntry) : Prop :=
  b.totalPoints < a.totalPoints ∨
    (b.totalPoints = a.totalPoints ∧ CountsLe tiebreakPositions a.results b.results)

/-- The three-level order of the standings: `a` precedes `b` by more points; on equal points by
the lexicographically greater vector of finish counts for P1, P2, ..., P20; on equal points and
equal count vectors by the smaller name. -/
def Precedes (a b : StandingEntry) : Prop :=
  b.totalPoints < a.totalPoints ∨
  (a.totalPoints = b.totalPoints ∧ ∃ k, 1 ≤ k ∧ k ≤ 20 ∧
    (∀ j, 1 ≤ j → j < k →
      countPositionFinishes a.results j = countPositionFinishes b.results j) ∧
    countPositionFinishes b.results k < countPositionFinishes a.results k) ∨
  (a.totalPoints = b.totalPoints ∧
    (∀ j, 1 ≤ j → j ≤ 20 →
      countPositionFinishes a.results j = countPositionFinishes b.results j) ∧
    a.name < b.name)

/-- Two standings have the same points and the same number of finishes at each of P1..P20. -/
def SameRecord (a b : StandingEntry) : Prop :=
  a.totalPoints = b.totalPoints ∧
    ∀ pos, 1 ≤ pos → pos ≤ 20 →
      countPositionFinishes a.results pos = countPositionFinishes b.results pos

/-- The `isTied` flag the rank pass gives `standing` when the entry before it is `prev`. -/
def stepTied (prev : Option StandingEntry) (standing : StandingEntry) : Bool :=
  match prev with
  | none => false
  | some p => tiedWith standing p

/-- The value of `currentRank` after the rank pass has visited `standing` at `index`. -/
def stepRank (index currentRank : Nat) (prev : Option StandingEntry) (standing : StandingEntry) :
    Nat :=
  match prev with
  | none => currentRank
  | some p => if tiedWith standing p then currentRank else index + 1

/-- Competitor `c` is a threat to `tracked`, whose rank is `R`: a rival (another id) whose rank
is above `targetPosition` in number or equal to `R`, and whose maximum possible points reach the
minimum possible points of `tracked`. -/
def IsThreat (st : State) (tracked : Competitor) (targetPosition R : Nat) (c : Competitor) :
    Prop :=
  c.id ≠ tracked.id ∧
  (∃ sc, (calculateStandings st).find? (fun x => x.competitorId = c.id) = some sc ∧
    (targetPosition < sc.rank ∨ sc.rank = R)) ∧
  calculateMinPossiblePoints st tracked ≤ calculateMaxPossiblePoints st c

/-- No competitor of the state is a threat to `tracked`. -/
def NoThreats (st : State) (tracked : Competitor) (targetPosition R : Nat) : Prop :=
  ∀ c ∈ st.competitors, ¬ IsThreat st tracked targetPosition R c

/-- Some result of the competitor has an absent position. -/
def HasAbsent (c : Competitor) : Prop :=
  ∃ r ∈ c.results, r.position = none

/-- The value `M` of the status table: the minimum possible points of the competitor holding
rank `targetPosition` (the first standing with that rank, and the competitor carrying its id),
and 0 if nobody holds that rank. -/
def holderMinPoints (st : State) (targetPosition : Nat) : Int :=
  match (calculateStandings st).find? (fun x => x.rank = targetPosition) with
  | none => 0
  | some d =>
    match st.competitors.find? (fun c => c.id = d.competitorId) with
    | some c => calculateMinPossiblePoints st c
    | none => 0

/-- The key rival competitor used by `generateScenarios` for `myDriver` and `targetPosition`
(`none` also when `myDriver` has no standing). -/
def scenarioKeyRivalComp (st : State) (myDriver : Competitor) (targetPosition : Nat) :
    Option Competitor :=
  match (calculateStandings st).find? (fun s => s.competitorId = myDriver.id) with
  | none => none
  | some myStanding =>
    (scenariosKeyRival st (calculateStandings st) myDriver myStanding.rank targetPosition).2

/-- The value `rivalMinPoints` of `generateScenarios`: the key rival's minimum possible points,
0 when there is no key rival. -/
def scenarioRivalMin (st : State) (myDriver : Competitor) (targetPosition : Nat) : Int :=
  match scenarioKeyRivalComp st myDriver targetPosition with
  | some k => calculateMinPossiblePoints st k
  | none => 0

/-- The key rival as the selection rule words it: with rank `R` at or inside the target, the
first standing with rank `targetPosition + 1`, and if there is none the first standing of
another competitor that has rank `R`; with rank outside the target, the first standing with rank
`targetPosition`. -/
def specKeyRival (standings : List Standing) (tracked : Competitor) (R targetPosition : Nat) :
    Option Standing :=
  if R ≤ targetPosition then
    match standings.find? (fun s => s.rank = targetPosition + 1) with
    | some d => some d
    | none => standings.find? (fun s : Standing =>
        decide (s.rank = R) && decide (s.competitorId ≠ tracked.id))
  else standings.find? (fun s => s.rank = targetPosition)

/-- The competitor object looked up for a key rival standing. -/
def rivalCompetitor (st : State) (keyRival : Option Standing) : Option Competitor :=
  match keyRival with
  | some d => st.competitors.find? (fun c : Competitor => c.id = d.competitorId)
  | none => none

/-- The scoring table never rises from one place to the next. -/
def NonIncreasing (scoring : List Int) : Prop :=
  List.Pairwise (fun a b => b ≤ a) scoring

instance (scoring : List Int) : Decidable (NonIncreasing scoring) := by
  unfold NonIncreasing
  infer_instance

/-- In every race in which the scenario places the tracked competitor at position `pos`, the
result list `compl` does not hold position `pos`. -/
def avoidsPositions (compl : List Result) : List Nat → List Nat → Bool
  | pos :: positions, raceIdx :: remainingRaceIndices =>
    (match compl[raceIdx]? with
      | some r => decide (r.position ≠ some pos)
      | none => true) && avoidsPositions compl positions remainingRaceIndices
  | _, _ => true

/-- The rival's best reply in a race in which the tracked competitor takes `userPos`: the place
behind the tracked competitor when that is the first place, else first place, with the fastest
lap. -/
def bestReply (userPos : Nat) : Result :=
  { position := some (if userPos ≤ 1 then userPos + 1 else 1), fastestLap := true }

/-- Competitor `c` holds the fastest lap of race `raceIndex`. -/
def holdsFastestLap (raceIndex : Nat) (c : Competitor) : Bool :=
  match c.results[raceIndex]? with
  | some r => r.fastestLap
  | none => false

/-- The number of competitors that hold the fastest lap of race `raceIndex`. -/
def fastestLapCount (st : State) (raceIndex : Nat) : Nat :=
  st.competitors.countP (holdsFastestLap raceIndex)

/-- The result added by `updateConfig`: absent position, no fastest lap. -/
def emptyResult : Result := { position := none, fastestLap := false }

/-- What ECMAScript requires of `localeCompare`: it defines a total ordering of all strings, in
which two strings may be equivalent (result 0): any two strings are comparable, the order is
transitive, and two strings that each come no later than the other compare as 0. -/
def ConsistentCollation (collate : String → String → Int) : Prop :=
  (∀ a b, collate a b ≤ 0 ∨ collate b a ≤ 0) ∧
  (∀ a b c, collate a b ≤ 0 → collate b c ≤ 0 → collate a c ≤ 0) ∧
  (∀ a b, collate a b ≤ 0 → collate b a ≤ 0 → collate a b = 0)

/-- The three-level order of the standings on a host: `a` precedes `b` by more points; on equal
points by the lexicographically greater vector of finish counts for P1, P2, ..., P20; on equal
points and equal count vectors `a.name.localeCompare(b.name)` is not positive. -/
def PrecedesOn (collate : String → String → Int) (a b : StandingEntry) : Prop :=
  b.totalPoints < a.totalPoints ∨
  (a.totalPoints = b.totalPoints ∧ ∃ k, 1 ≤ k ∧ k ≤ 20 ∧
    (∀ j, 1 ≤ j → j < k →
      countPositionFinishes a.results j = countPositionFinishes b.results j) ∧
    countPositionFinishes b.results k < countPositionFinishes a.results k) ∨
  (a.totalPoints = b.totalPoints ∧
    (∀ j, 1 ≤ j → j ≤ 20 →
      countPositionFinishes a.results j = countPositionFinishes b.results j) ∧
    collate a.name b.name ≤ 0)

/-- A collation that compares two strings by the character order of their sort keys. -/
def collateBy (key : String → String) (a b : String) : Int :=
  localeCompare (key a) (key b)

/-- The letters of a name as a Unicode collation reads them: a precomposed `é` (U+00E9) counts
as `e` followed by the combining acute accent (U+0301), its canonical decomposition. -/
def canonicalLetters (name : String) : List Char :=
  name.toList.flatMap (fun c => if c = Char.ofNat 233 then ['e', Char.ofNat 769] else [c])

/-- A sort key in the manner of the Unicode collation algorithm, for the names of the examples:
first the decomposed letters without regard to case, then, after a separator, the letters
themselves. -/
def sampleKey (name : String) : String :=
  String.mk ((canonicalLetters name).map Char.toLower ++ [Char.ofNat 0] ++ canonicalLetters name)

/-- A host collation of the kind browsers have: letters rank before case, and canonically
equivalent strings compare as 0. -/
def sampleCollation (a b : String) : Int :=
  collateBy sampleKey a b

/-- The standing entry that `calculateStandings` builds for competitor `comp`. -/
def entryOf (st : State) (comp : Competitor) : StandingEntry :=
  { competitorId := comp.id
    name := comp.name
    isMyDriver := comp.isMyDriver
    totalPoints := calculateTotalPoints st comp.results
    wins := countPositionFinishes comp.results 1
    results := comp.results }

/-- The standing object created for competitor `c` in state `st`, with `results` at address
`results`. -/
def standingCell (st : State) (c : Competitor) (results : Nat) : Cell :=
  Cell.standing c.id c.name c.isMyDriver (calculateTotalPoints st c.results)
    (countPositionFinishes c.results 1) results none none

/-! ## Example data -/

/-- A result with the given position and no fastest lap. -/
def P (n : Nat) : Result := { position := some n, fastestLap := false }

/-- A result that has not been entered. -/
def absent : Result := { position := none, fastestLap := false }

/-- A configuration without fastest-lap bonus. -/
def mkState (scoring : List Int) (totalRounds countBest : Nat) (cs : List Competitor) : State :=
  { championship := { scoring := scoring, totalRounds := totalRounds, countBest := countBest,
                      flEnabled := false, flBonus := 1, targetPosition := 1 },
    competitors := cs }

def alice : Competitor :=
  { id := "comp_Alice", name := "Alice", isMyDriver := true, results := [P 1, P 3, P 3] }

def bob : Competitor :=
  { id := "comp_Bob", name := "Bob", isMyDriver := false, results := [P 2, P 2, P 2] }

/-- The state of the drop-round test: best 4 of 5. -/
def dropState : State := mkState [25, 18, 15, 12, 10] 5 4 []

/-- The state of the fastest-lap test: bonus 1 on the table `[25, 18, 15]`. -/
def flState : State :=
  { championship := { scoring := [25, 18, 15], totalRounds := 3, countBest := 3,
                      flEnabled := true, flBonus := 1, targetPosition := 1 },
    competitors := [] }

/-- A table whose second place scores more than first place. -/
def risingState : State := mkState [1, 2] 1 1 []

def leader2 : Competitor :=
  { id := "comp_Leader", name := "Leader", isMyDriver := true, results := [P 1, P 1, absent] }

def chall2 : Competitor :=
  { id := "comp_Challenger", name := "Challenger", isMyDriver := false,
    results := [P 2, P 2, absent] }

def leader3 : Competitor :=
  { id := "comp_Leader", name := "Leader", isMyDriver := true, results := [P 1, P 1, P 1] }

def chall3 : Competitor :=
  { id := "comp_Challenger", name := "Challenger", isMyDriver := false,
    results := [P 2, P 2, P 2] }

/-- A competitor whose only race has not been run. -/
def rookie : Competitor :=
  { id := "comp_Rookie", name := "Rookie", isMyDriver := true, results := [absent] }

def carol : Competitor :=
  { id := "comp_Carol", name := "Carol", isMyDriver := false,
    results := [P 3, P 3, P 3, P 3] }

def aliceTied : Competitor :=
  { id := "comp_Alice", name := "Alice", isMyDriver := true,
    results := [P 1, P 2, P 3, P 3] }

def bobTied : Competitor :=
  { id := "comp_Bob", name := "Bob", isMyDriver := false,
    results := [P 1, P 3, P 2, P 3] }

/-- Two competitors with the same record ahead of a third one. -/
def tieState : State := mkState [10, 6, 4] 4 4 [carol, bobTied, aliceTied]

/-- The standing of `aliceTied` in `tieState`. -/
def aliceRow : Standing :=
  { competitorId := "comp_Alice", name := "Alice", isMyDriver := true, totalPoints := 24,
    wins := 1, results := [P 1, P 2, P 3, P 3], isTied := false, rank := 1 }

/-- The standing of `bobTied` in `tieState`. -/
def bobRow : Standing :=
  { competitorId := "comp_Bob", name := "Bob", isMyDriver := false, totalPoints := 24,
    wins := 1, results := [P 1, P 3, P 2, P 3], isTied := true, rank := 1 }

/-- The standing of `carol` in `tieState`. -/
def carolRow : Standing :=
  { competitorId := "comp_Carol", name := "Carol", isMyDriver := false, totalPoints := 16,
    wins := 0, results := [P 3, P 3, P 3, P 3], isTied := false, rank := 3 }

/-- The tie-break test: Alice and Bob on 18 points, Alice with the only win. -/
def winsState : State := mkState [10, 6, 4] 3 3 [bob, alice]

/-- The finished championship of the status test: Leader won all three races. -/
def finalState : State := mkState [25, 18, 15] 3 3 [leader3, chall3]

/-- The standing of `leader3` in `finalState`. -/
def leaderRow : Standing :=
  { competitorId := "comp_Leader", name := "Leader", isMyDriver := true, totalPoints := 75,
    wins := 3, results := [P 1, P 1, P 1], isTied := false, rank := 1 }

/-- The tracked competitor of the scenario test: one race left. -/
def leaderOpen : Competitor :=
  { id := "comp_Leader", name := "Leader", isMyDriver := true, results := [P 1, P 2, absent] }

/-- The rival of the scenario test: one race left. -/
def challOpen : Competitor :=
  { id := "comp_Challenger", name := "Challenger", isMyDriver := false,
    results := [P 2, P 1, absent] }

/-- The state of the scenario test. -/
def openState : State := mkState [25, 18, 15, 12, 10] 3 3 [leaderOpen, challOpen]

/-- The scenarios returned for `leaderOpen` in `openState` with target 1. -/
def openScenarios : List Scenario :=
  [{ results := [1], myPoints := 68, rivalMaxPoints := 61, status := ScenarioStatus.SAFE },
   { results := [2], myPoints := 61, rivalMaxPoints := 68, status := ScenarioStatus.RISK },
   { results := [3], myPoints := 58, rivalMaxPoints := 68, status := ScenarioStatus.RISK },
   { results := [4], myPoints := 55, rivalMaxPoints := 68, status := ScenarioStatus.RISK },
   { results := [8], myPoints := 43, rivalMaxPoints := 68, status := ScenarioStatus.FAIL }]

/-- A competitor without a result in the only race, which the rival won. -/
def retired : Competitor :=
  { id := "comp_Retired", name := "Retired", isMyDriver := true, results := [absent] }

/-- The winner of the only race. -/
def winner : Competitor :=
  { id := "comp_Winner", name := "Winner", isMyDriver := false, results := [P 1] }

/-- One race, won by the rival, in which the tracked competitor has no result. -/
def retiredState : State := mkState [25, 18] 1 1 [retired, winner]

/-- The scenario classified for P1 in `retiredState`. -/
def retiredP1 : Scenario :=
  { results := [1], myPoints := 25, rivalMaxPoints := 18, status := ScenarioStatus.SAFE }

/-- The scenarios classified for `retired` in `retiredState` with target 1. -/
def retiredClassified : List Scenario :=
  [retiredP1,
   { results := [2], myPoints := 18, rivalMaxPoints := 25, status := ScenarioStatus.FAIL },
   { results := [3], myPoints := 0, rivalMaxPoints := 25, status := ScenarioStatus.FAIL },
   { results := [4], myPoints := 0, rivalMaxPoints := 25, status := ScenarioStatus.FAIL },
   { results := [5], myPoints := 0, rivalMaxPoints := 25, status := ScenarioStatus.FAIL }]

/-- The scenarios returned for `retired` in `retiredState` with target 1. -/
def retiredReturned : List Scenario :=
  [retiredP1,
   { results := [2], myPoints := 18, rivalMaxPoints := 25, status := ScenarioStatus.FAIL },
   { results := [5], myPoints := 0, rivalMaxPoints := 25, status := ScenarioStatus.FAIL }]

/-- The scenarios classified for `leaderOpen` in `openState` with target 1. -/
def openClassified : List Scenario :=
  [{ results := [1], myPoints := 68, rivalMaxPoints := 61, status := ScenarioStatus.SAFE },
   { results := [2], myPoints := 61, rivalMaxPoints := 68, status := ScenarioStatus.RISK },
   { results := [3], myPoints := 58, rivalMaxPoints := 68, status := ScenarioStatus.RISK },
   { results := [4], myPoints := 55, rivalMaxPoints := 68, status := ScenarioStatus.RISK },
   { results := [5], myPoints := 53, rivalMaxPoints := 68, status := ScenarioStatus.RISK },
   { results := [6], myPoints := 43, rivalMaxPoints := 68, status := ScenarioStatus.FAIL },
   { results := [7], myPoints := 43, rivalMaxPoints := 68, status := ScenarioStatus.FAIL },
   { results := [8], myPoints := 43, rivalMaxPoints := 68, status := ScenarioStatus.FAIL }]

/-- The scenario classified for P1 in `openState`. -/
def openP1 : Scenario :=
  { results := [1], myPoints := 68, rivalMaxPoints := 61, status := ScenarioStatus.SAFE }

/-- The scenario classified for P2 in `openState`. -/
def openP2 : Scenario :=
  { results := [2], myPoints := 61, rivalMaxPoints := 68, status := ScenarioStatus.RISK }

/-- A tracked competitor who has finished both races in second place. -/
def anna : Competitor :=
  { id := "comp_Anna", name := "Anna", isMyDriver := true, results := [P 2, P 2] }

/-- A rival with one race left. -/
def ben : Competitor :=
  { id := "comp_Ben", name := "Ben", isMyDriver := false, results := [P 3, absent] }

/-- A rival with the same record as `ben` and the other race left. -/
def cara : Competitor :=
  { id := "comp_Cara", name := "Cara", isMyDriver := false, results := [absent, P 3] }

/-- Here `ben` has won the race he had left. -/
def benDone : Competitor :=
  { id := "comp_Ben", name := "Ben", isMyDriver := false, results := [P 3, P 1] }

/-- Here `cara` has won the race she had left. -/
def caraDone : Competitor :=
  { id := "comp_Cara", name := "Cara", isMyDriver := false, results := [P 1, P 3] }

/-- Anna leads two rivals who share rank 2. -/
def lockState : State := mkState [25, 18, 15] 2 2 [anna, ben, cara]

/-- The state `lockState` after both rivals have won their remaining race. -/
def lockStateDone : State := mkState [25, 18, 15] 2 2 [anna, benDone, caraDone]

/-- The winner of the only race, on a table whose second place scores more. -/
def risingLeader : Competitor :=
  { id := "comp_Leader", name := "Leader", isMyDriver := false, results := [P 1] }

/-- One race on the table `[1, 2]`: the leader has won it, the rookie has no result. -/
def risingDuel : State := mkState [1, 2] 1 1 [risingLeader, rookie]

/-- The leader has won all three races, the challenger has one race left. -/
def lateState : State := mkState [25, 18, 15] 3 3 [leader3, chall2]

/-- A rival who finished the only race second. -/
def runnerUp : Competitor :=
  { id := "comp_Runner", name := "Runner", isMyDriver := false, results := [P 2] }

/-- One race, finished second by the rival, in which the tracked competitor has no result. -/
def runnerState : State := mkState [25, 18] 1 1 [retired, runnerUp]

/-- A rival without a result in the only race. -/
def rookieRival : Competitor :=
  { id := "comp_Rival", name := "Rival", isMyDriver := false, results := [absent] }

/-- One open race on the table `[1, 2]`. -/
def risingOpen : State := mkState [1, 2] 1 1 [rookie, rookieRival]

/-- A tracked competitor outside the points in two races, with one race left. -/
def backmarker : Competitor :=
  { id := "comp_Back", name := "Back", isMyDriver := true, results := [P 3, P 3, absent] }

/-- A rival with two wins and one race left. -/
def frontrunner : Competitor :=
  { id := "comp_Front", name := "Front", isMyDriver := false, results := [P 1, P 1, absent] }

/-- Three races on the table `[1, 5]`, the last one open. -/
def steepState : State := mkState [1, 5] 3 3 [backmarker, frontrunner]

/-- A tracked competitor with one result and one race left. -/
def thirdPlace : Competitor :=
  { id := "comp_Third", name := "Third", isMyDriver := true, results := [P 3, absent] }

/-- A rival without a result in either race. -/
def latecomer : Competitor :=
  { id := "comp_Late", name := "Late", isMyDriver := false, results := [absent, absent] }

/-- Two races: the rival has no result in the race the tracked competitor finished. -/
def lateEntryState : State := mkState [25, 18, 15] 2 2 [thirdPlace, latecomer]

/-- An update that sets the number of rounds to 2. -/
def toTwoRounds : ConfigUpdates :=
  { scoring := none, totalRounds := some 2, countBest := none, flEnabled := none,
    flBonus := none, targetPosition := none }

/-- An update that sets the number of rounds to 4. -/
def toFourRounds : ConfigUpdates :=
  { scoring := none, totalRounds := some 4, countBest := none, flEnabled := none,
    flBonus := none, targetPosition := none }

/-- A competitor who won the first race with the fastest lap. -/
def quick : Competitor :=
  { id := "comp_Quick", name := "Quick", isMyDriver := true,
    results := [{ position := some 1, fastestLap := true }, P 2] }

/-- A competitor who was second in the first race and won the second. -/
def steady : Competitor :=
  { id := "comp_Steady", name := "Steady", isMyDriver := false, results := [P 2, P 1] }

/-- Two races with the fastest-lap bonus enabled; `quick` holds the fastest lap of race 1. -/
def lapState : State :=
  { championship := { scoring := [25, 18, 15], totalRounds := 2, countBest := 2,
                      flEnabled := true, flBonus := 1, targetPosition := 1 },
    competitors := [quick, steady] }

/-- The numbers that end the names of the 25 drivers of the performance test. -/
def gridNumbers : List String :=
  ["1", "2", "3", "4", "5", "6", "7", "8", "9", "10", "11", "12", "13", "14", "15", "16", "17",
   "18", "19", "20", "21", "22", "23", "24", "25"]

/-- Driver `i` of the performance test: position `((i + r) % 20) + 1` in race `r`, and the
fastest lap of the first race for the first driver. -/
def gridDriver (i : Nat) (number : String) : Competitor :=
  { id := "comp_Driver_" ++ number, name := "Driver " ++ number, isMyDriver := decide (i = 0),
    results := (List.range 10).map (fun r =>
      { position := some ((i + r) % 20 + 1), fastestLap := decide (r = 0 ∧ i = 0) }) }

/-- The state of the performance test: 25 drivers, 10 rounds, best 8 count. -/
def gridState : State :=
  mkState [25, 18, 15, 12, 10, 8, 6, 4, 2, 1] 10 8
    (List.zipWith gridDriver (List.range 25) gridNumbers)

/-- The tie-break test with the two competitors stored in the other order. -/
def winsStateSwapped : State := mkState [10, 6, 4] 3 3 [alice, bob]

/-- A scoring table with 18 entries. -/
def longTable : List Int :=
  [30, 27, 25, 23, 21, 19, 17, 15, 13, 11, 9, 7, 6, 5, 4, 3, 2, 1]

/-- One open race on the 18-entry table. -/
def longState : State := mkState longTable 1 1 [rookie, rookieRival]

/-- The tracked competitor of the two-race example: one result, two races left. -/
def leaderTwoLeft : Competitor :=
  { id := "comp_Leader", name := "Leader", isMyDriver := true, results := [P 1, absent, absent] }

/-- The rival of the two-race example: one result, two races left. -/
def challTwoLeft : Competitor :=
  { id := "comp_Challenger", name := "Challenger", isMyDriver := false,
    results := [P 2, absent, absent] }

/-- Three races, two of them open, best 2 count. -/
def twoLeftState : State := mkState [25, 18, 15] 3 2 [leaderTwoLeft, challTwoLeft]

/-- A tracked leader with two wins and one race left; best 2 of 4 count. -/
def tom : Competitor :=
  { id := "comp_Tom", name := "Tom", isMyDriver := true, results := [P 6, P 1, P 1, absent] }

/-- The rival in second place: three second places. -/
def al : Competitor :=
  { id := "comp_Al", name := "Al", isMyDriver := false, results := [P 2, P 2, P 2, absent] }

/-- The rival in third place: one win and two fifth places. -/
def bea : Competitor :=
  { id := "comp_Bea", name := "Bea", isMyDriver := false, results := [P 1, P 5, P 5, absent] }

/-- Three of four races run, best 2 count: Tom 50, Al 36, Bea 35. -/
def dropDuel : State := mkState [25, 18, 15, 12, 10] 4 2 [tom, al, bea]

/-- The state `dropDuel` after the last race: Bea first, Al second, Tom tenth. -/
def dropDuelDone : State :=
  mkState [25, 18, 15, 12, 10] 4 2
    [{ tom with results := [P 6, P 1, P 1, P 10] },
     { al with results := [P 2, P 2, P 2, P 2] },
     { bea with results := [P 1, P 5, P 5, P 1] }]

/-- A leader who won the first of two races. -/
def frontMan : Competitor :=
  { id := "comp_Front", name := "Front", isMyDriver := true, results := [P 1, absent] }

/-- A rival who was seventh in the first of two races. -/
def chaser : Competitor :=
  { id := "comp_Chaser", name := "Chaser", isMyDriver := false, results := [P 7, absent] }

/-- Two races on the ten-place table, the second one open. -/
def chaseState : State := mkState [25, 18, 15, 12, 10, 8, 6, 4, 2, 1] 2 2 [frontMan, chaser]

/-- A competitor whose name starts with a capital letter. -/
def bobCapital : Competitor :=
  { id := "comp_Bob", name := "Bob", isMyDriver := false, results := [P 1, P 2] }

/-- A competitor whose name is written in lower case, with the same record as `bobCapital`. -/
def aliceLower : Competitor :=
  { id := "comp_alice", name := "alice", isMyDriver := true, results := [P 2, P 1] }

/-- Two competitors with the same points and finish counts; their names differ in case. -/
def caseState : State := mkState [25, 18] 2 2 [bobCapital, aliceLower]

/-- The standing of `aliceLower` in `caseState`. -/
def aliceLowerRow : Standing :=
  { competitorId := "comp_alice", name := "alice", isMyDriver := true, totalPoints := 43,
    wins := 1, results := [P 2, P 1], isTied := false, rank := 1 }

/-- The standing of `bobCapital` in `caseState`. -/
def bobCapitalRow : Standing :=
  { competitorId := "comp_Bob", name := "Bob", isMyDriver := false, totalPoints := 43,
    wins := 1, results := [P 1, P 2], isTied := true, rank := 1 }

/-- A competitor whose name ends in a precomposed `é`. -/
def renePrecomposed : Competitor :=
  { id := "comp_1", name := "Ren\u00e9", isMyDriver := true, results := [P 1, P 2] }

/-- A competitor whose name ends in `e` and a combining acute accent. -/
def reneDecomposed : Competitor :=
  { id := "comp_2", name := "Rene\u0301", isMyDriver := false, results := [P 2, P 1] }

/-- Two competitors with the same record and canonically equivalent, distinct names. -/
def accentState : State := mkState [25, 18] 2 2 [renePrecomposed, reneDecomposed]

/-- The state `accentState` with the two competitors stored in the other order. -/
def accentStateSwapped : State := mkState [25, 18] 2 2 [reneDecomposed, renePrecomposed]

/-- The state of the scenario test in the heap: the configuration, the two results arrays, the
two competitor objects and the array of competitors. -/
def openHeap : List Cell :=
  [Cell.config openState.championship,
   Cell.results leaderOpen.results,
   Cell.results challOpen.results,
   Cell.competitor "comp_Leader" "Leader" true 1,
   Cell.competitor "comp_Challenger" "Challenger" false 2,
   Cell.array [3, 4]]

/-- The addresses of `state.championship` and `state.competitors` in `openHeap`. -/
def openRoot : StateRef := { championship := 0, competitors := 5 }

/-! ## Sorting and best-N lemmas -/

theorem jsSort_perm {α : Type} (cmp : α → α → Int) (l : List α) : (jsSort cmp l).Perm l :=
  List.perm_insertionSort _ l

theorem jsSort_pairwise {α : Type} (cmp : α → α → Int)
    (htot : ∀ a b, cmp a b ≤ 0 ∨ cmp b a ≤ 0)
    (htr : ∀ a b c, cmp a b ≤ 0 → cmp b c ≤ 0 → cmp a c ≤ 0) (l : List α) :
    List.Pairwise (fun a b => cmp a b ≤ 0) (jsSort cmp l) := by
  haveI : IsTotal α (fun a b => cmp a b ≤ 0) := ⟨htot⟩
  haveI : IsTrans α (fun a b => cmp a b ≤ 0) := ⟨htr⟩
  exact List.sorted_insertionSort _ l

/-- The numeric sort `sort((a, b) => b - a)` yields a non-increasing list. -/
theorem sortDesc_pairwise (l : List Int) :
    List.Pairwise (fun a b => b ≤ a) (jsSort (fun a b => b - a) l) := by
  have h := jsSort_pairwise (fun a b : Int => b - a)
    (fun a b => by show b - a ≤ 0 ∨ a - b ≤ 0; omega)
    (fun a b c (h1 : b - a ≤ 0) (h2 : c - b ≤ 0) => by show c - a ≤ 0; omega) l
  exact h.imp (fun {a b} (hab : b - a ≤ 0) => by omega)

theorem foldl_add_eq_sum (l : List Int) : l.foldl (fun sum pts => sum + pts) 0 = l.sum := by
  rw [List.sum_eq_foldl]

theorem bestSum_eq (k : Nat) (pts : List Int) :
    bestSum k pts = ((jsSort (fun a b => b - a) pts).take k).sum := by
  simp only [bestSum, foldl_add_eq_sum]

/-- In a non-increasing list of non-negative numbers no sublist of at most `k` elements has a
larger sum than the first `k` elements. -/
theorem sum_le_take_of_sublist :
    ∀ (L : List Int), List.Pairwise (fun a b => b ≤ a) L → (∀ x ∈ L, 0 ≤ x) →
      ∀ (s : List Int) (k : Nat), s.Sublist L → s.length ≤ k → s.sum ≤ (L.take k).sum
  | [], _, _, s, k, hs, _ => by
    have : s = [] := List.sublist_nil.mp hs
    subst this
    simp
  | a :: L, hL, hnn, s, k, hs, hk => by
    have hLs : List.Pairwise (fun a b => b ≤ a) L := (List.pairwise_cons.mp hL).2
    have ha : ∀ x ∈ L, x ≤ a := (List.pairwise_cons.mp hL).1
    have hnnL : ∀ x ∈ L, 0 ≤ x := fun x hx => hnn x (List.mem_cons_of_mem _ hx)
    have ih := sum_le_take_of_sublist L hLs hnnL
    have htake_nn : ∀ j, 0 ≤ (L.take j).sum := fun j =>
      List.sum_nonneg (fun x hx => hnnL x (List.mem_of_mem_take hx))
    cases s with
    | nil =>
      simp only [List.sum_nil]
      exact List.sum_nonneg (fun x hx => hnn x (List.mem_of_mem_take hx))
    | cons x t =>
      cases k with
      | zero => simp at hk
      | succ k =>
        have hkt : t.length ≤ k := by simpa using hk
        simp only [List.take_succ_cons, List.sum_cons]
        cases hs with
        | cons _ h =>
          -- `x :: t` lies inside `L`
          have hx : x ≤ a := ha x (h.subset (List.mem_cons_self _ _))
          have ht : t.Sublist L := (List.sublist_cons_self x t).trans h
          have := ih t k ht hkt
          omega
        | cons₂ _ h =>
          have := ih t k h hkt
          omega

/-- Upper bound of the best-N sum over every choice of at most `k` of the values. -/
theorem sublist_sum_le_bestSum (k : Nat) (pts : List Int) (hnn : ∀ x ∈ pts, 0 ≤ x)
    (s : List Int) (hs : s.Sublist pts) (hk : s.length ≤ k) : s.sum ≤ bestSum k pts := by
  rw [bestSum_eq]
  have hperm := jsSort_perm (fun a b : Int => b - a) pts
  obtain ⟨s', hs'perm, hs'sub⟩ : s.Subperm (jsSort (fun a b : Int => b - a) pts) :=
    hs.subperm.trans hperm.symm.subperm
  have hnn' : ∀ x ∈ jsSort (fun a b : Int => b - a) pts, 0 ≤ x :=
    fun x hx => hnn x (hperm.subset hx)
  have := sum_le_take_of_sublist _ (sortDesc_pairwise pts) hnn' s' k hs'sub
    (by rw [hs'perm.length_eq]; exact hk)
  rw [hs'perm.sum_eq] at this
  exact this

/-- The best-N sum is the sum of a choice of at most `k` of the values. -/
theorem exists_sublist_sum_eq_bestSum (k : Nat) (pts : List Int) :
    ∃ s : List Int, s.Sublist pts ∧ s.length ≤ k ∧ s.sum = bestSum k pts := by
  have hperm := jsSort_perm (fun a b : Int => b - a) pts
  obtain ⟨s, hsperm, hssub⟩ : ((jsSort (fun a b : Int => b - a) pts).take k).Subperm pts :=
    (List.take_sublist _ _).subperm.trans hperm.subperm
  refine ⟨s, hssub, ?_, ?_⟩
  · rw [hsperm.length_eq, List.length_take]
    exact min_le_left _ _
  · rw [bestSum_eq, hsperm.sum_eq]

/-- The best-N sum splits the values into the counted ones and the dropped ones, no dropped value
exceeding a counted one. -/
theorem bestSum_split (k : Nat) (pts : List Int) :
    ∃ best rest : List Int, pts.Perm (best ++ rest) ∧ best.length = min k pts.length ∧
      (∀ b ∈ best, ∀ r ∈ rest, r ≤ b) ∧ bestSum k pts = best.sum := by
  have hperm := jsSort_perm (fun a b : Int => b - a) pts
  refine ⟨(jsSort (fun a b : Int => b - a) pts).take k,
    (jsSort (fun a b : Int => b - a) pts).drop k, ?_, ?_, ?_, bestSum_eq k pts⟩
  · rw [List.take_append_drop]
    exact hperm.symm
  · rw [List.length_take, hperm.length_eq]
  · have hp := sortDesc_pairwise pts
    rw [← List.take_append_drop k (jsSort (fun a b : Int => b - a) pts)] at hp
    intro b hb r hr
    exact (List.pairwise_append.mp hp).2.2 b hb r hr

theorem scoringAt_nonneg (scoring : List Int) (hs : ∀ x ∈ scoring, 0 ≤ x) (p : Nat) :
    0 ≤ scoringAt scoring p := by
  unfold scoringAt
  split_ifs with h0
  · exact le_refl 0
  · rw [List.getD_eq_getElem?_getD]
    cases h : scoring[p - 1]? with
    | none => simp
    | some v =>
      have hv : v ∈ scoring := List.getElem?_mem h
      simpa using hs v hv

theorem calculateRacePoints_nonneg (st : State) (hs : ∀ x ∈ st.championship.scoring, 0 ≤ x)
    (hf : 0 ≤ st.championship.flBonus) (position : Option Nat) (fl : Bool) :
    0 ≤ calculateRacePoints st position fl := by
  cases position with
  | none => simp [calculateRacePoints]
  | some p =>
    have h1 := scoringAt_nonneg st.championship.scoring hs p
    simp only [calculateRacePoints]
    split_ifs <;> omega


theorem racePointsOf_nonneg (st : State) (hs : ∀ x ∈ st.championship.scoring, 0 ≤ x)
    (hf : 0 ≤ st.championship.flBonus) (results : List Result) :
    ∀ x ∈ racePointsOf st results, 0 ≤ x := by
  intro x hx
  obtain ⟨r, _, rfl⟩ := List.mem_map.mp hx
  exact calculateRacePoints_nonneg st hs hf _ _

theorem bestSum_of_length_le (k : Nat) (pts : List Int) (h : pts.length ≤ k) :
    bestSum k pts = pts.sum := by
  have hperm := jsSort_perm (fun a b : Int => b - a) pts
  rw [bestSum_eq, List.take_of_length_le (by rw [hperm.length_eq]; exact h), hperm.sum_eq]

theorem exists_sublist_forall₂ {R : Int → Int → Prop} {xs ys : List Int}
    (h : List.Forall₂ R xs ys) :
    ∀ {s : List Int}, s.Sublist xs → ∃ s' : List Int, s'.Sublist ys ∧ List.Forall₂ R s s' := by
  induction h with
  | nil =>
    intro s hs
    have : s = [] := List.sublist_nil.mp hs
    subst this
    exact ⟨[], List.Sublist.slnil, List.Forall₂.nil⟩
  | @cons a b xs ys hab _ ih =>
    intro s hs
    cases hs with
    | cons _ h =>
      obtain ⟨s', h1, h2⟩ := ih h
      exact ⟨s', h1.cons b, h2⟩
    | cons₂ _ h =>
      obtain ⟨s', h1, h2⟩ := ih h
      exact ⟨b :: s', h1.cons₂ b, List.Forall₂.cons hab h2⟩

/-- Raising values pointwise does not lower the best-N sum. -/
theorem bestSum_mono (k : Nat) (xs ys : List Int) (h : List.Forall₂ (fun x y => x ≤ y) xs ys)
    (hy : ∀ y ∈ ys, 0 ≤ y) : bestSum k xs ≤ bestSum k ys := by
  obtain ⟨s, hsub, hlen, hsum⟩ := exists_sublist_sum_eq_bestSum k xs
  obtain ⟨s', hsub', hrel⟩ := exists_sublist_forall₂ h hsub
  have h1 : s.sum ≤ s'.sum := List.Forall₂.sum_le_sum hrel
  have h2 : s'.sum ≤ bestSum k ys :=
    sublist_sum_le_bestSum k ys hy s' hsub' (by rw [← hrel.length_eq]; exact hlen)
  omega

theorem zipWith_map_self {α β γ : Type} (f : α → β → γ) (g : α → β) (l : List α) :
    List.zipWith f l (l.map g) = l.map (fun a => f a (g a)) := by
  induction l with
  | nil => rfl
  | cons a l ih => simp [ih]

theorem calculateMaxPossiblePoints_eq (st : State) (c : Competitor) :
    calculateMaxPossiblePoints st c = bestSum st.championship.countBest (maxPointsOf st c.results) := by
  simp only [calculateMaxPossiblePoints, maxPointsOf, zipWith_map_self]

theorem maxRacePoints_nonneg (st : State) (hs : ∀ x ∈ st.championship.scoring, 0 ≤ x)
    (hf : 0 ≤ st.championship.flBonus) :
    0 ≤ scoringAt st.championship.scoring 1 +
      (if st.championship.flEnabled then st.championship.flBonus else 0) := by
  have h1 := scoringAt_nonneg st.championship.scoring hs 1
  split_ifs <;> omega

theorem maxPointsOf_nonneg (st : State) (hs : ∀ x ∈ st.championship.scoring, 0 ≤ x)
    (hf : 0 ≤ st.championship.flBonus) (results : List Result) :
    ∀ x ∈ maxPointsOf st results, 0 ≤ x := by
  intro x hx
  obtain ⟨r, _, rfl⟩ := List.mem_map.mp hx
  by_cases hr : r.position = none
  · simp only [hr, if_true]
    exact maxRacePoints_nonneg st hs hf
  · simp only [hr, if_false]
    exact calculateRacePoints_nonneg st hs hf _ _

theorem racePointsOf_le_maxPointsOf (st : State) (hs : ∀ x ∈ st.championship.scoring, 0 ≤ x)
    (hf : 0 ≤ st.championship.flBonus) (results : List Result) :
    List.Forall₂ (fun x y => x ≤ y) (racePointsOf st results) (maxPointsOf st results) := by
  induction results with
  | nil => exact List.Forall₂.nil
  | cons r rs ih =>
    refine List.Forall₂.cons ?_ ih
    by_cases hr : r.position = none
    · simp only [hr, calculateRacePoints, if_true]
      exact maxRacePoints_nonneg st hs hf
    · simp only [hr, if_false]
      exact le_refl _

theorem maxPointsOf_eq_of_no_absent (st : State) (results : List Result)
    (h : ∀ r ∈ results, r.position ≠ none) : maxPointsOf st results = racePointsOf st results := by
  unfold maxPointsOf racePointsOf
  apply List.map_congr_left
  intro r hr
  simp [h r hr]

theorem scoringAt_one (scoring : List Int) : scoringAt scoring 1 = scoring.headD 0 := by
  cases scoring <;> simp [scoringAt]

theorem scoringAt_le_top (scoring : List Int) (hs : ∀ x ∈ scoring, 0 ≤ x)
    (htop : ∀ x ∈ scoring, x ≤ scoring.headD 0) (p : Nat) :
    scoringAt scoring p ≤ scoringAt scoring 1 := by
  have h1 : 0 ≤ scoringAt scoring 1 := scoringAt_nonneg scoring hs 1
  rw [scoringAt_one] at h1 ⊢
  unfold scoringAt
  split_ifs with h0
  · exact h1
  · rw [List.getD_eq_getElem?_getD]
    cases h : scoring[p - 1]? with
    | none => simpa using h1
    | some v => simpa using htop v (List.getElem?_mem h)

theorem calculateRacePoints_le_max (st : State) (hs : ∀ x ∈ st.championship.scoring, 0 ≤ x)
    (hf : 0 ≤ st.championship.flBonus)
    (htop : ∀ x ∈ st.championship.scoring, x ≤ st.championship.scoring.headD 0)
    (position : Option Nat) (fl : Bool) :
    calculateRacePoints st position fl ≤
      scoringAt st.championship.scoring 1 +
        (if st.championship.flEnabled then st.championship.flBonus else 0) := by
  cases position with
  | none => exact maxRacePoints_nonneg st hs hf
  | some p =>
    have h1 := scoringAt_le_top st.championship.scoring hs htop p
    simp only [calculateRacePoints]
    cases st.championship.flEnabled <;> cases fl <;> simp <;> omega

theorem completes_forall₂ (st : State) (hs : ∀ x ∈ st.championship.scoring, 0 ≤ x)
    (hf : 0 ≤ st.championship.flBonus)
    (htop : ∀ x ∈ st.championship.scoring, x ≤ st.championship.scoring.headD 0) :
    ∀ (orig compl : List Result), completes orig compl = true →
      List.Forall₂ (fun x y => x ≤ y) (racePointsOf st compl) (maxPointsOf st orig)
  | [], [], _ => List.Forall₂.nil
  | [], _ :: _, h => by simp [completes] at h
  | _ :: _, [], h => by simp [completes] at h
  | r :: rs, r' :: rs', h => by
    simp only [completes, Bool.and_eq_true] at h
    refine List.Forall₂.cons ?_ (completes_forall₂ st hs hf htop rs rs' h.2)
    by_cases hr : r.position = none
    · simp only [hr, if_true]
      exact calculateRacePoints_le_max st hs hf htop _ _
    · have hfill := h.1
      unfold fillsAbsent at hfill
      cases hp : r.position with
      | none => exact absurd hp hr
      | some q =>
        rw [hp] at hfill
        have : r' = r := by simpa using hfill
        subst this
        simp [hp]

theorem completes_bestCompletion : ∀ results : List Result,
    completes results (bestCompletion results) = true
  | [] => rfl
  | r :: rs => by
    have ih := completes_bestCompletion rs
    unfold bestCompletion at ih ⊢
    simp only [List.map_cons, completes, Bool.and_eq_true]
    refine ⟨?_, ih⟩
    cases hp : r.position with
    | none => simp [fillsAbsent, hp]
    | some q => simp [fillsAbsent, hp]

theorem racePointsOf_bestCompletion (st : State) (results : List Result) :
    racePointsOf st (bestCompletion results) = maxPointsOf st results := by
  unfold racePointsOf bestCompletion maxPointsOf
  rw [List.map_map]
  apply List.map_congr_left
  intro r _
  by_cases hr : r.position = none
  · simp [hr, calculateRacePoints]
  · simp [hr]

/-! ## The sort comparator -/

theorem countDiff_cons (a b : List Result) (pos : Nat) (rest : List Nat) :
    countDiff a b (pos :: rest) =
      if countPositionFinishes b pos ≠ countPositionFinishes a pos then
        some ((countPositionFinishes b pos : Int) - (countPositionFinishes a pos : Int))
      else countDiff a b rest := rfl

theorem countDiff_eq_none_iff (a b : List Result) :
    ∀ ps : List Nat, countDiff a b ps = none ↔
      ∀ pos ∈ ps, countPositionFinishes a pos = countPositionFinishes b pos
  | [] => by simp [countDiff]
  | pos :: rest => by
    rw [countDiff_cons]
    by_cases h : countPositionFinishes b pos = countPositionFinishes a pos
    · simp [h, countDiff_eq_none_iff a b rest]
    · simp only [ne_eq, h, not_false_eq_true, if_true, List.mem_cons, forall_eq_or_imp]
      constructor
      · intro hc
        cases hc
      · intro hc
        exact absurd hc.1.symm h

theorem countDiff_swap (a b : List Result) :
    ∀ (ps : List Nat), countDiff b a ps = (countDiff a b ps).map (fun d => -d)
  | [] => rfl
  | pos :: rest => by
    rw [countDiff_cons, countDiff_cons]
    by_cases hc : countPositionFinishes b pos = countPositionFinishes a pos
    · simp [hc, countDiff_swap a b rest]
    · have hc' : ¬ countPositionFinishes a pos = countPositionFinishes b pos := fun h => hc h.symm
      simp [hc, hc']

theorem countsLe_nil (a b : List Result) : CountsLe [] a b := by
  intro d h
  simp [countDiff] at h

theorem countsLe_cons (a b : List Result) (pos : Nat) (rest : List Nat) :
    CountsLe (pos :: rest) a b ↔
      countPositionFinishes b pos < countPositionFinishes a pos ∨
        (countPositionFinishes b pos = countPositionFinishes a pos ∧ CountsLe rest a b) := by
  unfold CountsLe
  rw [countDiff_cons]
  by_cases hc : countPositionFinishes b pos = countPositionFinishes a pos
  · simp [hc]
  · simp only [ne_eq, hc, not_false_eq_true, if_true, Option.some.injEq, forall_eq', false_and,
      or_false]
    omega

theorem countsLe_of_none (ps : List Nat) (a b : List Result) (h : countDiff a b ps = none) :
    CountsLe ps a b := by
  intro d hd
  rw [h] at hd
  cases hd

theorem countsLe_total (a b : List Result) :
    ∀ ps : List Nat, CountsLe ps a b ∨ CountsLe ps b a
  | [] => Or.inl (countsLe_nil a b)
  | pos :: rest => by
    rw [countsLe_cons, countsLe_cons]
    rcases countsLe_total a b rest with h | h
    · rcases Nat.lt_trichotomy (countPositionFinishes b pos) (countPositionFinishes a pos)
        with h1 | h1 | h1
      · exact Or.inl (Or.inl h1)
      · exact Or.inl (Or.inr ⟨h1, h⟩)
      · exact Or.inr (Or.inl h1)
    · rcases Nat.lt_trichotomy (countPositionFinishes b pos) (countPositionFinishes a pos)
        with h1 | h1 | h1
      · exact Or.inl (Or.inl h1)
      · exact Or.inr (Or.inr ⟨h1.symm, h⟩)
      · exact Or.inr (Or.inl h1)

theorem countsLe_trans (a b c : List Result) :
    ∀ ps : List Nat, CountsLe ps a b → CountsLe ps b c → CountsLe ps a c
  | [], _, _ => countsLe_nil a c
  | pos :: rest, h1, h2 => by
    rw [countsLe_cons] at h1 h2 ⊢
    rcases h1 with h1 | ⟨h1, h1'⟩ <;> rcases h2 with h2 | ⟨h2, h2'⟩
    · exact Or.inl (by omega)
    · exact Or.inl (by omega)
    · exact Or.inl (by omega)
    · exact Or.inr ⟨by omega, countsLe_trans a b c rest h1' h2'⟩

theorem countsLe_antisymm (a b : List Result) :
    ∀ ps : List Nat, CountsLe ps a b → CountsLe ps b a → countDiff a b ps = none
  | [], _, _ => rfl
  | pos :: rest, h1, h2 => by
    rw [countsLe_cons] at h1 h2
    rw [countDiff_cons]
    rcases h1 with h1 | ⟨h1, h1'⟩ <;> rcases h2 with h2 | ⟨h2, h2'⟩
    · omega
    · omega
    · omega
    · simp only [ne_eq, h1, not_true_eq_false, if_false]
      exact countsLe_antisymm a b rest h1' h2'

theorem countDiff_none_symm (ps : List Nat) (a b : List Result) (h : countDiff a b ps = none) :
    countDiff b a ps = none := by
  rw [countDiff_swap, h]
  rfl

theorem keyLe_trans (a b c : StandingEntry) (h1 : KeyLe a b) (h2 : KeyLe b c) : KeyLe a c := by
  unfold KeyLe at *
  rcases h1 with h1 | ⟨h1, h1'⟩ <;> rcases h2 with h2 | ⟨h2, h2'⟩
  · exact Or.inl (by omega)
  · exact Or.inl (by omega)
  · exact Or.inl (by omega)
  · exact Or.inr ⟨by omega, countsLe_trans _ _ _ _ h1' h2'⟩

theorem keyLe_antisymm (a b : StandingEntry) (h1 : KeyLe a b) (h2 : KeyLe b a) :
    a.totalPoints = b.totalPoints ∧ countDiff a.results b.results tiebreakPositions = none := by
  unfold KeyLe at *
  rcases h1 with h1 | ⟨h1, h1'⟩ <;> rcases h2 with h2 | ⟨h2, h2'⟩
  · omega
  · omega
  · omega
  · exact ⟨h2, countsLe_antisymm _ _ _ h1' h2'⟩

theorem keyLe_of_tie (a b : StandingEntry) (hp : a.totalPoints = b.totalPoints)
    (hc : countDiff a.results b.results tiebreakPositions = none) : KeyLe a b :=
  Or.inr ⟨hp.symm, countsLe_of_none _ _ _ hc⟩

theorem localeCompare_le_iff (a b : String) : localeCompare a b ≤ 0 ↔ a ≤ b := by
  unfold localeCompare
  rcases lt_trichotomy a b with h | h | h
  · rw [if_pos (String.lt_iff_toList_lt.mp h)]
    exact iff_of_true (by omega) (le_of_lt h)
  · subst h
    rw [if_neg (lt_irrefl _), if_pos rfl]
    exact iff_of_true (le_refl _) (le_refl _)
  · have h1 : ¬ a.toList < b.toList := fun hlt => not_lt_of_gt h (String.lt_iff_toList_lt.mpr hlt)
    have h2 : ¬ a = b := ne_of_gt h
    have h3 : ¬ a ≤ b := not_le_of_gt h
    rw [if_neg h1, if_neg h2]
    exact iff_of_false (by omega) h3

/-- The comparator puts `a` first exactly when `a` is not behind on points and counts and, on a
full tie of those, its name is not the greater one. -/
theorem compareStandings_le_iff (a b : StandingEntry) :
    compareStandings a b ≤ 0 ↔
      KeyLe a b ∧
        (a.totalPoints = b.totalPoints → countDiff a.results b.results tiebreakPositions = none →
          a.name ≤ b.name) := by
  unfold compareStandings KeyLe
  by_cases hp : b.totalPoints = a.totalPoints
  · simp only [ne_eq, hp, not_true_eq_false, if_false, lt_self_iff_false, true_and, false_or,
      forall_true_left]
    cases hc : countDiff a.results b.results tiebreakPositions with
    | none =>
      simp only [localeCompare_le_iff]
      constructor
      · intro h
        exact ⟨countsLe_of_none _ _ _ hc, fun _ => h⟩
      · intro h
        exact h.2 trivial
    | some d =>
      simp only [reduceCtorEq, false_implies, and_true]
      constructor
      · intro h e he
        rw [hc] at he
        cases he
        exact h
      · intro h
        exact h d hc
  · have hp' : ¬ a.totalPoints = b.totalPoints := fun h => hp h.symm
    simp only [ne_eq, hp, not_false_eq_true, if_true, false_and, or_false, hp', false_implies,
      and_true]
    omega

theorem compareStandings_total (a b : StandingEntry) :
    compareStandings a b ≤ 0 ∨ compareStandings b a ≤ 0 := by
  rw [compareStandings_le_iff, compareStandings_le_iff]
  rcases lt_trichotomy a.totalPoints b.totalPoints with hp | hp | hp
  · exact Or.inr ⟨Or.inl hp, fun h => by omega⟩
  · rcases countsLe_total a.results b.results tiebreakPositions with h | h
    · by_cases hn : countDiff a.results b.results tiebreakPositions = none
      · rcases le_total a.name b.name with hname | hname
        · exact Or.inl ⟨Or.inr ⟨hp.symm, h⟩, fun _ _ => hname⟩
        · exact Or.inr ⟨Or.inr ⟨hp, countsLe_of_none _ _ _ (countDiff_none_symm _ _ _ hn)⟩,
            fun _ _ => hname⟩
      · exact Or.inl ⟨Or.inr ⟨hp.symm, h⟩, fun _ hc => absurd hc hn⟩
    · by_cases hn : countDiff b.results a.results tiebreakPositions = none
      · rcases le_total a.name b.name with hname | hname
        · exact Or.inl ⟨Or.inr ⟨hp.symm, countsLe_of_none _ _ _ (countDiff_none_symm _ _ _ hn)⟩,
            fun _ _ => hname⟩
        · exact Or.inr ⟨Or.inr ⟨hp, h⟩, fun _ _ => hname⟩
      · exact Or.inr ⟨Or.inr ⟨hp, h⟩, fun _ hc => absurd hc hn⟩
  · exact Or.inl ⟨Or.inl hp, fun h => by omega⟩

theorem compareStandings_trans (a b c : StandingEntry) (h1 : compareStandings a b ≤ 0)
    (h2 : compareStandings b c ≤ 0) : compareStandings a c ≤ 0 := by
  rw [compareStandings_le_iff] at h1 h2 ⊢
  refine ⟨keyLe_trans a b c h1.1 h2.1, ?_⟩
  intro hp hc
  have hca : KeyLe c a := keyLe_of_tie c a hp.symm (countDiff_none_symm _ _ _ hc)
  have hab := keyLe_antisymm a b h1.1 (keyLe_trans b c a h2.1 hca)
  have hbc := keyLe_antisymm b c h2.1 (keyLe_trans c a b hca h1.1)
  exact le_trans (h1.2 hab.1 hab.2) (h2.2 hbc.1 hbc.2)

/-- The sorted entries are pairwise in comparator order. -/
theorem sorted_entries_pairwise (l : List StandingEntry) :
    List.Pairwise (fun a b => compareStandings a b ≤ 0) (jsSort compareStandings l) :=
  jsSort_pairwise compareStandings compareStandings_total compareStandings_trans l

/-! ## The rank pass -/

theorem assignRanks_cons (index currentRank : Nat) (prev : Option StandingEntry)
    (standing : StandingEntry) (rest : List StandingEntry) :
    assignRanks index currentRank prev (standing :: rest) =
      { toStandingEntry := standing, isTied := stepTied prev standing,
        rank := stepRank index currentRank prev standing } ::
      assignRanks (index + 1) (stepRank index currentRank prev standing) (some standing) rest := by
  cases prev with
  | none => rfl
  | some p =>
    simp only [assignRanks, stepTied, stepRank]
    cases tiedWith standing p <;> simp

theorem assignRanks_entries : ∀ (l : List StandingEntry) (index currentRank : Nat)
    (prev : Option StandingEntry),
    (assignRanks index currentRank prev l).map Standing.toStandingEntry = l
  | [], _, _, _ => by simp [assignRanks]
  | s :: rest, index, currentRank, prev => by
    rw [assignRanks_cons, List.map_cons, assignRanks_entries rest]

theorem mem_tiebreakPositions (pos : Nat) : pos ∈ tiebreakPositions ↔ 1 ≤ pos ∧ pos ≤ 20 := by
  unfold tiebreakPositions
  rw [List.mem_range'_1]
  omega

theorem sameFinishes_iff (a b : List Result) :
    ∀ ps : List Nat, sameFinishes a b ps = true ↔
      ∀ pos ∈ ps, countPositionFinishes a pos = countPositionFinishes b pos
  | [] => by simp [sameFinishes]
  | pos :: rest => by
    by_cases h : countPositionFinishes a pos = countPositionFinishes b pos
    · simp [sameFinishes, h, sameFinishes_iff a b rest]
    · simp [sameFinishes, h]

theorem tiedWith_iff (a b : StandingEntry) : tiedWith a b = true ↔ SameRecord a b := by
  unfold tiedWith SameRecord
  rw [Bool.and_eq_true, decide_eq_true_iff, sameFinishes_iff]
  constructor
  · rintro ⟨h1, h2⟩
    exact ⟨h1, fun pos hp1 hp2 => h2 pos ((mem_tiebreakPositions pos).mpr ⟨hp1, hp2⟩)⟩
  · rintro ⟨h1, h2⟩
    exact ⟨h1, fun pos hp => h2 pos ((mem_tiebreakPositions pos).mp hp).1
      ((mem_tiebreakPositions pos).mp hp).2⟩

theorem sameRecord_iff_tie (a b : StandingEntry) :
    SameRecord a b ↔
      a.totalPoints = b.totalPoints ∧ countDiff a.results b.results tiebreakPositions = none := by
  unfold SameRecord
  rw [countDiff_eq_none_iff]
  constructor
  · rintro ⟨h1, h2⟩
    exact ⟨h1, fun pos hp => h2 pos ((mem_tiebreakPositions pos).mp hp).1
      ((mem_tiebreakPositions pos).mp hp).2⟩
  · rintro ⟨h1, h2⟩
    exact ⟨h1, fun pos hp1 hp2 => h2 pos ((mem_tiebreakPositions pos).mpr ⟨hp1, hp2⟩)⟩

theorem sameRecord_symm (a b : StandingEntry) (h : SameRecord a b) : SameRecord b a :=
  ⟨h.1.symm, fun pos h1 h2 => (h.2 pos h1 h2).symm⟩

/-- Two neighbours of the rank pass: the later one is tied exactly when `tiedWith` says so, and
its rank is the rank before it when tied and its 1-based index otherwise. -/
theorem assignRanks_step : ∀ (l : List StandingEntry) (index currentRank : Nat)
    (prev : Option StandingEntry) (j : Nat) (a b : Standing),
    (assignRanks index currentRank prev l)[j]? = some a →
    (assignRanks index currentRank prev l)[j + 1]? = some b →
    b.isTied = tiedWith b.toStandingEntry a.toStandingEntry ∧
      b.rank = if b.isTied = true then a.rank else index + j + 2
  | [], _, _, _, _, _, _, h, _ => by simp [assignRanks] at h
  | s :: rest, index, currentRank, prev, 0, a, b, ha, hb => by
    rw [assignRanks_cons] at ha hb
    simp only [List.getElem?_cons_zero, Option.some.injEq] at ha
    simp only [zero_add, List.getElem?_cons_succ] at hb
    cases rest with
    | nil => simp [assignRanks] at hb
    | cons s2 rest2 =>
      rw [assignRanks_cons] at hb
      simp only [List.getElem?_cons_zero, Option.some.injEq] at hb
      subst ha
      subst hb
      simp only [stepTied, stepRank]
      refine ⟨trivial, ?_⟩
      cases tiedWith s2 s <;> simp
  | s :: rest, index, currentRank, prev, j + 1, a, b, ha, hb => by
    rw [assignRanks_cons] at ha hb
    simp only [List.getElem?_cons_succ] at ha hb
    have ih := assignRanks_step rest (index + 1) _ _ j a b ha hb
    refine ⟨ih.1, ?_⟩
    rw [ih.2]
    have : index + 1 + j + 2 = index + (j + 1) + 2 := by omega
    rw [this]

theorem stepRank_bounds (index currentRank : Nat) (prev : Option StandingEntry)
    (s : StandingEntry) (h : currentRank ≤ index + 1) :
    currentRank ≤ stepRank index currentRank prev s ∧
      stepRank index currentRank prev s ≤ index + 1 := by
  unfold stepRank
  cases prev with
  | none => exact ⟨le_refl _, h⟩
  | some p =>
    show currentRank ≤ (if tiedWith s p then currentRank else index + 1) ∧
      (if tiedWith s p then currentRank else index + 1) ≤ index + 1
    split_ifs
    · exact ⟨le_refl _, h⟩
    · exact ⟨h, le_refl _⟩

/-- Every rank handed out from `index` on lies between `currentRank` and the last index. -/
theorem assignRanks_rank_bounds : ∀ (l : List StandingEntry) (index currentRank : Nat)
    (prev : Option StandingEntry), currentRank ≤ index + 1 →
    ∀ x ∈ assignRanks index currentRank prev l,
      currentRank ≤ x.rank ∧ x.rank ≤ index + l.length
  | [], _, _, _, _, x, hx => by simp [assignRanks] at hx
  | s :: rest, index, currentRank, prev, h, x, hx => by
    rw [assignRanks_cons] at hx
    have hb := stepRank_bounds index currentRank prev s h
    rcases List.mem_cons.mp hx with hx | hx
    · subst hx
      simp only [List.length_cons]
      omega
    · have ih := assignRanks_rank_bounds rest (index + 1) _ (some s) (by omega) x hx
      simp only [List.length_cons]
      omega

/-- Ranks never decrease along the standings. -/
theorem assignRanks_rank_mono : ∀ (l : List StandingEntry) (index currentRank : Nat)
    (prev : Option StandingEntry), currentRank ≤ index + 1 →
    List.Pairwise (fun a b : Standing => a.rank ≤ b.rank) (assignRanks index currentRank prev l)
  | [], _, _, _, _ => by simp [assignRanks]
  | s :: rest, index, currentRank, prev, h => by
    rw [assignRanks_cons]
    have hb := stepRank_bounds index currentRank prev s h
    refine List.pairwise_cons.mpr ⟨?_, assignRanks_rank_mono rest (index + 1) _ (some s) (by omega)⟩
    intro x hx
    exact (assignRanks_rank_bounds rest (index + 1) _ (some s) (by omega) x hx).1

theorem pairwise_getElem? {α : Type} {R : α → α → Prop} {l : List α} (h : List.Pairwise R l)
    {i j : Nat} (hij : i < j) {a b : α} (ha : l[i]? = some a) (hb : l[j]? = some b) : R a b := by
  obtain ⟨hi, rfl⟩ := List.getElem?_eq_some.mp ha
  obtain ⟨hj, rfl⟩ := List.getElem?_eq_some.mp hb
  exact List.pairwise_iff_getElem.mp h i j hi hj hij

/-- The standings, seen as entries, are the sorted entries. -/
theorem calculateStandings_entries (st : State) :
    (calculateStandings st).map Standing.toStandingEntry =
      jsSort compareStandings (standingEntries st) :=
  assignRanks_entries _ _ _ _

theorem calculateStandings_pairwise (st : State) :
    List.Pairwise
      (fun a b : Standing => compareStandings a.toStandingEntry b.toStandingEntry ≤ 0)
      (calculateStandings st) := by
  have h := sorted_entries_pairwise (standingEntries st)
  rw [← calculateStandings_entries, List.pairwise_map] at h
  exact h

theorem calculateStandings_perm (st : State) :
    ((calculateStandings st).map Standing.toStandingEntry).Perm (standingEntries st) := by
  rw [calculateStandings_entries]
  exact jsSort_perm _ _

theorem countDiff_range'_neg (a b : List Result) :
    ∀ (n s : Nat) (d : Int), countDiff a b (List.range' s n) = some d → d < 0 →
      ∃ k, s ≤ k ∧ k < s + n ∧
        (∀ j, s ≤ j → j < k → countPositionFinishes a j = countPositionFinishes b j) ∧
        countPositionFinishes b k < countPositionFinishes a k
  | 0, s, d, h, _ => by simp [countDiff] at h
  | n + 1, s, d, h, hd => by
    rw [List.range'_succ, countDiff_cons] at h
    by_cases hc : countPositionFinishes b s = countPositionFinishes a s
    · simp only [ne_eq, hc, not_true_eq_false, if_false] at h
      obtain ⟨k, hk1, hk2, hk3, hk4⟩ := countDiff_range'_neg a b n (s + 1) d h hd
      refine ⟨k, by omega, by omega, ?_, hk4⟩
      intro j hj1 hj2
      by_cases hjs : j = s
      · subst hjs
        exact hc.symm
      · exact hk3 j (by omega) hj2
    · simp only [ne_eq, hc, not_false_eq_true, if_true, Option.some.injEq] at h
      exact ⟨s, le_refl s, by omega, fun j h1 h2 => by omega, by omega⟩

theorem countDiff_ne_zero (a b : List Result) :
    ∀ (ps : List Nat) (d : Int), countDiff a b ps = some d → d ≠ 0
  | [], d, h => by simp [countDiff] at h
  | pos :: rest, d, h => by
    rw [countDiff_cons] at h
    by_cases hc : countPositionFinishes b pos = countPositionFinishes a pos
    · simp only [ne_eq, hc, not_true_eq_false, if_false] at h
      exact countDiff_ne_zero a b rest d h
    · simp only [ne_eq, hc, not_false_eq_true, if_true, Option.some.injEq] at h
      omega

/-- An entry sorted between two entries of the same record has that record too. -/
theorem sameRecord_between (a c b : StandingEntry) (hac : compareStandings a c ≤ 0)
    (hcb : compareStandings c b ≤ 0) (hab : SameRecord a b) :
    SameRecord a c ∧ SameRecord c b := by
  have h1 : KeyLe a c := ((compareStandings_le_iff a c).mp hac).1
  have h2 : KeyLe c b := ((compareStandings_le_iff c b).mp hcb).1
  have htie := (sameRecord_iff_tie a b).mp hab
  have h3 : KeyLe b a := keyLe_of_tie b a htie.1.symm (countDiff_none_symm _ _ _ htie.2)
  exact ⟨(sameRecord_iff_tie a c).mpr (keyLe_antisymm a c h1 (keyLe_trans c b a h2 h3)),
    (sameRecord_iff_tie c b).mpr (keyLe_antisymm c b h2 (keyLe_trans b a c h3 h1))⟩

theorem standingEntries_names (st : State) :
    (standingEntries st).map (fun e => e.name) = st.competitors.map (fun c => c.name) := by
  simp [standingEntries, List.map_map, Function.comp_def]

/-! ## The status classifier -/

theorem mapOrThrow_exists {α β : Type} (f : α → Option β) :
    ∀ l : List α, (∀ a ∈ l, ∃ b, f a = some b) → ∃ bs, mapOrThrow f l = some bs
  | [], _ => ⟨[], rfl⟩
  | a :: l, h => by
    obtain ⟨b, hb⟩ := h a (List.mem_cons_self _ _)
    obtain ⟨bs, hbs⟩ := mapOrThrow_exists f l (fun x hx => h x (List.mem_cons_of_mem _ hx))
    exact ⟨b :: bs, by simp [mapOrThrow, hb, hbs]⟩

theorem mapOrThrow_mem_right {α β : Type} (f : α → Option β) :
    ∀ (l : List α) (bs : List β), mapOrThrow f l = some bs →
      ∀ b ∈ bs, ∃ a ∈ l, f a = some b
  | [], bs, h, b, hb => by
    simp only [mapOrThrow, Option.some.injEq] at h
    subst h
    cases hb
  | a :: l, bs, h, b, hb => by
    unfold mapOrThrow at h
    cases hfa : f a with
    | none => simp [hfa] at h
    | some b0 =>
      cases hrest : mapOrThrow f l with
      | none => simp [hfa, hrest] at h
      | some bs0 =>
        simp only [hfa, hrest, Option.some.injEq] at h
        subst h
        rcases List.mem_cons.mp hb with hb | hb
        · subst hb
          exact ⟨a, List.mem_cons_self _ _, hfa⟩
        · obtain ⟨x, hx, hfx⟩ := mapOrThrow_mem_right f l bs0 hrest b hb
          exact ⟨x, List.mem_cons_of_mem _ hx, hfx⟩

theorem mapOrThrow_mem_left {α β : Type} (f : α → Option β) :
    ∀ (l : List α) (bs : List β), mapOrThrow f l = some bs →
      ∀ a ∈ l, ∃ b ∈ bs, f a = some b
  | [], _, _, a, ha => by cases ha
  | a0 :: l, bs, h, a, ha => by
    unfold mapOrThrow at h
    cases hfa : f a0 with
    | none => simp [hfa] at h
    | some b0 =>
      cases hrest : mapOrThrow f l with
      | none => simp [hfa, hrest] at h
      | some bs0 =>
        simp only [hfa, hrest, Option.some.injEq] at h
        subst h
        rcases List.mem_cons.mp ha with ha | ha
        · subst ha
          exact ⟨b0, List.mem_cons_self _ _, hfa⟩
        · obtain ⟨b, hb, hfb⟩ := mapOrThrow_mem_left f l bs0 hrest a ha
          exact ⟨b, List.mem_cons_of_mem _ hb, hfb⟩

/-- Every competitor of the state has a standing. -/
theorem standing_of_competitor (st : State) (c : Competitor) (hc : c ∈ st.competitors) :
    ∃ sc, (calculateStandings st).find? (fun x => x.competitorId = c.id) = some sc := by
  obtain ⟨e, he, hid⟩ : ∃ e ∈ standingEntries st, e.competitorId = c.id :=
    ⟨_, List.mem_map.mpr ⟨c, hc, rfl⟩, rfl⟩
  have hmem : e ∈ (calculateStandings st).map Standing.toStandingEntry :=
    (calculateStandings_perm st).symm.subset he
  obtain ⟨x, hx, hxe⟩ := List.mem_map.mp hmem
  have hsome : ((calculateStandings st).find? (fun x => x.competitorId = c.id)).isSome = true := by
    rw [List.find?_isSome]
    refine ⟨x, hx, ?_⟩
    have : x.competitorId = c.id := by
      rw [← hid, ← hxe]
    simp [this]
  exact Option.isSome_iff_exists.mp hsome

theorem mem_jsSort {α : Type} (cmp : α → α → Int) (l : List α) (x : α) :
    x ∈ jsSort cmp l ↔ x ∈ l :=
  (jsSort_perm cmp l).mem_iff

theorem rivalRecord_fields (st : State) (standings : List Standing) (p mx mn : Int)
    (c : Competitor) (b : Rival) (h : rivalRecord st standings p mx mn c = some b) :
    ∃ sc, standings.find? (fun x => x.competitorId = c.id) = some sc ∧
      b.currentRank = sc.rank ∧ b.maxPoints = calculateMaxPossiblePoints st c := by
  unfold rivalRecord at h
  cases hf : standings.find? (fun x => x.competitorId = c.id) with
  | none => simp [hf] at h
  | some sc =>
    simp only [hf, Option.some.injEq] at h
    subst h
    exact ⟨sc, rfl, rfl, rfl⟩

/-- The list `threatsFromBelow` is empty exactly when no competitor is a threat. -/
theorem threatsFromBelow_empty_iff (st : State) (tracked : Competitor) (targetPosition : Nat)
    (s : Standing) (p mx : Int) (bs : List Rival)
    (hbs : mapOrThrow (rivalRecord st (calculateStandings st) p mx
        (calculateMinPossiblePoints st tracked))
      (st.competitors.filter (fun c => c.id ≠ tracked.id)) = some bs) :
    ((jsSort (fun a b : Rival => (a.currentRank : Int) - (b.currentRank : Int)) bs).filter
      (fun t => (decide (t.currentRank > targetPosition) || decide (t.currentRank = s.rank))
        && decide (t.maxPoints ≥ calculateMinPossiblePoints st tracked))).length = 0 ↔
    NoThreats st tracked targetPosition s.rank := by
  rw [List.length_eq_zero, List.filter_eq_nil_iff]
  constructor
  · intro h c hc hthr
    obtain ⟨hid, ⟨sc, hsc, hrank⟩, hmax⟩ := hthr
    have hcf : c ∈ st.competitors.filter (fun c => c.id ≠ tracked.id) :=
      List.mem_filter.mpr ⟨hc, by simpa using hid⟩
    obtain ⟨b, hb, hfb⟩ := mapOrThrow_mem_left _ _ _ hbs c hcf
    obtain ⟨sc', hsc', hr, hm⟩ := rivalRecord_fields _ _ _ _ _ _ _ hfb
    rw [hsc] at hsc'
    cases hsc'
    refine h b ((mem_jsSort _ _ _).mpr hb) ?_
    simp only [hr, hm, Bool.and_eq_true, Bool.or_eq_true, decide_eq_true_eq]
    exact ⟨hrank, hmax⟩
  · intro h b hb hP
    obtain ⟨c, hc, hfc⟩ := mapOrThrow_mem_right _ _ _ hbs b ((mem_jsSort _ _ _).mp hb)
    obtain ⟨sc, hsc, hr, hm⟩ := rivalRecord_fields _ _ _ _ _ _ _ hfc
    have hcm := List.mem_filter.mp hc
    simp only [hr, hm, Bool.and_eq_true, Bool.or_eq_true, decide_eq_true_eq] at hP
    exact h c hcm.1 ⟨by simpa using hcm.2, ⟨sc, hsc, hP.1⟩, hP.2⟩

theorem hasRemainingRaces_iff (c : Competitor) :
    decide ((c.results.filter (fun r => r.position = none)).length > 0) = true ↔ HasAbsent c := by
  rw [decide_eq_true_iff, gt_iff_lt, List.length_pos_iff_exists_mem]
  unfold HasAbsent
  constructor
  · rintro ⟨r, hr⟩
    have := List.mem_filter.mp hr
    exact ⟨r, this.1, by simpa using this.2⟩
  · rintro ⟨r, hr, hp⟩
    exact ⟨r, List.mem_filter.mpr ⟨hr, by simpa using hp⟩⟩

/-! ## Claims on the points functions -/

/-- C2: `calculateRacePoints` returns 0 for an absent position; for a present (positive)
position it returns `scoring[position - 1]` when the position is within the table and 0 when it
lies beyond it, plus `flBonus` exactly when `flEnabled` and the fastest-lap flag both hold. -/
theorem calculateRacePoints_spec (st : State) (position : Option Nat) (fl : Bool)
    (hpos : ∀ p, position = some p → 1 ≤ p) :
    (position = none → calculateRacePoints st position fl = 0) ∧
    (∀ p, position = some p →
      (∀ h : p - 1 < st.championship.scoring.length,
        calculateRacePoints st position fl =
          st.championship.scoring[p - 1] +
            (if st.championship.flEnabled = true ∧ fl = true then st.championship.flBonus else 0)) ∧
      (st.championship.scoring.length < p →
        calculateRacePoints st position fl =
          0 + (if st.championship.flEnabled = true ∧ fl = true then st.championship.flBonus
               else 0))) := by
  refine ⟨fun h => by subst h; rfl, ?_⟩
  intro p hp
  subst hp
  have h1 : 1 ≤ p := hpos p rfl
  have h0 : p ≠ 0 := by omega
  constructor
  · intro h
    simp [calculateRacePoints, scoringAt, h0, List.getD_eq_getElem?_getD, List.getElem?_eq_getElem h]
  · intro h
    have hlen : st.championship.scoring.length ≤ p - 1 := by omega
    simp [calculateRacePoints, scoringAt, h0, List.getD_eq_getElem?_getD,
      List.getElem?_eq_none hlen]

/-- Witness of C2: bonus 1 on `[25, 18, 15]` gives 26 for P1 with fastest lap, 25 without. -/
theorem calculateRacePoints_spec_witness :
    calculateRacePoints flState (some 1) true = 26 ∧
    calculateRacePoints flState (some 1) false = 25 ∧
    calculateRacePoints flState (some 4) true = 1 := by
  have hpos : ∀ p, some 1 = some p → 1 ≤ p := fun p hp => by
    cases hp
    exact le_refl 1
  have hpos4 : ∀ p, some 4 = some p → 1 ≤ p := fun p hp => by
    cases hp
    decide
  refine ⟨?_, ?_, ?_⟩
  · rw [((calculateRacePoints_spec flState (some 1) true hpos).2 1 rfl).1 (by decide)]
    decide
  · rw [((calculateRacePoints_spec flState (some 1) false hpos).2 1 rfl).1 (by decide)]
    decide
  · rw [((calculateRacePoints_spec flState (some 4) true hpos4).2 4 rfl).2 (by decide)]
    decide

/-- C9: when the list of results is no longer than `countBest`, `calculateTotalPoints` is the
plain sum of `calculateRacePoints` over all results. -/
theorem calculateTotalPoints_no_drop (st : State) (results : List Result)
    (h : results.length ≤ st.championship.countBest) :
    calculateTotalPoints st results = (racePointsOf st results).sum := by
  have hlen : (racePointsOf st results).length ≤ st.championship.countBest := by
    simpa [racePointsOf] using h
  exact bestSum_of_length_le _ _ hlen

/-- Witness of C9: best 5 of 5 on P1..P5 gives 80; three races with `countBest = 5` give 58. -/
theorem calculateTotalPoints_no_drop_witness :
    calculateTotalPoints (mkState [25, 18, 15, 12, 10] 5 5 []) [P 1, P 2, P 3, P 4, P 5] = 80 ∧
    calculateTotalPoints (mkState [25, 18, 15] 3 5 []) [P 1, P 2, P 3] = 58 := by
  constructor
  · rw [calculateTotalPoints_no_drop (mkState [25, 18, 15, 12, 10] 5 5 [])
      [P 1, P 2, P 3, P 4, P 5] (by decide)]
    decide
  · rw [calculateTotalPoints_no_drop (mkState [25, 18, 15] 3 5 []) [P 1, P 2, P 3] (by decide)]
    decide

/-- C1: with non-negative scoring and `flBonus`, `calculateTotalPoints` is the best-N total: the
per-race values split into `min countBest length` counted values and the dropped rest, no dropped
value exceeding a counted one, and the total is the sum of the counted values; no choice of at
most `countBest` of the races has a larger sum, and one such choice has exactly this sum. -/
theorem calculateTotalPoints_best_n (st : State) (results : List Result)
    (hs : ∀ x ∈ st.championship.scoring, 0 ≤ x) (hf : 0 ≤ st.championship.flBonus) :
    (∃ best rest : List Int, (racePointsOf st results).Perm (best ++ rest) ∧
      best.length = min st.championship.countBest results.length ∧
      (∀ b ∈ best, ∀ r ∈ rest, r ≤ b) ∧ calculateTotalPoints st results = best.sum) ∧
    (∀ s : List Int, s.Sublist (racePointsOf st results) → s.length ≤ st.championship.countBest →
      s.sum ≤ calculateTotalPoints st results) ∧
    (∃ s : List Int, s.Sublist (racePointsOf st results) ∧
      s.length ≤ st.championship.countBest ∧ s.sum = calculateTotalPoints st results) := by
  refine ⟨?_, ?_, ?_⟩
  · obtain ⟨best, rest, h1, h2, h3, h4⟩ :=
      bestSum_split st.championship.countBest (racePointsOf st results)
    refine ⟨best, rest, h1, ?_, h3, h4⟩
    simpa [racePointsOf] using h2
  · intro s hsub hlen
    exact sublist_sum_le_bestSum _ _ (racePointsOf_nonneg st hs hf results) s hsub hlen
  · exact exists_sublist_sum_eq_bestSum _ _

/-- Witness of C1: scoring `[25, 18, 15, 12, 10]`, best 4 of 5, results P1..P5 give 70, and 70
bounds the sum of every choice of at most 4 of the five race values. -/
theorem calculateTotalPoints_best_n_witness :
    calculateTotalPoints dropState [P 1, P 2, P 3, P 4, P 5] = 70 ∧
    ∀ s : List Int, s.Sublist [25, 18, 15, 12, 10] → s.length ≤ 4 → s.sum ≤ 70 := by
  have h := calculateTotalPoints_best_n dropState [P 1, P 2, P 3, P 4, P 5]
    (by decide) (by decide)
  have h70 : calculateTotalPoints dropState [P 1, P 2, P 3, P 4, P 5] = 70 := by decide
  refine ⟨h70, ?_⟩
  intro s hsub hlen
  have := h.2.1 s hsub hlen
  rw [h70] at this
  exact this

/-- C7: with non-negative scoring and `flBonus`, the minimum possible points are at most the
current total, which is at most the maximum possible points; when no result of the competitor
has an absent position the three values are equal. -/
theorem min_le_total_le_max (st : State) (c : Competitor)
    (hs : ∀ x ∈ st.championship.scoring, 0 ≤ x) (hf : 0 ≤ st.championship.flBonus) :
    calculateMinPossiblePoints st c ≤ calculateTotalPoints st c.results ∧
    calculateTotalPoints st c.results ≤ calculateMaxPossiblePoints st c ∧
    ((∀ r ∈ c.results, r.position ≠ none) →
      calculateMinPossiblePoints st c = calculateTotalPoints st c.results ∧
      calculateTotalPoints st c.results = calculateMaxPossiblePoints st c) := by
  refine ⟨le_refl _, ?_, ?_⟩
  · rw [calculateMaxPossiblePoints_eq]
    exact bestSum_mono _ _ _ (racePointsOf_le_maxPointsOf st hs hf c.results)
      (maxPointsOf_nonneg st hs hf c.results)
  · intro h
    refine ⟨rfl, ?_⟩
    rw [calculateMaxPossiblePoints_eq, maxPointsOf_eq_of_no_absent st c.results h]
    rfl

/-- Witness of C7: with one race left the leader has minimum 50, total 50 and maximum 75; with
all races run all three are 75. -/
theorem min_le_total_le_max_witness :
    (calculateMinPossiblePoints (mkState [25, 18, 15] 3 3 []) leader2 = 50 ∧
      calculateTotalPoints (mkState [25, 18, 15] 3 3 []) leader2.results = 50 ∧
      calculateMaxPossiblePoints (mkState [25, 18, 15] 3 3 []) leader2 = 75) ∧
    (calculateMinPossiblePoints (mkState [25, 18, 15] 3 3 []) leader3 =
        calculateTotalPoints (mkState [25, 18, 15] 3 3 []) leader3.results ∧
      calculateTotalPoints (mkState [25, 18, 15] 3 3 []) leader3.results =
        calculateMaxPossiblePoints (mkState [25, 18, 15] 3 3 []) leader3) :=
  ⟨⟨by decide, by decide, by decide⟩,
    (min_le_total_le_max (mkState [25, 18, 15] 3 3 []) leader3 (by decide) (by decide)).2.2
      (by decide)⟩

/-- C8, as stated, fails: the table `[1, 2]` is accepted, the rookie's absent race completed
with second place totals 2, and `calculateMaxPossiblePoints` is 1. -/
theorem max_exceeded_on_rising_table :
    Accepted risingState.championship ∧ completes rookie.results [P 2] = true ∧
    calculateTotalPoints risingState [P 2] = 2 ∧
    calculateMaxPossiblePoints risingState rookie = 1 ∧
    ¬ (∀ compl : List Result, completes rookie.results compl = true →
        calculateTotalPoints risingState compl ≤ calculateMaxPossiblePoints risingState rookie) := by
  refine ⟨by decide, by decide, by decide, by decide, ?_⟩
  intro h
  exact absurd (h [P 2] (by decide)) (by decide)

/-- C8, amended: for an accepted configuration in which no entry of the scoring table exceeds
the first one, every completion of the competitor's absent positions totals at most
`calculateMaxPossiblePoints`, and the completion that enters first place with the fastest lap in
every absent race attains it. -/
theorem max_is_best_completion (st : State) (c : Competitor) (hacc : Accepted st.championship)
    (htop : ∀ x ∈ st.championship.scoring, x ≤ st.championship.scoring.headD 0) :
    (∀ compl : List Result, completes c.results compl = true →
      calculateTotalPoints st compl ≤ calculateMaxPossiblePoints st c) ∧
    (completes c.results (bestCompletion c.results) = true ∧
      calculateTotalPoints st (bestCompletion c.results) = calculateMaxPossiblePoints st c) := by
  obtain ⟨_, hs, hf, _, _⟩ := hacc
  constructor
  · intro compl hc
    rw [calculateMaxPossiblePoints_eq]
    exact bestSum_mono _ _ _ (completes_forall₂ st hs hf htop c.results compl hc)
      (maxPointsOf_nonneg st hs hf c.results)
  · refine ⟨completes_bestCompletion c.results, ?_⟩
    rw [calculateMaxPossiblePoints_eq, ← racePointsOf_bestCompletion]
    rfl

/-- Witness of amended C8: on the table `[25, 18, 15]` the leader with one race left has maximum
75, reached by winning the last race, and finishing it third stays below. -/
theorem max_is_best_completion_witness :
    Accepted (mkState [25, 18, 15] 3 3 []).championship ∧
    calculateTotalPoints (mkState [25, 18, 15] 3 3 []) [P 1, P 1, P 3] ≤
      calculateMaxPossiblePoints (mkState [25, 18, 15] 3 3 []) leader2 ∧
    calculateTotalPoints (mkState [25, 18, 15] 3 3 []) (bestCompletion leader2.results) = 75 :=
  ⟨by decide,
    (max_is_best_completion (mkState [25, 18, 15] 3 3 []) leader2 (by decide) (by decide)).1
      [P 1, P 1, P 3] (by decide),
    by decide⟩

/-! ## Claims on the standings -/

/-- C4: the first standing has rank 1 and is not tied; a later standing at 0-based index
`i + 1` is tied exactly when it has the same points and the same P1..P20 finish counts as the
standing at index `i`, takes that standing's rank when tied, and rank `i + 2` otherwise. -/
theorem calculateStandings_rank_rule (st : State) :
    (∀ a, (calculateStandings st)[0]? = some a → a.rank = 1 ∧ a.isTied = false) ∧
    (∀ i a b, (calculateStandings st)[i]? = some a → (calculateStandings st)[i + 1]? = some b →
      (b.isTied = true ↔ SameRecord b.toStandingEntry a.toStandingEntry) ∧
      (b.isTied = true → b.rank = a.rank) ∧ (b.isTied = false → b.rank = i + 2)) := by
  constructor
  · intro a ha
    unfold calculateStandings at ha
    simp only at ha
    cases hs : jsSort compareStandings (standingEntries st) with
    | nil =>
      rw [hs] at ha
      simp [assignRanks] at ha
    | cons s rest =>
      rw [hs, assignRanks_cons] at ha
      simp only [List.getElem?_cons_zero, Option.some.injEq] at ha
      subst ha
      exact ⟨rfl, rfl⟩
  · intro i a b ha hb
    have h := assignRanks_step _ 0 1 none i a b ha hb
    rw [← tiedWith_iff, ← h.1]
    refine ⟨Iff.rfl, ?_, ?_⟩
    · intro ht
      rw [h.2, if_pos ht]
    · intro ht
      rw [h.2, if_neg (by simp [ht])]
      omega

/-- Witness of C4: Alice and Bob share their record and Carol is behind; the ranks read
1, 1, 3 and only Bob is tied. -/
theorem calculateStandings_rank_rule_witness :
    calculateStandings tieState = [aliceRow, bobRow, carolRow] ∧
    SameRecord bobRow.toStandingEntry aliceRow.toStandingEntry ∧
    bobRow.rank = aliceRow.rank ∧ carolRow.rank = 1 + 2 :=
  ⟨by decide,
    ((calculateStandings_rank_rule tieState).2 0 aliceRow bobRow (by decide) (by decide)).1.mp rfl,
    ((calculateStandings_rank_rule tieState).2 0 aliceRow bobRow (by decide) (by decide)).2.1 rfl,
    ((calculateStandings_rank_rule tieState).2 1 bobRow carolRow (by decide) (by decide)).2.2 rfl⟩

/-- C5: two standings with identical points and identical P1..P20 finish counts have the same
rank, and the one listed second is marked tied. -/
theorem tied_share_rank (st : State) (i j : Nat) (a b : Standing) (hij : i < j)
    (ha : (calculateStandings st)[i]? = some a) (hb : (calculateStandings st)[j]? = some b)
    (hrec : SameRecord a.toStandingEntry b.toStandingEntry) :
    a.rank = b.rank ∧ b.isTied = true := by
  have hpw := calculateStandings_pairwise st
  have key : ∀ d j b, j = i + 1 + d → (calculateStandings st)[j]? = some b →
      SameRecord a.toStandingEntry b.toStandingEntry → a.rank = b.rank ∧ b.isTied = true := by
    intro d
    induction d with
    | zero =>
      intro j b hj hb hrec
      subst hj
      have h := assignRanks_step _ 0 1 none i a b ha hb
      have ht : b.isTied = true := by
        rw [h.1, tiedWith_iff]
        exact sameRecord_symm _ _ hrec
      exact ⟨by rw [h.2, if_pos ht], ht⟩
    | succ d ih =>
      intro j b hj hb hrec
      subst hj
      obtain ⟨hjlt, _⟩ := List.getElem?_eq_some.mp hb
      have hlt : i + 1 + d < (calculateStandings st).length := by omega
      obtain ⟨c, hc⟩ : ∃ c, (calculateStandings st)[i + 1 + d]? = some c :=
        ⟨_, List.getElem?_eq_getElem hlt⟩
      have hac := pairwise_getElem? hpw (by omega : i < i + 1 + d) ha hc
      have hcb := pairwise_getElem? hpw (by omega : i + 1 + d < i + 1 + (d + 1)) hc hb
      have hbetween := sameRecord_between _ _ _ hac hcb hrec
      have hrc := ih (i + 1 + d) c rfl hc hbetween.1
      have h := assignRanks_step _ 0 1 none (i + 1 + d) c b hc hb
      have ht : b.isTied = true := by
        rw [h.1, tiedWith_iff]
        exact sameRecord_symm _ _ hbetween.2
      exact ⟨by rw [h.2, if_pos ht]; exact hrc.1, ht⟩
  exact key (j - i - 1) j b (by omega) hb hrec

/-- Witness of C5: Alice and Bob of the tie example share rank 1 and Bob is marked tied. -/
theorem tied_share_rank_witness :
    SameRecord aliceRow.toStandingEntry bobRow.toStandingEntry ∧
    aliceRow.rank = bobRow.rank ∧ bobRow.isTied = true :=
  ⟨(tiedWith_iff _ _).mp (by decide),
    tied_share_rank tieState 0 1 aliceRow bobRow (by decide) (by decide) (by decide)
      ((tiedWith_iff _ _).mp (by decide))⟩

/-- C6: rank monotonicity: a standing with strictly more points than another has a rank that is
less than or equal to the other's. -/
theorem rank_monotone (st : State) (a b : Standing) (ha : a ∈ calculateStandings st)
    (hb : b ∈ calculateStandings st) (hpts : b.totalPoints < a.totalPoints) :
    a.rank ≤ b.rank := by
  obtain ⟨i, hi⟩ := List.mem_iff_getElem?.mp ha
  obtain ⟨j, hj⟩ := List.mem_iff_getElem?.mp hb
  have hmono : List.Pairwise (fun a b : Standing => a.rank ≤ b.rank) (calculateStandings st) :=
    assignRanks_rank_mono _ 0 1 none (by omega)
  rcases Nat.lt_trichotomy i j with hij | hij | hij
  · exact pairwise_getElem? hmono hij hi hj
  · subst hij
    rw [hi] at hj
    cases hj
    omega
  · have hba := pairwise_getElem? (calculateStandings_pairwise st) hij hj hi
    have hkey : KeyLe b.toStandingEntry a.toStandingEntry :=
      ((compareStandings_le_iff _ _).mp hba).1
    rcases hkey with h | ⟨h, _⟩
    · omega
    · omega

/-- Witness of C6: Alice (24 points) has rank 1 and Carol (16 points) has rank 3. -/
theorem rank_monotone_witness :
    carolRow.totalPoints < aliceRow.totalPoints ∧ aliceRow.rank ≤ carolRow.rank :=
  ⟨by decide, rank_monotone tieState aliceRow carolRow (by decide) (by decide) (by decide)⟩

/-! ## Claims on the status classifier -/

/-- C10: `calculatePositionStatus` follows the decision table. Without a tracked competitor or
with fewer than 2 competitors the status is `NONE`. Otherwise, for a tracked competitor whose
standing is `s`: the call returns, the reported rank, points, maximum and minimum are those of
the tracked competitor, and with rank `s.rank` at or inside the target the status is
`GUARANTEED` (no threat, no absent position), `SECURED` (no threat, some absent position) or
`ON_TRACK` (some threat); with rank outside the target it is `ACHIEVABLE` when the tracked
maximum exceeds `M` and `NOT_POSSIBLE` otherwise. -/
theorem calculatePositionStatus_table (st : State) (myDriver : Option Competitor)
    (targetPosition : Nat) :
    ((myDriver = none ∨ st.competitors.length < 2) →
      ∃ r, calculatePositionStatus st myDriver targetPosition = some r ∧
        r.status = Status.NONE) ∧
    (∀ tracked s, myDriver = some tracked → 2 ≤ st.competitors.length →
      (calculateStandings st).find? (fun x => x.competitorId = tracked.id) = some s →
      ∃ r, calculatePositionStatus st myDriver targetPosition = some r ∧
        r.myCurrentRank = some s.rank ∧ r.myCurrentPoints = some s.totalPoints ∧
        r.myMaxPoints = some (calculateMaxPossiblePoints st tracked) ∧
        r.myMinPoints = some (calculateMinPossiblePoints st tracked) ∧
        (s.rank ≤ targetPosition →
          (NoThreats st tracked targetPosition s.rank ∧ ¬ HasAbsent tracked →
            r.status = Status.GUARANTEED) ∧
          (NoThreats st tracked targetPosition s.rank ∧ HasAbsent tracked →
            r.status = Status.SECURED) ∧
          (¬ NoThreats st tracked targetPosition s.rank → r.status = Status.ON_TRACK)) ∧
        (targetPosition < s.rank →
          (holderMinPoints st targetPosition < calculateMaxPossiblePoints st tracked →
            r.status = Status.ACHIEVABLE) ∧
          (calculateMaxPossiblePoints st tracked ≤ holderMinPoints st targetPosition →
            r.status = Status.NOT_POSSIBLE))) := by
  constructor
  · rintro (h | h)
    · subst h
      exact ⟨_, rfl, rfl⟩
    · cases myDriver with
      | none => exact ⟨_, rfl, rfl⟩
      | some d =>
        simp only [calculatePositionStatus, h, if_true]
        exact ⟨_, rfl, rfl⟩
  · intro tracked s hmy hlen hs
    subst hmy
    obtain ⟨bs, hbs⟩ := mapOrThrow_exists
      (rivalRecord st (calculateStandings st) s.totalPoints
        (calculateMaxPossiblePoints st tracked) (calculateMinPossiblePoints st tracked))
      (st.competitors.filter (fun c => c.id ≠ tracked.id))
      (fun c hc => by
        obtain ⟨sc, hsc⟩ := standing_of_competitor st c (List.mem_of_mem_filter hc)
        unfold rivalRecord
        rw [hsc]
        exact ⟨_, rfl⟩)
    have hthr := threatsFromBelow_empty_iff st tracked targetPosition s s.totalPoints
      (calculateMaxPossiblePoints st tracked) bs hbs
    have habs := hasRemainingRaces_iff tracked
    simp only [calculatePositionStatus, if_neg (not_lt.mpr hlen), hs, hbs]
    refine ⟨_, rfl, rfl, rfl, rfl, rfl, ?_, ?_⟩
    · intro hrank
      simp only [if_pos hrank]
      refine ⟨?_, ?_, ?_⟩
      · rintro ⟨hno, hab⟩
        have h1 := hthr.mpr hno
        have h2 : decide ((tracked.results.filter (fun r => r.position = none)).length > 0) =
            false := by
          cases hd : decide ((tracked.results.filter (fun r => r.position = none)).length > 0)
          · rfl
          · exact absurd (habs.mp hd) hab
        rw [if_pos ⟨h1, h2⟩]
      · rintro ⟨hno, hab⟩
        have h1 := hthr.mpr hno
        have h2 := habs.mpr hab
        rw [if_neg (by rw [h2]; simp), if_pos h1]
      · intro hno
        have h1 : ¬ _ := fun h => hno (hthr.mp h)
        rw [if_neg (fun h => h1 h.1), if_neg h1]
    · intro hrank
      simp only [if_neg (not_le.mpr hrank)]
      refine ⟨?_, ?_⟩
      · intro hM
        unfold holderMinPoints at hM
        cases hfd : List.find? (fun x : Standing => decide (x.rank = targetPosition))
            (calculateStandings st) with
        | none =>
          simp only [hfd] at hM ⊢
          exact if_pos hM
        | some d =>
          simp only [hfd] at hM ⊢
          exact if_pos hM
      · intro hM
        unfold holderMinPoints at hM
        cases hfd : List.find? (fun x : Standing => decide (x.rank = targetPosition))
            (calculateStandings st) with
        | none =>
          simp only [hfd] at hM ⊢
          exact if_neg (not_lt.mpr hM)
        | some d =>
          simp only [hfd] at hM ⊢
          exact if_neg (not_lt.mpr hM)

/-- Witness of C10: with all races run, Leader `[P1, P1, P1]` against Challenger `[P2, P2, P2]`
and target 1 is `GUARANTEED`, reported with rank 1 and 75 points as total, maximum and minimum. -/
theorem calculatePositionStatus_table_witness :
    ∃ r, calculatePositionStatus finalState (some leader3) 1 = some r ∧
      r.status = Status.GUARANTEED ∧ r.myCurrentRank = some 1 ∧ r.myCurrentPoints = some 75 ∧
      r.myMaxPoints = some 75 ∧ r.myMinPoints = some 75 := by
  obtain ⟨r, hr, h1, h2, h3, h4, hin, _⟩ :=
    (calculatePositionStatus_table finalState (some leader3) 1).2 leader3 leaderRow rfl
      (by decide) (by decide)
  have hno : NoThreats finalState leader3 1 leaderRow.rank := by
    intro c hc hthr
    have hc2 : c = leader3 ∨ c = chall3 := by
      simpa [finalState, mkState] using hc
    rcases hc2 with hc2 | hc2
    · subst hc2
      exact hthr.1 rfl
    · subst hc2
      exact absurd hthr.2.2 (by decide)
  have hab : ¬ HasAbsent leader3 := by
    unfold HasAbsent
    decide
  exact ⟨r, hr, (hin (by decide)).1 ⟨hno, hab⟩, h1, h2, h3, h4⟩

/-! ## The scenario generator -/

theorem classify_safe_iff (t c m : Int) : classify t c m = ScenarioStatus.SAFE ↔ c < t := by
  unfold classify
  split_ifs with h1 h2
  · exact iff_of_true rfl h1
  · exact iff_of_false (by simp) h1
  · exact iff_of_false (by simp) h1

theorem classify_risk_iff (t c m : Int) :
    classify t c m = ScenarioStatus.RISK ↔ m < t ∧ t ≤ c := by
  unfold classify
  split_ifs with h1 h2
  · exact iff_of_false (by simp) (fun h => by omega)
  · exact iff_of_true rfl ⟨h2, by omega⟩
  · exact iff_of_false (by simp) (fun h => h2 h.1)

theorem classify_fail_iff (t c m : Int) :
    classify t c m = ScenarioStatus.FAIL ↔ t ≤ m ∧ t ≤ c := by
  unfold classify
  split_ifs with h1 h2
  · exact iff_of_false (by simp) (fun h => by omega)
  · exact iff_of_false (by simp) (fun h => by omega)
  · exact iff_of_true rfl ⟨by omega, by omega⟩

theorem mem_of_mem_dedupeBy {α κ : Type} [DecidableEq κ] (key : α → κ) (x : α) :
    ∀ (l : List α) (seen : List κ), x ∈ dedupeBy key seen l → x ∈ l
  | [], _, h => by simp [dedupeBy] at h
  | y :: ys, seen, h => by
    unfold dedupeBy at h
    split_ifs at h with hy
    · exact List.mem_cons_of_mem _ (mem_of_mem_dedupeBy key x ys seen h)
    · rcases List.mem_cons.mp h with h | h
      · exact h ▸ List.mem_cons_self _ _
      · exact List.mem_cons_of_mem _ (mem_of_mem_dedupeBy key x ys _ h)

/-- Every scenario that is returned was classified. -/
theorem mem_of_mem_presentScenarios (l : List Scenario) (x : Scenario)
    (h : x ∈ presentScenarios l) : x ∈ l := by
  unfold presentScenarios at h
  simp only [List.mem_append] at h
  have key : ∀ (q : Scenario → Bool) (n : Nat),
      x ∈ ((dedupeBy (fun s : Scenario => (s.status, s.myPoints)) []
        (jsSort compareScenarios l)).filter q).take n → x ∈ l := by
    intro q n hx
    have h1 := List.mem_of_mem_filter (List.mem_of_mem_take hx)
    exact (mem_jsSort _ _ _).mp (mem_of_mem_dedupeBy _ _ _ _ h1)
  rcases h with (h | h) | h
  · exact key _ _ h
  · exact key _ _ h
  · exact key _ _ h

/-- Every classified scenario is `classifyScenario` of its own positions, with the key rival and
its minimum as `generateScenarios` determines them. -/
theorem classifiedScenarios_mem (st : State) (myDriver : Competitor) (targetPosition : Nat)
    (remainingRaceIndices : List Nat) (scs : List Scenario)
    (h : classifiedScenarios st myDriver targetPosition remainingRaceIndices = some scs)
    (sc : Scenario) (hsc : sc ∈ scs) :
    sc = classifyScenario st (racePointsOf st myDriver.results)
      (scenarioKeyRivalComp st myDriver targetPosition)
      (scenarioRivalMin st myDriver targetPosition) remainingRaceIndices sc.results := by
  unfold classifiedScenarios at h
  unfold scenarioRivalMin scenarioKeyRivalComp
  cases hf : (calculateStandings st).find? (fun s => s.competitorId = myDriver.id) with
  | none => simp [hf] at h
  | some s =>
    simp only [hf, Option.some.injEq] at h
    subst h
    obtain ⟨ps, _, rfl⟩ := List.mem_map.mp hsc
    rfl

theorem generateScenarios_mem (st : State) (myDriver : Competitor) (targetPosition : Nat)
    (remainingRaceIndices : List Nat) (scs : List Scenario)
    (h : generateScenarios st myDriver targetPosition remainingRaceIndices = some scs)
    (sc : Scenario) (hsc : sc ∈ scs) :
    ∃ all, classifiedScenarios st myDriver targetPosition remainingRaceIndices = some all ∧
      sc ∈ all := by
  unfold generateScenarios at h
  cases hc : classifiedScenarios st myDriver targetPosition remainingRaceIndices with
  | none => simp [hc] at h
  | some all =>
    simp only [hc, Option.some.injEq] at h
    subst h
    exact ⟨all, rfl, mem_of_mem_presentScenarios all sc hsc⟩

/-! ## Claims on the scenario classification -/

/-- C14: scenario soundness. Every scenario that `generateScenarios` classifies, and so every
scenario it returns, records as `myPoints` the tracked total for its positions and as
`rivalMaxPoints` the key rival's conditional maximum for them, and its status is `SAFE` exactly
when `myPoints > rivalMaxPoints`. -/
theorem safe_iff_exceeds_conditional_max (st : State) (myDriver : Competitor)
    (targetPosition : Nat) (remainingRaceIndices : List Nat) :
    (∀ scs, classifiedScenarios st myDriver targetPosition remainingRaceIndices = some scs →
      ∀ sc ∈ scs,
        sc.myPoints = calcPointsWithResults st (racePointsOf st myDriver.results)
          remainingRaceIndices sc.results ∧
        sc.rivalMaxPoints = calcRivalMaxWithUserPositions st
          (scenarioKeyRivalComp st myDriver targetPosition) remainingRaceIndices sc.results ∧
        (sc.status = ScenarioStatus.SAFE ↔ sc.myPoints > sc.rivalMaxPoints)) ∧
    (∀ scs, generateScenarios st myDriver targetPosition remainingRaceIndices = some scs →
      ∀ sc ∈ scs, (sc.status = ScenarioStatus.SAFE ↔ sc.myPoints > sc.rivalMaxPoints)) := by
  have main : ∀ scs,
      classifiedScenarios st myDriver targetPosition remainingRaceIndices = some scs →
      ∀ sc ∈ scs,
        sc.myPoints = calcPointsWithResults st (racePointsOf st myDriver.results)
          remainingRaceIndices sc.results ∧
        sc.rivalMaxPoints = calcRivalMaxWithUserPositions st
          (scenarioKeyRivalComp st myDriver targetPosition) remainingRaceIndices sc.results ∧
        (sc.status = ScenarioStatus.SAFE ↔ sc.myPoints > sc.rivalMaxPoints) := by
    intro scs h sc hsc
    have heq := classifiedScenarios_mem st myDriver targetPosition remainingRaceIndices scs h sc hsc
    refine ⟨by rw [heq]; rfl, by rw [heq]; rfl, ?_⟩
    rw [heq]
    exact classify_safe_iff _ _ _
  refine ⟨main, ?_⟩
  intro scs h sc hsc
  obtain ⟨all, hall, hmem⟩ :=
    generateScenarios_mem st myDriver targetPosition remainingRaceIndices scs h sc hsc
  exact (main all hall sc hmem).2.2

/-- Witness of C14: in the scenario test the returned scenario for P1 is `SAFE` and its 68
points exceed the rival's conditional maximum 61. -/
theorem safe_iff_exceeds_conditional_max_witness :
    generateScenarios openState leaderOpen 1 [2] = some openScenarios ∧
    openP1.myPoints > openP1.rivalMaxPoints :=
  ⟨by decide,
    ((safe_iff_exceeds_conditional_max openState leaderOpen 1 [2]).2 openScenarios (by decide)
      openP1 (by decide)).mp rfl⟩

/-- C15, as stated, fails: the tracked competitor has no result in the only race, which the
rival won; taking P1 gives 25 points, not more than the rival's minimum 25, and the scenario is
classified `SAFE` (the rival's known result is overwritten by P2, 18 points), not `FAIL`. -/
theorem fail_iff_at_most_min_refuted :
    classifiedScenarios retiredState retired 1 [0] = some retiredClassified ∧
    generateScenarios retiredState retired 1 [0] = some retiredReturned ∧
    scenarioRivalMin retiredState retired 1 = 25 ∧
    ¬ (∀ scs, generateScenarios retiredState retired 1 [0] = some scs → ∀ sc ∈ scs,
        (sc.status = ScenarioStatus.FAIL ↔
          sc.myPoints ≤ scenarioRivalMin retiredState retired 1)) := by
  refine ⟨by decide, by decide, by decide, ?_⟩
  intro h
  have h1 := h retiredReturned (by decide) retiredP1 (by decide)
  exact absurd (h1.mpr (by decide)) (by decide)

/-- C15, amended: for every scenario that `generateScenarios` classifies, with `T` its
`myPoints`, `M_cond` its `rivalMaxPoints` and `M_min` the key rival's minimum (0 without a key
rival): the status is `FAIL` exactly when `T ≤ M_min` and `T ≤ M_cond`, and `RISK` exactly when
`M_min < T ≤ M_cond`; when `M_min ≤ M_cond`, `FAIL` is exactly `T ≤ M_min`. -/
theorem fail_and_risk_thresholds (st : State) (myDriver : Competitor) (targetPosition : Nat)
    (remainingRaceIndices : List Nat) (scs : List Scenario)
    (h : classifiedScenarios st myDriver targetPosition remainingRaceIndices = some scs)
    (sc : Scenario) (hsc : sc ∈ scs) :
    (sc.status = ScenarioStatus.FAIL ↔
      sc.myPoints ≤ scenarioRivalMin st myDriver targetPosition ∧
        sc.myPoints ≤ sc.rivalMaxPoints) ∧
    (sc.status = ScenarioStatus.RISK ↔
      scenarioRivalMin st myDriver targetPosition < sc.myPoints ∧
        sc.myPoints ≤ sc.rivalMaxPoints) ∧
    (scenarioRivalMin st myDriver targetPosition ≤ sc.rivalMaxPoints →
      (sc.status = ScenarioStatus.FAIL ↔
        sc.myPoints ≤ scenarioRivalMin st myDriver targetPosition)) := by
  have heq := classifiedScenarios_mem st myDriver targetPosition remainingRaceIndices scs h sc hsc
  have hfail : sc.status = ScenarioStatus.FAIL ↔
      sc.myPoints ≤ scenarioRivalMin st myDriver targetPosition ∧
        sc.myPoints ≤ sc.rivalMaxPoints := by
    rw [heq]
    exact classify_fail_iff _ _ _
  refine ⟨hfail, ?_, ?_⟩
  · rw [heq]
    exact classify_risk_iff _ _ _
  · intro hle
    rw [hfail]
    constructor
    · exact fun hh => hh.1
    · exact fun hh => ⟨hh, le_trans hh hle⟩

/-- Witness of amended C15: in the scenario test the rival's minimum is 43; P2 (61 points
against a conditional maximum of 68) is `RISK`. -/
theorem fail_and_risk_thresholds_witness :
    scenarioRivalMin openState leaderOpen 1 = 43 ∧
    (scenarioRivalMin openState leaderOpen 1 < openP2.myPoints ∧
      openP2.myPoints ≤ openP2.rivalMaxPoints) :=
  ⟨by decide,
    (fail_and_risk_thresholds openState leaderOpen 1 [2] openClassified (by decide) openP2
      (by decide)).2.1.mp rfl⟩

/-! ## Key rival selection -/

theorem filter_first_eq_find? {α : Type} (p : α → Bool) :
    ∀ l : List α,
      (if (l.filter p).length > 0 then (l.filter p)[0]? else none) = l.find? p
  | [] => rfl
  | a :: l => by
    by_cases h : p a = true
    · simp [List.filter_cons, List.find?_cons, h]
    · have ih := filter_first_eq_find? p l
      simp only [Bool.not_eq_true] at h
      simp only [List.filter_cons, List.find?_cons, h]
      exact ih

theorem scenariosKeyRival_eq (st : State) (standings : List Standing) (myDriver : Competitor)
    (R targetPosition : Nat) :
    scenariosKeyRival st standings myDriver R targetPosition =
      (specKeyRival standings myDriver R targetPosition,
        rivalCompetitor st (specKeyRival standings myDriver R targetPosition)) := by
  unfold scenariosKeyRival specKeyRival rivalCompetitor
  by_cases hR : R ≤ targetPosition
  · simp only [hR, if_true]
    cases h1 : standings.find? (fun s => s.rank = targetPosition + 1) with
    | some d => rfl
    | none =>
      simp only [filter_first_eq_find?]
      cases standings.find? (fun s : Standing =>
        decide (s.rank = R) && decide (s.competitorId ≠ myDriver.id)) <;> rfl
  · simp only [hR, if_false]
    cases standings.find? (fun s => s.rank = targetPosition) <;> rfl

theorem requiredKeyRival_eq (st : State) (standings : List Standing) (myDriver : Competitor)
    (R targetPosition : Nat) :
    requiredKeyRival st standings myDriver R targetPosition =
      (specKeyRival standings myDriver R targetPosition,
        rivalCompetitor st (specKeyRival standings myDriver R targetPosition),
        match rivalCompetitor st (specKeyRival standings myDriver R targetPosition) with
        | some k => calculateMaxPossiblePoints st k
        | none => 0) := by
  unfold requiredKeyRival specKeyRival rivalCompetitor
  by_cases hR : R ≤ targetPosition
  · simp only [hR, if_true]
    cases h1 : standings.find? (fun s => s.rank = targetPosition + 1) with
    | some d => rfl
    | none =>
      simp only [filter_first_eq_find?]
      cases standings.find? (fun s : Standing =>
        decide (s.rank = R) && decide (s.competitorId ≠ myDriver.id)) <;> rfl
  · simp only [hR, if_false]
    cases standings.find? (fun s => s.rank = targetPosition) <;> rfl

theorem calculateStandings_ids (st : State) :
    ((calculateStandings st).map (fun s => s.competitorId)).Perm
      (st.competitors.map (fun c => c.id)) := by
  have h := (calculateStandings_perm st).map (fun e : StandingEntry => e.competitorId)
  simp only [List.map_map, standingEntries] at h
  exact h

/-- The key rival of the selection rule is not the standing of the tracked competitor, and with
pairwise distinct ids it carries another id. -/
theorem specKeyRival_ne (st : State) (tracked : Competitor) (targetPosition : Nat)
    (s d : Standing)
    (hs : (calculateStandings st).find? (fun x => x.competitorId = tracked.id) = some s)
    (hd : specKeyRival (calculateStandings st) tracked s.rank targetPosition = some d) :
    d ≠ s ∧ d ∈ calculateStandings st ∧
      ((st.competitors.map (fun c => c.id)).Nodup → d.competitorId ≠ tracked.id) := by
  have hsid : s.competitorId = tracked.id := by
    have := List.find?_some hs
    simpa using this
  have hsmem : s ∈ calculateStandings st := List.mem_of_find?_eq_some hs
  have hne_mem : d ≠ s ∧ d ∈ calculateStandings st := by
    unfold specKeyRival at hd
    by_cases hR : s.rank ≤ targetPosition
    · simp only [hR, if_true] at hd
      cases h1 : (calculateStandings st).find? (fun x => x.rank = targetPosition + 1) with
      | some d1 =>
        simp only [h1, Option.some.injEq] at hd
        subst hd
        have hr : d1.rank = targetPosition + 1 := by
          have := List.find?_some h1
          simpa using this
        refine ⟨fun h => ?_, List.mem_of_find?_eq_some h1⟩
        rw [h] at hr
        omega
      | none =>
        simp only [h1] at hd
        have hp := List.find?_some hd
        simp only [Bool.and_eq_true, decide_eq_true_eq] at hp
        refine ⟨fun h => ?_, List.mem_of_find?_eq_some hd⟩
        rw [h] at hp
        exact hp.2 hsid
    · simp only [hR, if_false] at hd
      have hr : d.rank = targetPosition := by
        have := List.find?_some hd
        simpa using this
      refine ⟨fun h => ?_, List.mem_of_find?_eq_some hd⟩
      rw [h] at hr
      omega
  refine ⟨hne_mem.1, hne_mem.2, ?_⟩
  intro hnd hid
  have hnd2 : ((calculateStandings st).map (fun x => x.competitorId)).Nodup :=
    (List.Perm.nodup_iff (calculateStandings_ids st)).mpr hnd
  exact hne_mem.1 (List.inj_on_of_nodup_map hnd2 hne_mem.2 hsmem (by rw [hid, hsid]))

/-- C19: key rival selection. For a tracked competitor whose standing is `s`, the key rival
chosen by `generateScenarios` and the one chosen by `calculateRequiredResults` are both the key
rival of the selection rule (rank `targetPosition + 1`, else another standing of the tracked
rank, when the tracked rank is at or inside the target; rank `targetPosition` otherwise), with the
same competitor object; the key rival is never the tracked competitor's standing, and with
pairwise distinct ids it carries another id. -/
theorem key_rival_selection (st : State) (tracked : Competitor) (targetPosition : Nat)
    (s : Standing)
    (hs : (calculateStandings st).find? (fun x => x.competitorId = tracked.id) = some s) :
    (scenariosKeyRival st (calculateStandings st) tracked s.rank targetPosition).1 =
      specKeyRival (calculateStandings st) tracked s.rank targetPosition ∧
    (requiredKeyRival st (calculateStandings st) tracked s.rank targetPosition).1 =
      specKeyRival (calculateStandings st) tracked s.rank targetPosition ∧
    (requiredKeyRival st (calculateStandings st) tracked s.rank targetPosition).2.1 =
      (scenariosKeyRival st (calculateStandings st) tracked s.rank targetPosition).2 ∧
    (∀ d, specKeyRival (calculateStandings st) tracked s.rank targetPosition = some d →
      d ≠ s ∧
      ((st.competitors.map (fun c => c.id)).Nodup → d.competitorId ≠ tracked.id)) := by
  rw [scenariosKeyRival_eq, requiredKeyRival_eq]
  refine ⟨rfl, rfl, rfl, ?_⟩
  intro d hd
  have h := specKeyRival_ne st tracked targetPosition s d hs hd
  exact ⟨h.1, h.2.2⟩

/-- Witness of C19: in the scenario test the leader shares rank 1 with the challenger, nobody
has rank 2, and the key rival is the challenger. -/
theorem key_rival_selection_witness :
    ((scenariosKeyRival openState (calculateStandings openState) leaderOpen 1 1).1.map
      (fun d => d.competitorId)) = some "comp_Challenger" ∧
    (requiredKeyRival openState (calculateStandings openState) leaderOpen 1 1).2.1 =
      (scenariosKeyRival openState (calculateStandings openState) leaderOpen 1 1).2 :=
  ⟨by decide,
    (key_rival_selection openState leaderOpen 1
      { competitorId := "comp_Leader", name := "Leader", isMyDriver := true, totalPoints := 43,
        wins := 1, results := [P 1, P 2, absent], isTied := true, rank := 1 }
      (by decide)).2.2.1⟩

/-! ## Required results -/

theorem remainingIndices_length_eq_zero_iff :
    ∀ (results : List Result) (i : Nat),
      (remainingIndices results i).length = 0 ↔ ∀ r ∈ results, r.position ≠ none
  | [], _ => by simp [remainingIndices]
  | r :: rest, i => by
    unfold remainingIndices
    by_cases h : r.position = none
    · simp [h]
    · simp [h, remainingIndices_length_eq_zero_iff rest (i + 1)]

/-- Every standing carries the id of a competitor of the state. -/
theorem competitor_of_standing (st : State) (d : Standing) (hd : d ∈ calculateStandings st) :
    ∃ k, st.competitors.find? (fun c : Competitor => c.id = d.competitorId) = some k := by
  have hmem : d.competitorId ∈ st.competitors.map (fun c => c.id) :=
    (calculateStandings_ids st).subset (List.mem_map.mpr ⟨d, hd, rfl⟩)
  obtain ⟨c, hc, hid⟩ := List.mem_map.mp hmem
  have hsome : (st.competitors.find? (fun c : Competitor => c.id = d.competitorId)).isSome
      = true := by
    rw [List.find?_isSome]
    exact ⟨c, hc, by simp [hid]⟩
  exact Option.isSome_iff_exists.mp hsome

theorem generateScenarios_of_standing (st : State) (myDriver : Competitor)
    (targetPosition : Nat) (remainingRaceIndices : List Nat) (s : Standing)
    (hs : (calculateStandings st).find? (fun x => x.competitorId = myDriver.id) = some s) :
    ∃ scs, generateScenarios st myDriver targetPosition remainingRaceIndices = some scs := by
  unfold generateScenarios classifiedScenarios
  simp only [hs]
  exact ⟨_, rfl⟩

theorem canBeCaught_false_iff (st : State) (X : Option Standing) (mn : Int) :
    (∀ d, X = some d → ∃ k, rivalCompetitor st (some d) = some k) →
    (((match X with
      | some _ =>
        decide ((match rivalCompetitor st X with
          | some k => calculateMaxPossiblePoints st k
          | none => 0) ≥ mn)
      | none => false) = false) ↔
    (X = none ∨ ∃ d k, X = some d ∧ rivalCompetitor st (some d) = some k ∧
      calculateMaxPossiblePoints st k < mn)) := by
  intro hX
  cases X with
  | none => simp
  | some d =>
    obtain ⟨k, hk⟩ := hX d rfl
    simp only [hk, ge_iff_le, decide_eq_false_iff_not, not_le]
    constructor
    · intro h
      exact Or.inr ⟨d, k, rfl, hk, h⟩
    · rintro (h | ⟨d', k', hd', hk', h⟩)
      · cases h
      · cases hd'
        rw [hk] at hk'
        cases hk'
        exact h

theorem holderMinPoints_eq (st : State) (targetPosition : Nat) :
    (match
      (match (calculateStandings st).find? (fun s => s.rank = targetPosition) with
        | some t => st.competitors.find? (fun c : Competitor => c.id = t.competitorId)
        | none => none) with
    | some c => calculateMinPossiblePoints st c
    | none => 0) = holderMinPoints st targetPosition := by
  unfold holderMinPoints
  cases (calculateStandings st).find? (fun s => s.rank = targetPosition) <;> rfl

/-- C20: `calculateRequiredResults` returns `NONE` without a tracked competitor or with fewer
than 2 competitors. For a tracked competitor with a standing `s` it returns a result: `COMPLETE`
when no position is absent; otherwise `GUARANTEED` when the rank is at or inside the target and
there is no key rival or the key rival's maximum is below the tracked minimum; otherwise
`NOT_POSSIBLE` when the rank is outside the target and the tracked maximum is at most the minimum
of the holder of the target rank (0 if none); otherwise `SCENARIOS` with the generated scenarios.
The four terminal results carry no scenarios. -/
theorem calculateRequiredResults_order (st : State) (myDriver : Option Competitor)
    (targetPosition : Nat) :
    ((myDriver = none ∨ st.competitors.length < 2) →
      ∃ r, calculateRequiredResults st myDriver targetPosition = some r ∧
        r.type = RequiredType.NONE ∧ r.scenarios = []) ∧
    (∀ tracked s, myDriver = some tracked → 2 ≤ st.competitors.length →
      (calculateStandings st).find? (fun x => x.competitorId = tracked.id) = some s →
      ∃ r, calculateRequiredResults st myDriver targetPosition = some r ∧
        (¬ HasAbsent tracked → r.type = RequiredType.COMPLETE ∧ r.scenarios = []) ∧
        (HasAbsent tracked →
          ((s.rank ≤ targetPosition ∧
              (specKeyRival (calculateStandings st) tracked s.rank targetPosition = none ∨
                ∃ d k, specKeyRival (calculateStandings st) tracked s.rank targetPosition
                    = some d ∧
                  rivalCompetitor st (some d) = some k ∧
                  calculateMaxPossiblePoints st k < calculateMinPossiblePoints st tracked)) →
            r.type = RequiredType.GUARANTEED ∧ r.scenarios = []) ∧
          (¬ (s.rank ≤ targetPosition ∧
              (specKeyRival (calculateStandings st) tracked s.rank targetPosition = none ∨
                ∃ d k, specKeyRival (calculateStandings st) tracked s.rank targetPosition
                    = some d ∧
                  rivalCompetitor st (some d) = some k ∧
                  calculateMaxPossiblePoints st k < calculateMinPossiblePoints st tracked)) →
            ((targetPosition < s.rank ∧
                calculateMaxPossiblePoints st tracked ≤ holderMinPoints st targetPosition) →
              r.type = RequiredType.NOT_POSSIBLE ∧ r.scenarios = []) ∧
            (¬ (targetPosition < s.rank ∧
                calculateMaxPossiblePoints st tracked ≤ holderMinPoints st targetPosition) →
              r.type = RequiredType.SCENARIOS ∧
              generateScenarios st tracked targetPosition (remainingIndices tracked.results 0)
                = some r.scenarios)))) := by
  constructor
  · rintro (h | h)
    · subst h
      exact ⟨_, rfl, rfl, rfl⟩
    · cases myDriver with
      | none => exact ⟨_, rfl, rfl, rfl⟩
      | some d =>
        simp only [calculateRequiredResults, h, if_true]
        exact ⟨_, rfl, rfl, rfl⟩
  · intro tracked s hmy hlen hs
    subst hmy
    have habs : (remainingIndices tracked.results 0).length = 0 ↔ ¬ HasAbsent tracked := by
      rw [remainingIndices_length_eq_zero_iff]
      unfold HasAbsent
      constructor
      · rintro h ⟨r, hr, hp⟩
        exact h r hr hp
      · intro h r hr hp
        exact h ⟨r, hr, hp⟩
    obtain ⟨scs, hscs⟩ := generateScenarios_of_standing st tracked targetPosition
      (remainingIndices tracked.results 0) s hs
    by_cases hab : HasAbsent tracked
    · have hne : ¬ (remainingIndices tracked.results 0).length = 0 := fun h => habs.mp h hab
      simp only [calculateRequiredResults, if_neg (not_lt.mpr hlen), hs, if_neg hne,
        requiredKeyRival_eq, hscs]
      have hG := canBeCaught_false_iff st
        (specKeyRival (calculateStandings st) tracked s.rank targetPosition)
        (calculateMinPossiblePoints st tracked)
        (fun d hd => by
          obtain ⟨k, hk⟩ := competitor_of_standing st d
            (specKeyRival_ne st tracked targetPosition s d hs hd).2.1
          exact ⟨k, hk⟩)
      have hN := holderMinPoints_eq st targetPosition
      by_cases g : s.rank ≤ targetPosition ∧
          (specKeyRival (calculateStandings st) tracked s.rank targetPosition = none ∨
            ∃ d k, specKeyRival (calculateStandings st) tracked s.rank targetPosition = some d ∧
              rivalCompetitor st (some d) = some k ∧
              calculateMaxPossiblePoints st k < calculateMinPossiblePoints st tracked)
      · refine ⟨_, if_pos ⟨g.1, hG.mpr g.2⟩, fun h => absurd hab h, fun _ => ?_⟩
        exact ⟨fun _ => ⟨rfl, rfl⟩, fun h => absurd g h⟩
      · have gc := fun h : _ ∧ _ => g ⟨h.1, hG.mp h.2⟩
        by_cases n : targetPosition < s.rank ∧
            calculateMaxPossiblePoints st tracked ≤ holderMinPoints st targetPosition
        · refine ⟨_, (if_neg gc).trans (if_pos ⟨n.1, le_of_le_of_eq n.2 hN.symm⟩),
            fun h => absurd hab h, fun _ => ?_⟩
          exact ⟨fun h => absurd h g, fun _ => ⟨fun _ => ⟨rfl, rfl⟩, fun h => absurd n h⟩⟩
        · have nc := fun h : _ ∧ _ => n ⟨h.1, le_of_le_of_eq h.2 hN⟩
          refine ⟨_, (if_neg gc).trans (if_neg nc), fun h => absurd hab h, fun _ => ?_⟩
          exact ⟨fun h => absurd h g, fun _ => ⟨fun h => absurd h n, fun _ => ⟨rfl, rfl⟩⟩⟩
    · simp only [calculateRequiredResults, if_neg (not_lt.mpr hlen), hs,
        if_pos (habs.mpr hab)]
      exact ⟨_, rfl, fun _ => ⟨rfl, rfl⟩, fun h => absurd h hab⟩

/-! ## Consequences of the status table -/

/-- The rows of the status table for a tracked competitor with standing `s`. -/
theorem positionStatus_rows (st : State) (tracked : Competitor) (targetPosition : Nat)
    (s : Standing) (hlen : 2 ≤ st.competitors.length)
    (hs : (calculateStandings st).find? (fun x => x.competitorId = tracked.id) = some s) :
    ∃ r, calculatePositionStatus st (some tracked) targetPosition = some r ∧
      (s.rank ≤ targetPosition →
        (NoThreats st tracked targetPosition s.rank ∧ ¬ HasAbsent tracked →
          r.status = Status.GUARANTEED) ∧
        (NoThreats st tracked targetPosition s.rank ∧ HasAbsent tracked →
          r.status = Status.SECURED) ∧
        (¬ NoThreats st tracked targetPosition s.rank → r.status = Status.ON_TRACK)) ∧
      (targetPosition < s.rank →
        (holderMinPoints st targetPosition < calculateMaxPossiblePoints st tracked →
          r.status = Status.ACHIEVABLE) ∧
        (calculateMaxPossiblePoints st tracked ≤ holderMinPoints st targetPosition →
          r.status = Status.NOT_POSSIBLE)) := by
  obtain ⟨bs, hbs⟩ := mapOrThrow_exists
    (rivalRecord st (calculateStandings st) s.totalPoints
      (calculateMaxPossiblePoints st tracked) (calculateMinPossiblePoints st tracked))
    (st.competitors.filter (fun c => c.id ≠ tracked.id))
    (fun c hc => by
      obtain ⟨sc, hsc⟩ := standing_of_competitor st c (List.mem_of_mem_filter hc)
      unfold rivalRecord
      rw [hsc]
      exact ⟨_, rfl⟩)
  have hthr := threatsFromBelow_empty_iff st tracked targetPosition s s.totalPoints
    (calculateMaxPossiblePoints st tracked) bs hbs
  have habs := hasRemainingRaces_iff tracked
  have hN := holderMinPoints_eq st targetPosition
  simp only [calculatePositionStatus, if_neg (not_lt.mpr hlen), hs, hbs]
  refine ⟨_, rfl, ?_, ?_⟩
  · intro hrank
    simp only [if_pos hrank]
    refine ⟨?_, ?_, ?_⟩
    · rintro ⟨hno, hab⟩
      have h2 : decide ((tracked.results.filter (fun r => r.position = none)).length > 0) =
          false := by
        cases hd : decide ((tracked.results.filter (fun r => r.position = none)).length > 0)
        · rfl
        · exact absurd (habs.mp hd) hab
      exact if_pos ⟨hthr.mpr hno, h2⟩
    · rintro ⟨hno, hab⟩
      have h2 := habs.mpr hab
      exact (if_neg (fun h => by rw [h2] at h; exact absurd h.2 (by simp))).trans
        (if_pos (hthr.mpr hno))
    · intro hno
      have h1 : ¬ _ := fun h => hno (hthr.mp h)
      exact (if_neg (fun h => h1 h.1)).trans (if_neg h1)
  · intro hrank
    simp only [if_neg (not_le.mpr hrank)]
    refine ⟨?_, ?_⟩
    · intro hM
      exact if_pos (lt_of_eq_of_lt hN hM)
    · intro hM
      exact if_neg (not_lt.mpr (le_of_le_of_eq hM hN.symm))

/-- A status other than `NONE` comes from a state with two competitors and a standing of the
tracked competitor. -/
theorem positionStatus_inv (st : State) (tracked : Competitor) (targetPosition : Nat)
    (r : PositionStatus) (h : calculatePositionStatus st (some tracked) targetPosition = some r)
    (hst : r.status ≠ Status.NONE) :
    2 ≤ st.competitors.length ∧
      ∃ s, (calculateStandings st).find? (fun x => x.competitorId = tracked.id) = some s := by
  by_cases hlen : st.competitors.length < 2
  · simp only [calculatePositionStatus, hlen, if_true, Option.some.injEq] at h
    subst h
    exact absurd rfl hst
  · refine ⟨by omega, ?_⟩
    cases hf : (calculateStandings st).find? (fun x => x.competitorId = tracked.id) with
    | none =>
      simp [calculatePositionStatus, hlen, hf] at h
    | some s => exact ⟨s, rfl⟩

/-- The status `NOT_POSSIBLE` is returned only when the tracked maximum is at most `M`. -/
theorem not_possible_inv (st : State) (tracked : Competitor) (targetPosition : Nat)
    (r : PositionStatus) (h : calculatePositionStatus st (some tracked) targetPosition = some r)
    (hst : r.status = Status.NOT_POSSIBLE) :
    calculateMaxPossiblePoints st tracked ≤ holderMinPoints st targetPosition := by
  obtain ⟨hlen, s, hs⟩ := positionStatus_inv st tracked targetPosition r h
    (by rw [hst]; simp)
  obtain ⟨r', hr', hin, hout⟩ := positionStatus_rows st tracked targetPosition s hlen hs
  rw [h] at hr'
  cases hr'
  by_cases hrank : s.rank ≤ targetPosition
  · have h3 := hin hrank
    by_cases hno : NoThreats st tracked targetPosition s.rank
    · by_cases hab : HasAbsent tracked
      · rw [h3.2.1 ⟨hno, hab⟩] at hst
        cases hst
      · rw [h3.1 ⟨hno, hab⟩] at hst
        cases hst
    · rw [h3.2.2 hno] at hst
      cases hst
  · have h3 := hout (by omega)
    by_contra hcon
    rw [h3.1 (by omega)] at hst
    cases hst

/-! ## Claims on the meaning of the statuses -/

/-- C11, evaluated where it fails: Anna has finished both races second (36 points, rank 1); Ben
and Cara share rank 2 with 15 points and one race left each. For target 2 the status is
`GUARANTEED`. When Ben and Cara each win their remaining race they have 40 points and Anna's rank
in the recomputed standings is 3. -/
theorem guaranteed_then_overtaken :
    (calculatePositionStatus lockState (some anna) 2).map (fun r => r.status) =
      some Status.GUARANTEED ∧
    (calculateStandings lockState).map (fun x => (x.name, x.totalPoints, x.rank)) =
      [("Anna", 36, 1), ("Ben", 15, 2), ("Cara", 15, 2)] ∧
    completes ben.results benDone.results = true ∧
    completes cara.results caraDone.results = true ∧
    (calculateStandings lockStateDone).map (fun x => (x.name, x.totalPoints, x.rank)) =
      [("Ben", 40, 1), ("Cara", 40, 1), ("Anna", 36, 3)] := by
  refine ⟨by decide, by decide, by decide, by decide, by decide⟩

/-- C12, as stated, fails: on the accepted table `[1, 2]` the rookie behind the leader (1 point)
is `NOT_POSSIBLE` for target 1 with `M = 1`, and finishing the open race second totals 2. -/
theorem not_possible_exceeded_on_rising_table :
    Accepted risingDuel.championship ∧
    (calculatePositionStatus risingDuel (some rookie) 1).map (fun r => r.status) =
      some Status.NOT_POSSIBLE ∧
    holderMinPoints risingDuel 1 = 1 ∧
    completes rookie.results [P 2] = true ∧
    ¬ (calculateTotalPoints risingDuel [P 2] ≤ holderMinPoints risingDuel 1) := by
  refine ⟨by decide, by decide, by decide, by decide, by decide⟩

/-- C12, amended: for an accepted configuration in which no entry of the scoring table exceeds
the first one, when `calculatePositionStatus` returns `NOT_POSSIBLE` every completion of the
tracked competitor's absent positions totals at most `M`, the minimum possible points of the
holder of rank `targetPosition` (0 if nobody holds it). -/
theorem not_possible_is_final (st : State) (tracked : Competitor) (targetPosition : Nat)
    (r : PositionStatus) (hacc : Accepted st.championship)
    (htop : ∀ x ∈ st.championship.scoring, x ≤ st.championship.scoring.headD 0)
    (h : calculatePositionStatus st (some tracked) targetPosition = some r)
    (hst : r.status = Status.NOT_POSSIBLE) :
    ∀ compl : List Result, completes tracked.results compl = true →
      calculateTotalPoints st compl ≤ holderMinPoints st targetPosition := by
  obtain ⟨_, hs, hf, _, _⟩ := hacc
  intro compl hc
  have h1 : calculateTotalPoints st compl ≤ calculateMaxPossiblePoints st tracked := by
    rw [calculateMaxPossiblePoints_eq]
    exact bestSum_mono _ _ _ (completes_forall₂ st hs hf htop tracked.results compl hc)
      (maxPointsOf_nonneg st hs hf tracked.results)
  exact le_trans h1 (not_possible_inv st tracked targetPosition r h hst)

/-- Witness of amended C12: on `[25, 18, 15]` the challenger with one race left, 36 points
against a leader who has 75, is `NOT_POSSIBLE`; winning the last race gives 61, at most 75. -/
theorem not_possible_is_final_witness :
    ∃ r, calculatePositionStatus lateState (some chall2) 1 = some r ∧
      r.status = Status.NOT_POSSIBLE ∧
      calculateTotalPoints lateState [P 2, P 2, P 1] ≤ holderMinPoints lateState 1 := by
  cases h : calculatePositionStatus lateState (some chall2) 1 with
  | none => exact absurd h (by decide)
  | some r =>
    have hst : r.status = Status.NOT_POSSIBLE := by
      have hmap : (calculatePositionStatus lateState (some chall2) 1).map (fun r => r.status) =
          some Status.NOT_POSSIBLE := by decide
      rw [h] at hmap
      simpa using hmap
    exact ⟨r, rfl, hst,
      not_possible_is_final lateState chall2 1 r (by decide) (by decide) h hst
        [P 2, P 2, P 1] (by decide)⟩

/-- Witness of C20: in the finished championship the leader has no absent position and the
result is `COMPLETE` without scenarios. -/
theorem calculateRequiredResults_order_witness :
    ∃ r, calculateRequiredResults finalState (some leader3) 1 = some r ∧
      r.type = RequiredType.COMPLETE ∧ r.scenarios = [] := by
  obtain ⟨r, hr, hc, _⟩ :=
    (calculateRequiredResults_order finalState (some leader3) 1).2 leader3 leaderRow rfl
      (by decide) (by decide)
  have hab : ¬ HasAbsent leader3 := by
    unfold HasAbsent
    decide
  exact ⟨r, hr, hc hab⟩

/-! ## The finished championship -/

/-- Every standing is the standing of a competitor of the state. -/
theorem competitor_of_standing_entry (st : State) (x : Standing)
    (hx : x ∈ calculateStandings st) :
    ∃ c ∈ st.competitors, x.competitorId = c.id ∧
      x.totalPoints = calculateTotalPoints st c.results ∧ x.results = c.results := by
  have hmem : x.toStandingEntry ∈ standingEntries st :=
    (calculateStandings_perm st).subset (List.mem_map.mpr ⟨x, hx, rfl⟩)
  obtain ⟨c, hc, hce⟩ := List.mem_map.mp hmem
  refine ⟨c, hc, ?_, ?_, ?_⟩
  · rw [← hce]
  · rw [← hce]
  · rw [← hce]

/-- A standing with a smaller rank has at least the points of one with a larger rank. -/
theorem points_ge_of_rank_lt (st : State) (d s : Standing) (hd : d ∈ calculateStandings st)
    (hs : s ∈ calculateStandings st) (hrank : d.rank < s.rank) :
    s.totalPoints ≤ d.totalPoints := by
  obtain ⟨i, hi⟩ := List.mem_iff_getElem?.mp hd
  obtain ⟨j, hj⟩ := List.mem_iff_getElem?.mp hs
  have hmono : List.Pairwise (fun a b : Standing => a.rank ≤ b.rank) (calculateStandings st) :=
    assignRanks_rank_mono _ 0 1 none (by omega)
  rcases Nat.lt_trichotomy i j with hij | hij | hij
  · have hcmp := pairwise_getElem? (calculateStandings_pairwise st) hij hi hj
    have hkey : KeyLe d.toStandingEntry s.toStandingEntry :=
      ((compareStandings_le_iff _ _).mp hcmp).1
    rcases hkey with h | ⟨h, _⟩
    · exact le_of_lt h
    · exact le_of_eq h
  · subst hij
    rw [hi] at hj
    cases hj
    omega
  · have := pairwise_getElem? hmono hij hj hi
    omega

theorem max_eq_total_of_no_absent (st : State) (c : Competitor) (h : ¬ HasAbsent c) :
    calculateMaxPossiblePoints st c = calculateTotalPoints st c.results := by
  rw [calculateMaxPossiblePoints_eq, maxPointsOf_eq_of_no_absent st c.results
    (fun r hr hp => h ⟨r, hr, hp⟩)]
  rfl

/-- With pairwise distinct ids the standing found for a competitor of the state carries that
competitor's total. -/
theorem standing_points_of_competitor (st : State) (c : Competitor) (s : Standing)
    (hnd : (st.competitors.map (fun c => c.id)).Nodup) (hc : c ∈ st.competitors)
    (hs : (calculateStandings st).find? (fun x => x.competitorId = c.id) = some s) :
    s.totalPoints = calculateTotalPoints st c.results := by
  have hsid : s.competitorId = c.id := by
    have := List.find?_some hs
    simpa using this
  obtain ⟨c', hc', hid, hpts, _⟩ :=
    competitor_of_standing_entry st s (List.mem_of_find?_eq_some hs)
  have : c' = c := List.inj_on_of_nodup_map hnd hc' hc (by rw [← hid, hsid])
  rw [hpts, this]

/-- With pairwise distinct ids, `M` is the total of the first standing with the target rank. -/
theorem holderMinPoints_of_holder (st : State) (targetPosition : Nat) (d : Standing)
    (hnd : (st.competitors.map (fun c => c.id)).Nodup)
    (hd : (calculateStandings st).find? (fun x => x.rank = targetPosition) = some d) :
    holderMinPoints st targetPosition = d.totalPoints := by
  obtain ⟨c, hc, hid, hpts, _⟩ :=
    competitor_of_standing_entry st d (List.mem_of_find?_eq_some hd)
  obtain ⟨k, hk⟩ := competitor_of_standing st d (List.mem_of_find?_eq_some hd)
  have hkid : k.id = d.competitorId := by
    have := List.find?_some hk
    simpa using this
  have hkc : k = c :=
    List.inj_on_of_nodup_map hnd (List.mem_of_find?_eq_some hk) hc (by rw [hkid, hid])
  unfold holderMinPoints
  simp only [hd, hk]
  rw [hkc, hpts]
  rfl

/-- C13, as stated, fails in both halves. Alice and Bob have finished on 18 points each and
Alice is rank 1 by her win: for target 1 her status is `ON_TRACK`, not `GUARANTEED`. Alice and
Bob share rank 1 ahead of Carol on rank 3: nobody holds rank 2, and for target 2 Carol's status
is `ACHIEVABLE`, not `NOT_POSSIBLE`. In both states every race has been run. -/
theorem finished_status_refuted :
    (2 ≤ winsState.competitors.length ∧ ¬ HasAbsent alice ∧ ¬ HasAbsent bob ∧
      (calculateStandings winsState).map (fun x => (x.name, x.totalPoints, x.rank)) =
        [("Alice", 18, 1), ("Bob", 18, 2)] ∧
      (calculatePositionStatus winsState (some alice) 1).map (fun r => r.status) =
        some Status.ON_TRACK) ∧
    (2 ≤ tieState.competitors.length ∧ ¬ HasAbsent aliceTied ∧ ¬ HasAbsent bobTied ∧
      ¬ HasAbsent carol ∧
      (calculateStandings tieState).map (fun x => (x.name, x.totalPoints, x.rank)) =
        [("Alice", 24, 1), ("Bob", 24, 1), ("Carol", 16, 3)] ∧
      (calculatePositionStatus tieState (some carol) 2).map (fun r => r.status) =
        some Status.ACHIEVABLE) := by
  unfold HasAbsent
  refine ⟨⟨by decide, by decide, by decide, by decide, by decide⟩,
    ⟨by decide, by decide, by decide, by decide, by decide, by decide⟩⟩

/-- C13, amended: in a state with at least 2 competitors with pairwise distinct ids in which no
competitor has an absent position, for a tracked competitor of the state the call returns and
the reported points are the tracked total. With rank at or inside the target the status is
`GUARANTEED` when every rival whose rank is outside the target or equal to the tracked rank has
fewer points than the tracked competitor, and `ON_TRACK` otherwise. With rank outside the target
the status is `NOT_POSSIBLE` when some standing holds rank `targetPosition`. -/
theorem finished_status (st : State) (tracked : Competitor) (targetPosition : Nat)
    (hlen : 2 ≤ st.competitors.length)
    (hnd : (st.competitors.map (fun c => c.id)).Nodup)
    (htr : tracked ∈ st.competitors)
    (hdone : ∀ c ∈ st.competitors, ¬ HasAbsent c) :
    ∃ r s, calculatePositionStatus st (some tracked) targetPosition = some r ∧
      (calculateStandings st).find? (fun x => x.competitorId = tracked.id) = some s ∧
      s.totalPoints = calculateTotalPoints st tracked.results ∧
      (s.rank ≤ targetPosition →
        ((∀ c ∈ st.competitors, c.id ≠ tracked.id →
            ∀ sc, (calculateStandings st).find? (fun x => x.competitorId = c.id) = some sc →
              (targetPosition < sc.rank ∨ sc.rank = s.rank) →
              calculateTotalPoints st c.results < calculateTotalPoints st tracked.results) →
          r.status = Status.GUARANTEED) ∧
        (¬ (∀ c ∈ st.competitors, c.id ≠ tracked.id →
            ∀ sc, (calculateStandings st).find? (fun x => x.competitorId = c.id) = some sc →
              (targetPosition < sc.rank ∨ sc.rank = s.rank) →
              calculateTotalPoints st c.results < calculateTotalPoints st tracked.results) →
          r.status = Status.ON_TRACK)) ∧
      (targetPosition < s.rank →
        (∃ d ∈ calculateStandings st, d.rank = targetPosition) →
        r.status = Status.NOT_POSSIBLE) := by
  obtain ⟨s, hs⟩ := standing_of_competitor st tracked htr
  obtain ⟨r, hr, hin, hout⟩ := positionStatus_rows st tracked targetPosition s hlen hs
  have hpts := standing_points_of_competitor st tracked s hnd htr hs
  have hno_iff : NoThreats st tracked targetPosition s.rank ↔
      (∀ c ∈ st.competitors, c.id ≠ tracked.id →
        ∀ sc, (calculateStandings st).find? (fun x => x.competitorId = c.id) = some sc →
          (targetPosition < sc.rank ∨ sc.rank = s.rank) →
          calculateTotalPoints st c.results < calculateTotalPoints st tracked.results) := by
    unfold NoThreats IsThreat
    constructor
    · intro h c hc hid sc hsc hrk
      by_contra hlt
      refine h c hc ⟨hid, ⟨sc, hsc, hrk⟩, ?_⟩
      rw [max_eq_total_of_no_absent st c (hdone c hc)]
      exact not_lt.mp hlt
    · rintro h c hc ⟨hid, ⟨sc, hsc, hrk⟩, hle⟩
      rw [max_eq_total_of_no_absent st c (hdone c hc)] at hle
      exact absurd (h c hc hid sc hsc hrk) (not_lt.mpr hle)
  refine ⟨r, s, hr, hs, hpts, ?_, ?_⟩
  · intro hrank
    have h3 := hin hrank
    refine ⟨fun h => h3.1 ⟨hno_iff.mpr h, hdone tracked htr⟩, fun h => h3.2.2 ?_⟩
    exact fun hno => h (hno_iff.mp hno)
  · rintro hrank ⟨d', hd', hdr⟩
    have hsome : ((calculateStandings st).find? (fun x => x.rank = targetPosition)).isSome
        = true := by
      rw [List.find?_isSome]
      exact ⟨d', hd', by simp [hdr]⟩
    obtain ⟨d, hd⟩ := Option.isSome_iff_exists.mp hsome
    have hdrank : d.rank = targetPosition := by
      have := List.find?_some hd
      simpa using this
    have hle : s.totalPoints ≤ d.totalPoints :=
      points_ge_of_rank_lt st d s (List.mem_of_find?_eq_some hd)
        (List.mem_of_find?_eq_some hs) (by omega)
    refine (hout hrank).2 ?_
    rw [holderMinPoints_of_holder st targetPosition d hnd hd,
      max_eq_total_of_no_absent st tracked (hdone tracked htr), ← hpts]
    exact hle

/-- Witness of amended C13: scoring `[25, 18, 15]`, Leader `[P1, P1, P1]` and Challenger
`[P2, P2, P2]`, target 1: the leader is `GUARANTEED` and the challenger `NOT_POSSIBLE`. -/
theorem finished_status_witness :
    (calculatePositionStatus finalState (some leader3) 1).map (fun r => r.status) =
      some Status.GUARANTEED ∧
    ∃ r, calculatePositionStatus finalState (some chall3) 1 = some r ∧
      r.status = Status.NOT_POSSIBLE := by
  have hdone : ∀ c ∈ finalState.competitors, ¬ HasAbsent c := by
    intro c hc
    have hc2 : c = leader3 ∨ c = chall3 := by
      simpa [finalState, mkState] using hc
    unfold HasAbsent
    rcases hc2 with hc2 | hc2 <;> subst hc2 <;> decide
  obtain ⟨r, s, hr, hs, _, _, hout⟩ :=
    finished_status finalState chall3 1 (by decide) (by decide) (by decide) hdone
  have hs2 : (calculateStandings finalState).find? (fun x => x.competitorId = chall3.id) =
      some { competitorId := "comp_Challenger", name := "Challenger", isMyDriver := false,
             totalPoints := 54, wins := 0, results := [P 2, P 2, P 2], isTied := false,
             rank := 2 } := by decide
  rw [hs2] at hs
  cases hs
  exact ⟨by decide, r, hr, hout (by decide) ⟨leaderRow, by decide, rfl⟩⟩

/-! ## Race-by-race assignment -/

theorem forall₂_set {α β : Type} {R : α → β → Prop} :
    ∀ {xs : List α} {ys : List β}, List.Forall₂ R xs ys → ∀ (i : Nat) (v : α) (w : β),
      R v w → List.Forall₂ R (xs.set i v) (ys.set i w)
  | _, _, List.Forall₂.nil, _, _, _, _ => List.Forall₂.nil
  | _, _, List.Forall₂.cons _ hrest, 0, _, _, hvw => List.Forall₂.cons hvw hrest
  | _, _, List.Forall₂.cons hab hrest, i + 1, v, w, hvw =>
    List.Forall₂.cons hab (forall₂_set hrest i v w hvw)

theorem forall₂_set_left {α β : Type} {R : α → β → Prop} :
    ∀ {xs : List α} {ys : List β}, List.Forall₂ R xs ys → ∀ (i : Nat) (v : α),
      (∀ y, ys[i]? = some y → R v y) → List.Forall₂ R (xs.set i v) ys
  | _, _, List.Forall₂.nil, _, _, _ => List.Forall₂.nil
  | _, _, List.Forall₂.cons _ hrest, 0, _, hv =>
    List.Forall₂.cons (hv _ (by simp)) hrest
  | _, _, List.Forall₂.cons hab hrest, i + 1, v, hv =>
    List.Forall₂.cons hab (forall₂_set_left hrest i v (fun y hy => hv y (by simpa using hy)))

/-- Assigning related values to related arrays race by race keeps the arrays related. -/
theorem assignAt_forall₂ {α β : Type} {R : α → β → Prop} {S : Nat → Nat → Prop}
    (f : Nat → α) (g : Nat → β) (hfg : ∀ a b, S a b → R (f a) (g b)) :
    ∀ (is : List Nat) {as bs : List Nat}, List.Forall₂ S as bs →
      ∀ {arr : List α} {arr' : List β}, List.Forall₂ R arr arr' →
        List.Forall₂ R (assignAt f arr as is) (assignAt g arr' bs is)
  | [], as, bs, _, _, _, harr => by
    cases as <;> cases bs <;> simpa [assignAt] using harr
  | i :: is, _, _, List.Forall₂.nil, _, _, harr => by
    simpa [assignAt] using harr
  | i :: is, _, _, List.Forall₂.cons hab hrest, _, _, harr => by
    simp only [assignAt]
    exact assignAt_forall₂ f g hfg is hrest (forall₂_set harr i _ _ (hfg _ _ hab))

/-- Assigning values below a fixed array's entries keeps the array below it. -/
theorem assignAt_forall₂_left {α β : Type} {R : α → β → Prop} (f : Nat → α) (ys : List β) :
    ∀ (ps is : List Nat) (arr : List α), List.Forall₂ R arr ys →
      (∀ p ∈ ps, ∀ i ∈ is, ∀ y, ys[i]? = some y → R (f p) y) →
      List.Forall₂ R (assignAt f arr ps is) ys
  | [], is, arr, harr, _ => by
    cases is <;> simpa [assignAt] using harr
  | p :: ps, [], arr, harr, _ => by
    simpa [assignAt] using harr
  | p :: ps, i :: is, arr, harr, h => by
    simp only [assignAt]
    refine assignAt_forall₂_left f ys ps is _
      (forall₂_set_left harr i (f p)
        (h p (List.mem_cons_self _ _) i (List.mem_cons_self _ _))) ?_
    intro p' hp' i' hi'
    exact h p' (List.mem_cons_of_mem _ hp') i' (List.mem_cons_of_mem _ hi')

theorem assignAt_forall {α : Type} (P : α → Prop) (f : Nat → α) (hf : ∀ p, P (f p)) :
    ∀ (ps is : List Nat) (arr : List α), (∀ x ∈ arr, P x) →
      ∀ x ∈ assignAt f arr ps is, P x
  | [], is, arr, harr => by
    cases is <;> simpa [assignAt] using harr
  | p :: ps, [], arr, harr => by
    simpa [assignAt] using harr
  | p :: ps, i :: is, arr, harr => by
    simp only [assignAt]
    refine assignAt_forall P f hf ps is _ ?_
    intro x hx
    rcases List.mem_or_eq_of_mem_set hx with h | h
    · exact harr x h
    · exact h ▸ hf p

/-! ## The conditional maximum -/

theorem scoringAt_antitone (scoring : List Int) (hs : ∀ x ∈ scoring, 0 ≤ x)
    (hmono : NonIncreasing scoring) (p q : Nat) (hp : 1 ≤ p) (hpq : p ≤ q) :
    scoringAt scoring q ≤ scoringAt scoring p := by
  have hp0 : p ≠ 0 := by omega
  have hq0 : q ≠ 0 := by omega
  by_cases hq : q - 1 < scoring.length
  · have hp' : p - 1 < scoring.length := by omega
    simp only [scoringAt, hp0, hq0, if_false, List.getD_eq_getElem?_getD,
      List.getElem?_eq_getElem hq, List.getElem?_eq_getElem hp', Option.getD_some]
    rcases Nat.lt_or_ge (p - 1) (q - 1) with h | h
    · exact List.pairwise_iff_getElem.mp hmono (p - 1) (q - 1) hp' hq h
    · have : p - 1 = q - 1 := by omega
      simp only [this]
      exact le_refl _
  · have h0 : scoringAt scoring q = 0 := by
      simp [scoringAt, hq0, List.getD_eq_getElem?_getD, List.getElem?_eq_none (not_lt.mp hq)]
    rw [h0]
    exact scoringAt_nonneg scoring hs p

theorem top_of_nonIncreasing (scoring : List Int) (hmono : NonIncreasing scoring) :
    ∀ x ∈ scoring, x ≤ scoring.headD 0 := by
  cases scoring with
  | nil => intro x hx; cases hx
  | cons a l =>
    intro x hx
    rcases List.mem_cons.mp hx with h | h
    · subst h
      exact le_refl _
    · exact (List.pairwise_cons.mp hmono).1 x h

/-- The value written for the rival never exceeds the best single-race score. -/
theorem rivalBestInRace_le_max (st : State) (hs : ∀ x ∈ st.championship.scoring, 0 ≤ x)
    (htop : ∀ x ∈ st.championship.scoring, x ≤ st.championship.scoring.headD 0) (p : Nat) :
    rivalBestInRace st p ≤ scoringAt st.championship.scoring 1 +
      (if st.championship.flEnabled then st.championship.flBonus else 0) := by
  unfold rivalBestInRace
  have h1 := scoringAt_le_top st.championship.scoring hs htop (p + 1)
  simp only []
  split_ifs <;> omega

theorem rivalBestInRace_nonneg (st : State) (hs : ∀ x ∈ st.championship.scoring, 0 ≤ x)
    (hf : 0 ≤ st.championship.flBonus) (p : Nat) : 0 ≤ rivalBestInRace st p := by
  unfold rivalBestInRace
  have h1 := scoringAt_nonneg st.championship.scoring hs (p + 1)
  have h2 := scoringAt_nonneg st.championship.scoring hs 1
  simp only []
  split_ifs <;> omega

theorem mem_remainingIndices :
    ∀ (results : List Result) (k j : Nat),
      j ∈ remainingIndices results k ↔
        ∃ i r, j = k + i ∧ results[i]? = some r ∧ r.position = none
  | [], k, j => by simp [remainingIndices]
  | r0 :: rest, k, j => by
    have ih := mem_remainingIndices rest (k + 1) j
    unfold remainingIndices
    constructor
    · intro h
      have h' : (r0.position = none ∧ j = k) ∨ j ∈ remainingIndices rest (k + 1) := by
        split_ifs at h with h0
        · rcases List.mem_cons.mp h with h | h
          · exact Or.inl ⟨h0, h⟩
          · exact Or.inr h
        · exact Or.inr h
      rcases h' with ⟨h0, hj⟩ | h'
      · exact ⟨0, r0, by omega, by simp, h0⟩
      · obtain ⟨i, r, hj, hr, hp⟩ := ih.mp h'
        exact ⟨i + 1, r, by omega, by simpa using hr, hp⟩
    · rintro ⟨i, r, hj, hr, hp⟩
      cases i with
      | zero =>
        simp only [List.getElem?_cons_zero, Option.some.injEq] at hr
        subst hr
        rw [if_pos hp]
        exact List.mem_cons.mpr (Or.inl (by omega))
      | succ i =>
        have hmem : j ∈ remainingIndices rest (k + 1) :=
          ih.mpr ⟨i, r, by omega, by simpa using hr, hp⟩
        split_ifs
        · exact List.mem_cons_of_mem _ hmem
        · exact hmem

theorem maxPointsOf_getElem?_absent (st : State) (results : List Result) (i : Nat) (r : Result)
    (hr : results[i]? = some r) (hp : r.position = none) :
    (maxPointsOf st results)[i]? = some (scoringAt st.championship.scoring 1 +
      (if st.championship.flEnabled then st.championship.flBonus else 0)) := by
  unfold maxPointsOf
  rw [List.getElem?_map, hr]
  simp [hp]

/-- The conditional maximum against `k` is at most `k`'s unconditional maximum when `k` is
absent in every race that is assigned. -/
theorem calcRivalMax_le_max (st : State) (k : Competitor) (idx positions : List Nat)
    (hs : ∀ x ∈ st.championship.scoring, 0 ≤ x) (hf : 0 ≤ st.championship.flBonus)
    (htop : ∀ x ∈ st.championship.scoring, x ≤ st.championship.scoring.headD 0)
    (halign : ∀ i ∈ idx, i ∈ remainingIndices k.results 0) :
    calcRivalMaxWithUserPositions st (some k) idx positions ≤
      calculateMaxPossiblePoints st k := by
  rw [calculateMaxPossiblePoints_eq]
  unfold calcRivalMaxWithUserPositions
  refine bestSum_mono _ _ _ ?_ (maxPointsOf_nonneg st hs hf k.results)
  refine assignAt_forall₂_left _ _ positions idx _
    (racePointsOf_le_maxPointsOf st hs hf k.results) ?_
  intro p _ i hi y hy
  obtain ⟨i', r, hi', hr, hp⟩ := (mem_remainingIndices k.results 0 i).mp (halign i hi)
  have hii : i = i' := by omega
  subst hii
  rw [maxPointsOf_getElem?_absent st k.results i r hr hp] at hy
  cases hy
  exact rivalBestInRace_le_max st hs htop p

/-! ## Claims on the conditional maximum -/

/-- C17, as stated, fails. When the rival has a result in a race that is open for the tracked
competitor, that result is overwritten: the runner-up has 18 points and no race left, and for
the tracked P3 the conditional maximum is 25. On the accepted table `[1, 2]` with the race open
for both, the tracked P1 leaves the rival second place, 2 points, against an unconditional
maximum of 1. -/
theorem conditional_max_above_max :
    (scenarioKeyRivalComp runnerState retired 1 = some runnerUp ∧
      calcRivalMaxWithUserPositions runnerState (some runnerUp) [0] [3] = 25 ∧
      calculateMaxPossiblePoints runnerState runnerUp = 18) ∧
    (Accepted risingOpen.championship ∧
      scenarioKeyRivalComp risingOpen rookie 1 = some rookieRival ∧
      calcRivalMaxWithUserPositions risingOpen (some rookieRival) [0] [1] = 2 ∧
      calculateMaxPossiblePoints risingOpen rookieRival = 1) := by
  refine ⟨⟨by decide, by decide, by decide⟩, ⟨by decide, by decide, by decide, by decide⟩⟩

/-- C17, amended: for an accepted configuration in which no entry of the scoring table exceeds
the first one, and a key rival that has an absent position in every remaining race of the
scenarios, the conditional maximum recorded by every scenario that `generateScenarios`
classifies is at most the key rival's `calculateMaxPossiblePoints`. -/
theorem conditional_max_le_max (st : State) (myDriver k : Competitor) (targetPosition : Nat)
    (remainingRaceIndices : List Nat) (scs : List Scenario) (sc : Scenario)
    (hacc : Accepted st.championship)
    (htop : ∀ x ∈ st.championship.scoring, x ≤ st.championship.scoring.headD 0)
    (hkey : scenarioKeyRivalComp st myDriver targetPosition = some k)
    (halign : ∀ i ∈ remainingRaceIndices, i ∈ remainingIndices k.results 0)
    (h : classifiedScenarios st myDriver targetPosition remainingRaceIndices = some scs)
    (hsc : sc ∈ scs) :
    sc.rivalMaxPoints ≤ calculateMaxPossiblePoints st k := by
  obtain ⟨_, hs, hf, _, _⟩ := hacc
  have heq := classifiedScenarios_mem st myDriver targetPosition remainingRaceIndices scs h sc hsc
  have h1 : sc.rivalMaxPoints = calcRivalMaxWithUserPositions st
      (scenarioKeyRivalComp st myDriver targetPosition) remainingRaceIndices sc.results := by
    rw [heq]
    rfl
  rw [h1, hkey]
  exact calcRivalMax_le_max st k remainingRaceIndices sc.results hs hf htop halign

/-- Witness of amended C17: in the scenario test the challenger's conditional maximum for the
leader's P1 is 61, and the challenger's unconditional maximum is 68. -/
theorem conditional_max_le_max_witness :
    openP1.rivalMaxPoints ≤ calculateMaxPossiblePoints openState challOpen ∧
    calculateMaxPossiblePoints openState challOpen = 68 :=
  ⟨conditional_max_le_max openState leaderOpen challOpen 1 [2] openClassified openP1
      (by decide) (by decide) (by decide) (by decide) (by decide) (by decide),
    by decide⟩

/-- C18, as stated, fails: on the accepted table `[1, 5]` the backmarker needs more than the
frontrunner's 2 points; P1 in the last race gives 1 point and is `FAIL`, the worse P2 gives 5
points against a conditional maximum of 3 and is `SAFE`. -/
theorem worse_result_turns_fail_into_safe :
    Accepted steepState.championship ∧
    (classifiedScenarios steepState backmarker 1 [2]).map (fun l => l.take 2) = some
      [{ results := [1], myPoints := 1, rivalMaxPoints := 7, status := ScenarioStatus.FAIL },
       { results := [2], myPoints := 5, rivalMaxPoints := 3, status := ScenarioStatus.SAFE }] := by
  refine ⟨by decide, by decide⟩

/-- C18, amended: for an accepted configuration whose scoring table is non-increasing, and two
assignments `a` and `b` of positive finishing positions to the remaining races with
`b[i] ≥ a[i]` in every race, if `a` is classified `FAIL` then `b` is not classified `SAFE`. -/
theorem worse_result_never_safe (st : State) (tracked : Competitor)
    (keyRivalComp : Option Competitor) (rivalMinPoints : Int)
    (remainingRaceIndices a b : List Nat)
    (hacc : Accepted st.championship) (hmono : NonIncreasing st.championship.scoring)
    (hab : List.Forall₂ (fun p q => 1 ≤ p ∧ p ≤ q) a b)
    (hfail : (classifyScenario st (racePointsOf st tracked.results) keyRivalComp rivalMinPoints
      remainingRaceIndices a).status = ScenarioStatus.FAIL) :
    (classifyScenario st (racePointsOf st tracked.results) keyRivalComp rivalMinPoints
      remainingRaceIndices b).status ≠ ScenarioStatus.SAFE := by
  obtain ⟨_, hs, hf, _, _⟩ := hacc
  have hT : calcPointsWithResults st (racePointsOf st tracked.results) remainingRaceIndices b ≤
      calcPointsWithResults st (racePointsOf st tracked.results) remainingRaceIndices a := by
    unfold calcPointsWithResults
    refine bestSum_mono _ _ _ ?_ ?_
    · refine assignAt_forall₂ (S := fun q p => 1 ≤ p ∧ p ≤ q) _ _ ?_ remainingRaceIndices
        hab.flip ?_
      · intro q p hpq
        exact scoringAt_antitone _ hs hmono p q hpq.1 hpq.2
      · exact List.forall₂_same.mpr (fun x _ => le_refl x)
    · exact assignAt_forall (fun x => 0 ≤ x) _ (fun p => scoringAt_nonneg _ hs p) _ _ _
        (racePointsOf_nonneg st hs hf tracked.results)
  have hM : calcRivalMaxWithUserPositions st keyRivalComp remainingRaceIndices a ≤
      calcRivalMaxWithUserPositions st keyRivalComp remainingRaceIndices b := by
    cases keyRivalComp with
    | none => exact le_refl _
    | some k =>
      unfold calcRivalMaxWithUserPositions
      refine bestSum_mono _ _ _ ?_ ?_
      · refine assignAt_forall₂ (S := fun p q => 1 ≤ p ∧ p ≤ q) _ _ ?_ remainingRaceIndices
          hab ?_
        · intro p q hpq
          have h2 := scoringAt_antitone _ hs hmono 1 2 (le_refl 1) (by omega)
          have h3 := scoringAt_antitone _ hs hmono 1 (p + 1) (le_refl 1) (by omega)
          unfold rivalBestInRace
          simp only []
          by_cases hp1 : p ≤ 1
          · have hp : p = 1 := by omega
            subst hp
            by_cases hq1 : q ≤ 1
            · have hq : q = 1 := by omega
              subst hq
              exact le_refl _
            · rw [if_pos (le_refl 1), if_neg hq1]
              omega
          · have hq1 : ¬ q ≤ 1 := by omega
            rw [if_neg hp1, if_neg hq1]
        · exact List.forall₂_same.mpr (fun x _ => le_refl x)
      · exact assignAt_forall (fun x => 0 ≤ x) _ (fun p => rivalBestInRace_nonneg st hs hf p)
          _ _ _ (racePointsOf_nonneg st hs hf k.results)
  have h1 := (classify_fail_iff _ _ _).mp hfail
  intro hsafe
  have h2 := (classify_safe_iff _ _ _).mp hsafe
  omega

/-- Witness of amended C18: in the scenario test P6 in the last race is `FAIL` (43 points), and
the worse P7 is `FAIL` too, so not `SAFE`. -/
theorem worse_result_never_safe_witness :
    (classifyScenario openState (racePointsOf openState leaderOpen.results) (some challOpen) 43
      [2] [6]).status = ScenarioStatus.FAIL ∧
    (classifyScenario openState (racePointsOf openState leaderOpen.results) (some challOpen) 43
      [2] [7]).status ≠ ScenarioStatus.SAFE :=
  ⟨by decide,
    worse_result_never_safe openState leaderOpen (some challOpen) 43 [2] [6] [7] (by decide)
      (by decide) (List.Forall₂.cons (by decide) List.Forall₂.nil) (by decide)⟩

/-! ## The conditional maximum as a greatest total -/

theorem forall₂_of_getElem? {α β : Type} {R : α → β → Prop} :
    ∀ (xs : List α) (ys : List β), xs.length = ys.length →
      (∀ (j : Nat) (x : α) (y : β), xs[j]? = some x → ys[j]? = some y → R x y) → List.Forall₂ R xs ys
  | [], [], _, _ => List.Forall₂.nil
  | [], _ :: _, h, _ => by simp at h
  | _ :: _, [], h, _ => by simp at h
  | x :: xs, y :: ys, hlen, h =>
    List.Forall₂.cons (h 0 x y (by simp) (by simp))
      (forall₂_of_getElem? xs ys (by simpa using hlen)
        (fun j a b ha hb => h (j + 1) a b (by simpa using ha) (by simpa using hb)))

theorem completes_getElem? :
    ∀ (xs ys : List Result), completes xs ys = true →
      xs.length = ys.length ∧
        ∀ (j : Nat) (x y : Result), xs[j]? = some x → ys[j]? = some y → fillsAbsent x y = true
  | [], [], _ => ⟨rfl, fun j x y hx _ => by simp at hx⟩
  | [], _ :: _, h => by simp [completes] at h
  | _ :: _, [], h => by simp [completes] at h
  | x0 :: xs, y0 :: ys, h => by
    simp only [completes, Bool.and_eq_true] at h
    obtain ⟨hl, hall⟩ := completes_getElem? xs ys h.2
    refine ⟨by simp [hl], ?_⟩
    intro j x y hx hy
    cases j with
    | zero =>
      simp only [List.getElem?_cons_zero, Option.some.injEq] at hx hy
      subst hx
      subst hy
      exact h.1
    | succ j => exact hall j x y (by simpa using hx) (by simpa using hy)

theorem completes_of_getElem? :
    ∀ (xs ys : List Result), xs.length = ys.length →
      (∀ (j : Nat) (x y : Result), xs[j]? = some x → ys[j]? = some y → fillsAbsent x y = true) →
      completes xs ys = true
  | [], [], _, _ => rfl
  | [], _ :: _, h, _ => by simp at h
  | _ :: _, [], h, _ => by simp at h
  | x0 :: xs, y0 :: ys, hlen, h => by
    simp only [completes, Bool.and_eq_true]
    exact ⟨h 0 x0 y0 (by simp) (by simp),
      completes_of_getElem? xs ys (by simpa using hlen)
        (fun j a b ha hb => h (j + 1) a b (by simpa using ha) (by simpa using hb))⟩

theorem avoidsPositions_zip (compl : List Result) :
    ∀ (ps is : List Nat), avoidsPositions compl ps is = true →
      ∀ p i, (p, i) ∈ ps.zip is → ∀ r, compl[i]? = some r → r.position ≠ some p
  | [], is, _, p, i, hm, _, _ => by simp at hm
  | _ :: _, [], _, p, i, hm, _, _ => by simp at hm
  | p0 :: ps, i0 :: is, h, p, i, hm, r, hr => by
    simp only [avoidsPositions, Bool.and_eq_true] at h
    simp only [List.zip_cons_cons, List.mem_cons, Prod.mk.injEq] at hm
    rcases hm with ⟨hp, hi⟩ | hm
    · subst hp
      subst hi
      have h1 := h.1
      rw [hr] at h1
      simpa using h1
    · exact avoidsPositions_zip compl ps is h.2 p i hm r hr

theorem assignAt_length {α : Type} (f : Nat → α) :
    ∀ (ps is : List Nat) (arr : List α), (assignAt f arr ps is).length = arr.length
  | [], is, arr => by cases is <;> rfl
  | _ :: _, [], arr => rfl
  | p :: ps, i :: is, arr => by
    simp only [assignAt]
    rw [assignAt_length f ps is, List.length_set]

theorem assignAt_getElem?_of_not_mem {α : Type} (f : Nat → α) (j : Nat) :
    ∀ (ps is : List Nat) (arr : List α), j ∉ is → (assignAt f arr ps is)[j]? = arr[j]?
  | [], is, arr, _ => by cases is <;> rfl
  | _ :: _, [], arr, _ => rfl
  | p :: ps, i :: is, arr, hj => by
    simp only [assignAt]
    rw [assignAt_getElem?_of_not_mem f j ps is _ (fun h => hj (List.mem_cons_of_mem _ h))]
    have hne : i ≠ j := fun h => hj (h ▸ List.mem_cons_self _ _)
    exact List.getElem?_set_ne hne

/-- An entry after the assignment is an entry that was not assigned, or an assigned value. -/
theorem assignAt_getElem?_cases {α : Type} (f : Nat → α) (j : Nat) (y : α) :
    ∀ (ps is : List Nat) (arr : List α), is.length ≤ ps.length →
      (assignAt f arr ps is)[j]? = some y →
      (j ∉ is ∧ arr[j]? = some y) ∨ (∃ p, (p, j) ∈ ps.zip is ∧ y = f p)
  | ps, [], arr, _, h => by
    have : assignAt f arr ps [] = arr := by cases ps <;> rfl
    rw [this] at h
    exact Or.inl ⟨by simp, h⟩
  | [], _ :: _, arr, hl, _ => by simp at hl
  | p :: ps, i :: is, arr, hl, h => by
    simp only [assignAt] at h
    rcases assignAt_getElem?_cases f j y ps is _ (by simpa using hl) h with ⟨hj, hy⟩ | ⟨p', hp', hy⟩
    · by_cases hij : i = j
      · subst hij
        rw [List.getElem?_set] at hy
        simp only [if_true] at hy
        split_ifs at hy with hlt
        cases hy
        exact Or.inr ⟨p, by simp, rfl⟩
      · rw [List.getElem?_set_ne hij] at hy
        exact Or.inl ⟨by
          intro hmem
          rcases List.mem_cons.mp hmem with h1 | h1
          · exact hij h1.symm
          · exact hj h1, hy⟩
    · exact Or.inr ⟨p', by simp [hp'], hy⟩

theorem assignAt_map {α β : Type} (g : Nat → α) (h : α → β) :
    ∀ (ps is : List Nat) (arr : List α),
      (assignAt g arr ps is).map h = assignAt (fun p => h (g p)) (arr.map h) ps is
  | [], is, arr => by cases is <;> rfl
  | _ :: _, [], arr => rfl
  | p :: ps, i :: is, arr => by
    simp only [assignAt]
    rw [assignAt_map g h ps is, List.map_set]

theorem remainingIndices_ge (results : List Result) (k j : Nat)
    (h : j ∈ remainingIndices results k) : k ≤ j := by
  obtain ⟨i, _, hj, _, _⟩ := (mem_remainingIndices results k j).mp h
  omega

theorem remainingIndices_nodup : ∀ (results : List Result) (k : Nat),
    (remainingIndices results k).Nodup
  | [], _ => by simp [remainingIndices]
  | r :: rest, k => by
    unfold remainingIndices
    split_ifs
    · refine List.nodup_cons.mpr ⟨fun h => ?_, remainingIndices_nodup rest (k + 1)⟩
      have := remainingIndices_ge rest (k + 1) k h
      omega
    · exact remainingIndices_nodup rest (k + 1)

/-- The replies written race by race avoid the tracked competitor's positions. -/
theorem assignAt_bestReply_avoids :
    ∀ (ps is : List Nat) (arr : List Result), is.Nodup → (∀ i ∈ is, i < arr.length) →
      avoidsPositions (assignAt bestReply arr ps is) ps is = true
  | [], is, arr, _, _ => by cases is <;> rfl
  | _ :: _, [], arr, _, _ => rfl
  | p :: ps, i :: is, arr, hnd, hlt => by
    have hnd' := List.nodup_cons.mp hnd
    have hi : i < arr.length := hlt i (List.mem_cons_self _ _)
    have hfinal : (assignAt bestReply (arr.set i (bestReply p)) ps is)[i]? =
        some (bestReply p) := by
      rw [assignAt_getElem?_of_not_mem bestReply i ps is _ hnd'.1, List.getElem?_set]
      simp [hi]
    simp only [avoidsPositions, assignAt, Bool.and_eq_true]
    refine ⟨?_, assignAt_bestReply_avoids ps is _ hnd'.2 ?_⟩
    · rw [hfinal]
      simp only [bestReply, ne_eq, Option.some.injEq, decide_eq_true_eq]
      split_ifs <;> omega
    · intro i' hi'
      rw [List.length_set]
      exact hlt i' (List.mem_cons_of_mem _ hi')

theorem racePoints_bestReply (st : State) (p : Nat) :
    calculateRacePoints st (bestReply p).position (bestReply p).fastestLap =
      rivalBestInRace st p := by
  unfold bestReply rivalBestInRace calculateRacePoints
  simp only [Bool.and_true]
  split_ifs <;> rfl

/-- C16, as stated, fails in three ways. A rival with an absent position in a race that is not
open for the tracked competitor can score there as well: against the tracked P1 in race 2 the
conditional maximum is 18, and the rival reaches 43 with P1 in race 1 and P2 in race 2. On the
accepted table `[1, 2]` the tracked P3 leaves the rival second place, 2 points, and the
conditional maximum is 1. And a rival result in a race that is open for the tracked competitor
is overwritten: the runner-up has no absent position and 18 points, the conditional maximum
is 25. -/
theorem conditional_max_not_greatest :
    (scenarioKeyRivalComp lateEntryState thirdPlace 1 = some latecomer ∧
      calcRivalMaxWithUserPositions lateEntryState (some latecomer) [1] [1] = 18 ∧
      completes latecomer.results [P 1, P 2] = true ∧
      avoidsPositions [P 1, P 2] [1] [1] = true ∧
      calculateTotalPoints lateEntryState [P 1, P 2] = 43) ∧
    (Accepted risingOpen.championship ∧
      calcRivalMaxWithUserPositions risingOpen (some rookieRival) [0] [3] = 1 ∧
      completes rookieRival.results [P 2] = true ∧
      avoidsPositions [P 2] [3] [0] = true ∧
      calculateTotalPoints risingOpen [P 2] = 2) ∧
    (calcRivalMaxWithUserPositions runnerState (some runnerUp) [0] [3] = 25 ∧
      ∀ compl, completes runnerUp.results compl = true →
        calculateTotalPoints runnerState compl = 18) := by
  refine ⟨⟨by decide, by decide, by decide, by decide, by decide⟩,
    ⟨by decide, by decide, by decide, by decide, by decide⟩, by decide, ?_⟩
  intro compl hc
  obtain ⟨hl, hall⟩ := completes_getElem? _ _ hc
  cases compl with
  | nil => simp [runnerUp] at hl
  | cons r rest =>
    cases rest with
    | cons _ _ => simp [runnerUp] at hl
    | nil =>
      have h0 := hall 0 (P 2) r (by decide) (by simp)
      have hr : r = P 2 := by
        simpa [fillsAbsent, P] using h0
      subst hr
      decide

/-- C16, amended: for an accepted configuration whose scoring table is non-increasing, a key
rival `k` whose absent positions are exactly in the remaining races of the scenario, and one
positive position of the tracked competitor for each of these races, the conditional maximum is
the greatest total `k` can reach: every completion of `k`'s absent positions that avoids the
tracked competitor's position in each of these races totals at most the conditional maximum,
and one such completion attains it. -/
theorem conditional_max_is_greatest (st : State) (k : Competitor)
    (remainingRaceIndices positions : List Nat)
    (hacc : Accepted st.championship) (hmono : NonIncreasing st.championship.scoring)
    (halign : remainingIndices k.results 0 = remainingRaceIndices)
    (hlen : positions.length = remainingRaceIndices.length)
    (hpos : ∀ p ∈ positions, 1 ≤ p) :
    (∀ compl : List Result, completes k.results compl = true →
      avoidsPositions compl positions remainingRaceIndices = true →
      calculateTotalPoints st compl ≤
        calcRivalMaxWithUserPositions st (some k) remainingRaceIndices positions) ∧
    (∃ compl : List Result, completes k.results compl = true ∧
      avoidsPositions compl positions remainingRaceIndices = true ∧
      calculateTotalPoints st compl =
        calcRivalMaxWithUserPositions st (some k) remainingRaceIndices positions) := by
  obtain ⟨_, hs, hf, _, _⟩ := hacc
  have htop := top_of_nonIncreasing _ hmono
  have hmem : ∀ j, j ∈ remainingRaceIndices ↔
      ∃ r, k.results[j]? = some r ∧ r.position = none := by
    intro j
    rw [← halign, mem_remainingIndices]
    constructor
    · rintro ⟨i, r, hj, hr, hp⟩
      have : j = i := by omega
      subst this
      exact ⟨r, hr, hp⟩
    · rintro ⟨r, hr, hp⟩
      exact ⟨j, r, by omega, hr, hp⟩
  constructor
  · intro compl hc hav
    obtain ⟨hl, hall⟩ := completes_getElem? _ _ hc
    unfold calcRivalMaxWithUserPositions calculateTotalPoints
    refine bestSum_mono _ _ _ ?_ ?_
    · refine forall₂_of_getElem? _ _ ?_ ?_
      · rw [assignAt_length, List.length_map, List.length_map, hl]
      · intro j x y hx hy
        rw [List.getElem?_map] at hx
        cases hcj : compl[j]? with
        | none => simp [hcj] at hx
        | some r' =>
          simp only [hcj, Option.map_some', Option.some.injEq] at hx
          subst hx
          rcases assignAt_getElem?_cases _ j y positions remainingRaceIndices _
            (le_of_eq hlen.symm) hy with ⟨hj, hy0⟩ | ⟨p, hp, hyp⟩
          · rw [List.getElem?_map] at hy0
            cases hkj : k.results[j]? with
            | none => simp [hkj] at hy0
            | some r0 =>
              simp only [hkj, Option.map_some', Option.some.injEq] at hy0
              subst hy0
              have hknown : r0.position ≠ none := fun h0 => hj ((hmem j).mpr ⟨r0, hkj, h0⟩)
              have hfill := hall j r0 r' hkj hcj
              unfold fillsAbsent at hfill
              cases hp0 : r0.position with
              | none => exact absurd hp0 hknown
              | some q =>
                rw [hp0] at hfill
                have : r' = r0 := by simpa using hfill
                subst this
                exact le_of_eq (by rw [hp0])
          · subst hyp
            have hjmem : j ∈ remainingRaceIndices := (List.of_mem_zip hp).2
            have hpmem : p ∈ positions := (List.of_mem_zip hp).1
            obtain ⟨r0, hkj, hp0⟩ := (hmem j).mp hjmem
            have hfill := hall j r0 r' hkj hcj
            unfold fillsAbsent at hfill
            rw [hp0] at hfill
            cases hq : r'.position with
            | none => simp [hq] at hfill
            | some q =>
              simp only [hq, decide_eq_true_eq] at hfill
              have hne : q ≠ p := by
                intro hqp
                exact avoidsPositions_zip compl _ _ hav p j hp r' hcj (by rw [hq, hqp])
              have hp1 : 1 ≤ p := hpos p hpmem
              by_cases hp' : p ≤ 1
              · have hpe : p = 1 := by omega
                subst hpe
                have hle := scoringAt_antitone _ hs hmono 2 q (by omega) (by omega)
                simp only [calculateRacePoints, rivalBestInRace]
                cases st.championship.flEnabled <;> cases r'.fastestLap <;> simp <;> omega
              · have hmax := calculateRacePoints_le_max st hs hf htop (some q) r'.fastestLap
                simp only [rivalBestInRace, if_neg hp']
                exact hmax
    · exact assignAt_forall (fun x => 0 ≤ x) _ (fun p => rivalBestInRace_nonneg st hs hf p)
        _ _ _ (racePointsOf_nonneg st hs hf k.results)
  · refine ⟨assignAt bestReply k.results positions remainingRaceIndices, ?_, ?_, ?_⟩
    · refine completes_of_getElem? _ _ (assignAt_length _ _ _ _).symm ?_
      intro j r0 r' hkj hcj
      rcases assignAt_getElem?_cases _ j r' positions remainingRaceIndices _
        (le_of_eq hlen.symm) hcj with ⟨hj, hy0⟩ | ⟨p, hp, hyp⟩
      · rw [hkj] at hy0
        cases hy0
        have hknown : r0.position ≠ none := fun h0 => hj ((hmem j).mpr ⟨r0, hkj, h0⟩)
        unfold fillsAbsent
        cases hp0 : r0.position with
        | none => exact absurd hp0 hknown
        | some q => simp
      · subst hyp
        obtain ⟨r1, hkj1, hp1⟩ := (hmem j).mp (List.of_mem_zip hp).2
        rw [hkj] at hkj1
        cases hkj1
        simp only [fillsAbsent, hp1, bestReply, decide_eq_true_eq]
        split_ifs <;> omega
    · refine assignAt_bestReply_avoids positions remainingRaceIndices k.results ?_ ?_
      · rw [← halign]
        exact remainingIndices_nodup _ _
      · intro i hi
        obtain ⟨r, hr, _⟩ := (hmem i).mp hi
        exact (List.getElem?_eq_some.mp hr).1
    · unfold calcRivalMaxWithUserPositions calculateTotalPoints
      rw [assignAt_map]
      have hfun : (fun p => calculateRacePoints st (bestReply p).position
          (bestReply p).fastestLap) = rivalBestInRace st :=
        funext (racePoints_bestReply st)
      rw [hfun]

/-- Witness of amended C16: scoring `[25, 18, 15, 12, 10]`, tracked `[P1, P2, -]`, rival
`[P2, P1, -]`: with the tracked competitor first in the last race the rival's conditional
maximum is 61, and no completion of the rival that leaves first place in that race to the
tracked competitor totals more. -/
theorem conditional_max_is_greatest_witness :
    calcRivalMaxWithUserPositions openState (some challOpen) [2] [1] = 61 ∧
    calculateTotalPoints openState [P 2, P 1, P 2] ≤
      calcRivalMaxWithUserPositions openState (some challOpen) [2] [1] :=
  ⟨by decide,
    (conditional_max_is_greatest openState challOpen [2] [1] (by decide) (by decide)
      (by decide) (by decide) (by decide)).1 [P 2, P 1, P 2] (by decide) (by decide)⟩

/-! ## Configuration updates -/

theorem pushWhileShort_eq (totalRounds : Nat) :
    ∀ (fuel : Nat) (results : List Result), totalRounds - results.length ≤ fuel →
      pushWhileShort totalRounds fuel results =
        results ++ List.replicate (totalRounds - results.length) emptyResult
  | 0, results, h => by
    have h0 : totalRounds - results.length = 0 := by omega
    simp [pushWhileShort, h0]
  | fuel + 1, results, h => by
    unfold pushWhileShort
    split_ifs with hlt
    · have hfuel : totalRounds - (results ++ [emptyResult]).length ≤ fuel := by
        simp only [List.length_append, List.length_singleton]
        omega
      show pushWhileShort totalRounds fuel (results ++ [emptyResult]) = _
      rw [pushWhileShort_eq totalRounds fuel _ hfuel]
      have h1 : totalRounds - results.length =
          (totalRounds - (results ++ [emptyResult]).length) + 1 := by
        simp only [List.length_append, List.length_singleton]
        omega
      rw [h1, List.replicate_succ, List.append_assoc]
      rfl
    · have h0 : totalRounds - results.length = 0 := by omega
      simp [h0]

/-- The results of a competitor after the resize, race by race. -/
theorem resizeResults_getElem? (totalRounds : Nat) (c : Competitor) (j : Nat) :
    (resizeResults totalRounds c).results[j]? =
      if j < totalRounds then
        (if j < c.results.length then c.results[j]? else some emptyResult)
      else none := by
  unfold resizeResults
  simp only []
  rw [pushWhileShort_eq totalRounds totalRounds c.results (by omega), List.getElem?_take]
  split_ifs with h1 h2
  · rw [List.getElem?_append_left h2]
  · rw [List.getElem?_append_right (by omega), List.getElem?_replicate]
    rw [if_pos (by omega)]
  · rfl

theorem resizeResults_length (totalRounds : Nat) (c : Competitor) :
    (resizeResults totalRounds c).results.length = totalRounds := by
  unfold resizeResults
  simp only []
  rw [pushWhileShort_eq totalRounds totalRounds c.results (by omega), List.length_take,
    List.length_append, List.length_replicate]
  omega

/-- C26: after `updateConfig(updates)` the stored `totalRounds` is the updated one, the stored
`countBest` is the updated one lowered to `totalRounds` when it exceeds it, so
`countBest ≤ totalRounds`; the competitors are the same in number and keep id, name and flag;
every results list has length `totalRounds`; a result at an index that existed before and is
below `totalRounds` is unchanged, and every added result is absent without fastest lap. -/
theorem updateConfig_invariant (st : State) (updates : ConfigUpdates) :
    (updateConfig st updates).championship.totalRounds =
      updates.totalRounds.getD st.championship.totalRounds ∧
    (updateConfig st updates).championship.countBest =
      (if updates.countBest.getD st.championship.countBest >
          updates.totalRounds.getD st.championship.totalRounds
        then updates.totalRounds.getD st.championship.totalRounds
        else updates.countBest.getD st.championship.countBest) ∧
    (updateConfig st updates).championship.countBest ≤
      (updateConfig st updates).championship.totalRounds ∧
    (updateConfig st updates).competitors.length = st.competitors.length ∧
    ∀ (k : Nat) (c c' : Competitor), st.competitors[k]? = some c →
      (updateConfig st updates).competitors[k]? = some c' →
      c'.id = c.id ∧ c'.name = c.name ∧ c'.isMyDriver = c.isMyDriver ∧
      c'.results.length = (updateConfig st updates).championship.totalRounds ∧
      ∀ j : Nat, j < (updateConfig st updates).championship.totalRounds →
        c'.results[j]? = if j < c.results.length then c.results[j]? else some emptyResult := by
  have htr : (updateConfig st updates).championship.totalRounds =
      updates.totalRounds.getD st.championship.totalRounds := by
    unfold updateConfig
    simp only []
    split_ifs <;> rfl
  have hcb : (updateConfig st updates).championship.countBest =
      (if updates.countBest.getD st.championship.countBest >
          updates.totalRounds.getD st.championship.totalRounds
        then updates.totalRounds.getD st.championship.totalRounds
        else updates.countBest.getD st.championship.countBest) := by
    unfold updateConfig
    simp only []
    split_ifs with h1 h2 h2
    · rfl
    · exact absurd h1 h2
    · exact absurd h2 h1
    · rfl
  have hcomp : (updateConfig st updates).competitors =
      st.competitors.map
        (resizeResults (updates.totalRounds.getD st.championship.totalRounds)) := by
    unfold updateConfig
    simp only []
    split_ifs <;> rfl
  refine ⟨htr, hcb, ?_, ?_, ?_⟩
  · rw [hcb, htr]
    split_ifs with h
    · exact le_refl _
    · omega
  · rw [hcomp, List.length_map]
  · intro k c c' hc hc'
    rw [hcomp, List.getElem?_map, hc] at hc'
    simp only [Option.map_some', Option.some.injEq] at hc'
    subst hc'
    rw [htr]
    refine ⟨rfl, rfl, rfl, resizeResults_length _ c, ?_⟩
    intro j hj
    rw [resizeResults_getElem?, if_pos hj]

/-- Witness of C26: lowering the scenario test from 3 to 2 rounds lowers `countBest` from 3 to
2 and drops the third result of both competitors; raising it to 4 rounds adds one absent
result to each. -/
theorem updateConfig_invariant_witness :
    (updateConfig openState toTwoRounds).championship.countBest ≤
      (updateConfig openState toTwoRounds).championship.totalRounds ∧
    (updateConfig openState toTwoRounds).championship.countBest = 2 ∧
    (updateConfig openState toTwoRounds).competitors.map (fun c => c.results) =
      [[P 1, P 2], [P 2, P 1]] ∧
    (updateConfig openState toFourRounds).competitors.map (fun c => c.results) =
      [[P 1, P 2, absent, absent], [P 2, P 1, absent, absent]] :=
  ⟨(updateConfig_invariant openState toTwoRounds).2.2.1, by decide, by decide, by decide⟩

/-! ## Fastest-lap exclusivity -/

theorem setFlag_fields (i : Nat) (v : Bool) (c : Competitor) :
    (setFlag i v c).id = c.id ∧ (setFlag i v c).name = c.name ∧
    (setFlag i v c).isMyDriver = c.isMyDriver ∧
    (setFlag i v c).results.length = c.results.length ∧
    (setFlag i v c).results.map (fun r => r.position) = c.results.map (fun r => r.position) ∧
    ∀ j : Nat, j ≠ i → (setFlag i v c).results[j]? = c.results[j]? := by
  unfold setFlag
  cases h : c.results[i]? with
  | none => simp
  | some r =>
    simp only []
    refine ⟨trivial, trivial, trivial, by simp, ?_, ?_⟩
    · apply List.ext_getElem?
      intro n
      rw [List.getElem?_map, List.getElem?_map]
      by_cases hn : i = n
      · subst hn
        rw [h]
        have hlt : i < c.results.length := (List.getElem?_eq_some.mp h).1
        simp [List.getElem?_set, hlt]
      · rw [List.getElem?_set_ne hn]
    · intro j hj
      exact List.getElem?_set_ne (Ne.symm hj)

theorem holdsFastestLap_setFlag (i j : Nat) (v : Bool) (c : Competitor) :
    holdsFastestLap j (setFlag i v c) =
      if j = i then (v && decide (i < c.results.length)) else holdsFastestLap j c := by
  unfold holdsFastestLap setFlag
  cases h : c.results[i]? with
  | none =>
    have hge : ¬ i < c.results.length := by
      intro hlt
      rw [List.getElem?_eq_getElem hlt] at h
      cases h
    split_ifs with hji
    · subst hji
      simp [h, hge]
    · rfl
  | some r =>
    have hlt : i < c.results.length := (List.getElem?_eq_some.mp h).1
    simp only []
    split_ifs with hji
    · subst hji
      simp [List.getElem?_set, hlt]
    · rw [List.getElem?_set_ne (Ne.symm hji)]

theorem findIdx_map_setFlag (competitorId : String) (i : Nat) (v : Bool) :
    ∀ l : List Competitor,
      (l.map (setFlag i v)).findIdx (fun c => decide (c.id = competitorId)) =
        l.findIdx (fun c => decide (c.id = competitorId))
  | [] => rfl
  | c :: rest => by
    rw [List.map_cons, List.findIdx_cons, List.findIdx_cons, findIdx_map_setFlag competitorId i v
      rest, (setFlag_fields i v c).1]

theorem updateFirst_getElem? (competitorId : String) (f : Competitor → Competitor) :
    ∀ (l : List Competitor) (k : Nat),
      (updateFirst competitorId f l)[k]? =
        if k = l.findIdx (fun c => decide (c.id = competitorId)) then (l[k]?).map f
        else l[k]?
  | [], k => by simp [updateFirst]
  | c :: rest, k => by
    unfold updateFirst
    rw [List.findIdx_cons]
    by_cases hc : c.id = competitorId
    · simp only [hc, if_true, decide_True, cond_true]
      cases k with
      | zero => simp
      | succ k => simp
    · simp only [hc, if_false, decide_False, cond_false]
      cases k with
      | zero => simp
      | succ k =>
        simp only [List.getElem?_cons_succ, add_left_inj]
        exact updateFirst_getElem? competitorId f rest k

theorem countP_map_le (p : Competitor → Bool) (f : Competitor → Competitor)
    (h : ∀ c, p (f c) = true → p c = true) :
    ∀ l : List Competitor, (l.map f).countP p ≤ l.countP p
  | [] => by simp
  | c :: rest => by
    have ih := countP_map_le p f h rest
    rw [List.map_cons, List.countP_cons, List.countP_cons]
    have hc := h c
    by_cases h1 : p (f c) = true
    · rw [if_pos h1, if_pos (hc h1)]
      omega
    · rw [if_neg h1]
      split_ifs <;> omega

theorem countP_updateFirst_le (p : Competitor → Bool) (competitorId : String)
    (f : Competitor → Competitor) (h : ∀ c, p (f c) = true → p c = true) :
    ∀ l : List Competitor, (updateFirst competitorId f l).countP p ≤ l.countP p
  | [] => by simp [updateFirst]
  | c :: rest => by
    have ih := countP_updateFirst_le p competitorId f h rest
    unfold updateFirst
    split_ifs with hc
    · rw [List.countP_cons, List.countP_cons]
      have hc := h c
      by_cases h1 : p (f c) = true
      · rw [if_pos h1, if_pos (hc h1)]
      · rw [if_neg h1]
        split_ifs <;> omega
    · rw [List.countP_cons, List.countP_cons]
      omega

theorem countP_updateFirst_le_succ (p : Competitor → Bool) (competitorId : String)
    (f : Competitor → Competitor) :
    ∀ l : List Competitor, (updateFirst competitorId f l).countP p ≤ l.countP p + 1
  | [] => by simp [updateFirst]
  | c :: rest => by
    have ih := countP_updateFirst_le_succ p competitorId f rest
    unfold updateFirst
    split_ifs with hc
    · rw [List.countP_cons, List.countP_cons]
      split_ifs <;> omega
    · rw [List.countP_cons, List.countP_cons]
      omega

/-- The competitor at index `k` after `setFastestLap`, from the one at index `k` before. -/
theorem setFastestLap_getElem? (st : State) (competitorId : String) (raceIndex : Nat)
    (hasFl : Bool) (k : Nat) :
    (setFastestLap st competitorId raceIndex hasFl).competitors[k]? =
      (st.competitors[k]?).map (fun c =>
        if k = st.competitors.findIdx (fun c => decide (c.id = competitorId)) then
          setFlag raceIndex hasFl (if hasFl = true then setFlag raceIndex false c else c)
        else (if hasFl = true then setFlag raceIndex false c else c)) := by
  unfold setFastestLap
  cases hasFl with
  | false =>
    simp only [Bool.false_eq_true, if_false]
    rw [updateFirst_getElem?]
    split_ifs with hk
    · rfl
    · cases st.competitors[k]? <;> rfl
  | true =>
    simp only [if_true]
    rw [updateFirst_getElem?, findIdx_map_setFlag, List.getElem?_map]
    split_ifs with hk
    · cases st.competitors[k]? <;> rfl
    · rfl

/-- C27: `setFastestLap` keeps, race by race, the property that at most one competitor holds
the fastest lap; after a call with `hasFl = true` the holders of the fastest lap of race
`raceIndex` are the first competitor with the given id, if that race is one of its results, and
nobody else; and every competitor keeps id, name, all positions and the results of every other
race. -/
theorem setFastestLap_exclusive (st : State) (competitorId : String) (raceIndex : Nat)
    (hasFl : Bool) :
    (∀ j : Nat, fastestLapCount st j ≤ 1 →
      fastestLapCount (setFastestLap st competitorId raceIndex hasFl) j ≤ 1) ∧
    (hasFl = true →
      fastestLapCount (setFastestLap st competitorId raceIndex hasFl) raceIndex ≤ 1 ∧
      ∀ (k : Nat) (c' : Competitor),
        (setFastestLap st competitorId raceIndex hasFl).competitors[k]? = some c' →
        (holdsFastestLap raceIndex c' = true ↔
          (k = st.competitors.findIdx (fun c => decide (c.id = competitorId)) ∧
            c'.id = competitorId ∧ raceIndex < c'.results.length))) ∧
    ((setFastestLap st competitorId raceIndex hasFl).competitors.length =
      st.competitors.length) ∧
    (∀ (k : Nat) (c c' : Competitor), st.competitors[k]? = some c →
      (setFastestLap st competitorId raceIndex hasFl).competitors[k]? = some c' →
      c'.id = c.id ∧ c'.name = c.name ∧ c'.results.length = c.results.length ∧
      c'.results.map (fun r => r.position) = c.results.map (fun r => r.position) ∧
      ∀ j : Nat, j ≠ raceIndex → c'.results[j]? = c.results[j]?) := by
  have hclear : ∀ c, holdsFastestLap raceIndex (setFlag raceIndex false c) = false := by
    intro c
    rw [holdsFastestLap_setFlag, if_pos rfl]
    rfl
  have hcount : hasFl = true →
      fastestLapCount (setFastestLap st competitorId raceIndex hasFl) raceIndex ≤ 1 := by
    intro hfl
    subst hfl
    unfold fastestLapCount setFastestLap
    simp only [if_true]
    refine le_trans (countP_updateFirst_le_succ _ competitorId _ _) ?_
    have h0 : (st.competitors.map (setFlag raceIndex false)).countP
        (holdsFastestLap raceIndex) = 0 := by
      rw [List.countP_eq_zero]
      intro a ha
      obtain ⟨c, _, rfl⟩ := List.mem_map.mp ha
      rw [hclear c]
      simp
    omega
  refine ⟨?_, ?_, ?_, ?_⟩
  · intro j hj
    by_cases hji : j = raceIndex
    · subst hji
      cases hfl : hasFl with
      | true => exact hfl ▸ hcount hfl
      | false =>
        unfold fastestLapCount setFastestLap
        simp only [Bool.false_eq_true, if_false]
        refine le_trans (countP_updateFirst_le _ competitorId _ ?_ _) hj
        intro c hc
        rw [hclear c] at hc
        cases hc
    · have hkeep : ∀ (v : Bool) (c : Competitor),
          holdsFastestLap j (setFlag raceIndex v c) = true → holdsFastestLap j c = true := by
        intro v c hc
        rw [holdsFastestLap_setFlag, if_neg hji] at hc
        exact hc
      unfold fastestLapCount setFastestLap
      simp only []
      refine le_trans (countP_updateFirst_le _ competitorId _ (hkeep hasFl) _) ?_
      split_ifs
      · exact le_trans (countP_map_le _ _ (hkeep false) _) hj
      · exact hj
  · intro hfl
    refine ⟨hcount hfl, ?_⟩
    subst hfl
    intro k c' hc'
    rw [setFastestLap_getElem?] at hc'
    cases hk : st.competitors[k]? with
    | none => simp [hk] at hc'
    | some c =>
      simp only [hk, Option.map_some', Option.some.injEq, if_true] at hc'
      by_cases hidx : k = st.competitors.findIdx (fun c => decide (c.id = competitorId))
      · rw [if_pos hidx] at hc'
        subst hc'
        have hklt : k < st.competitors.length := (List.getElem?_eq_some.mp hk).1
        have hid : c.id = competitorId := by
          have hlt : st.competitors.findIdx (fun c => decide (c.id = competitorId)) <
              st.competitors.length := hidx ▸ hklt
          have := List.findIdx_getElem (w := hlt)
          have hck : st.competitors[k]? = some (st.competitors.get ⟨_, hlt⟩) := by
            rw [hidx]
            exact List.getElem?_eq_getElem hlt
          rw [hk] at hck
          cases hck
          simpa using this
        rw [holdsFastestLap_setFlag, if_pos rfl]
        have f1 := setFlag_fields raceIndex true (setFlag raceIndex false c)
        have f2 := setFlag_fields raceIndex false c
        rw [f1.1, f2.1, f1.2.2.2.1, f2.2.2.2.1]
        simp [hidx, hid]
      · rw [if_neg hidx] at hc'
        subst hc'
        rw [hclear c]
        simp [hidx]
  · have hlen : ∀ (f : Competitor → Competitor) (l : List Competitor),
        (updateFirst competitorId f l).length = l.length := by
      intro f l
      induction l with
      | nil => rfl
      | cons c rest ih =>
        unfold updateFirst
        split_ifs
        · rfl
        · simp [ih]
    unfold setFastestLap
    simp only []
    rw [hlen]
    split_ifs
    · rw [List.length_map]
    · rfl
  · intro k c c' hc hc'
    rw [setFastestLap_getElem?, hc] at hc'
    simp only [Option.map_some', Option.some.injEq] at hc'
    have hbase : ∀ v : Bool, ∀ d : Competitor,
        (d.id = c.id ∧ d.name = c.name ∧ d.results.length = c.results.length ∧
          d.results.map (fun r => r.position) = c.results.map (fun r => r.position) ∧
          ∀ j : Nat, j ≠ raceIndex → d.results[j]? = c.results[j]?) →
        ((setFlag raceIndex v d).id = c.id ∧ (setFlag raceIndex v d).name = c.name ∧
          (setFlag raceIndex v d).results.length = c.results.length ∧
          (setFlag raceIndex v d).results.map (fun r => r.position) =
            c.results.map (fun r => r.position) ∧
          ∀ j : Nat, j ≠ raceIndex → (setFlag raceIndex v d).results[j]? = c.results[j]?) := by
      intro v d hd
      have f := setFlag_fields raceIndex v d
      refine ⟨f.1.trans hd.1, f.2.1.trans hd.2.1, f.2.2.2.1.trans hd.2.2.1,
        f.2.2.2.2.1.trans hd.2.2.2.1, ?_⟩
      intro j hj
      exact (f.2.2.2.2.2 j hj).trans (hd.2.2.2.2 j hj)
    have hself : c.id = c.id ∧ c.name = c.name ∧ c.results.length = c.results.length ∧
        c.results.map (fun r => r.position) = c.results.map (fun r => r.position) ∧
        ∀ j : Nat, j ≠ raceIndex → c.results[j]? = c.results[j]? :=
      ⟨rfl, rfl, rfl, rfl, fun _ _ => rfl⟩
    subst hc'
    split_ifs
    · exact hbase _ _ (hbase _ _ hself)
    · exact hbase _ _ hself
    · exact hbase _ _ hself
    · exact hself

/-- Witness of C27: `quick` holds the fastest lap of race 1; after it is given to `steady`,
`steady` is the only holder, and the positions and the second race are as before. -/
theorem setFastestLap_exclusive_witness :
    fastestLapCount lapState 0 ≤ 1 ∧
    fastestLapCount (setFastestLap lapState "comp_Steady" 0 true) 0 ≤ 1 ∧
    (setFastestLap lapState "comp_Steady" 0 true).competitors.map (fun c => c.results) =
      [[P 1, P 2], [{ position := some 2, fastestLap := true }, P 1]] :=
  ⟨by decide,
    (setFastestLap_exclusive lapState "comp_Steady" 0 true).1 0 (by decide),
    by decide⟩

/-! ## Standings as a function of the state -/

/-- Two sorted lists with the same elements are equal when the order is antisymmetric on these
elements. -/
theorem sorted_perm_unique {α : Type} (r : α → α → Prop) :
    ∀ (l1 l2 : List α), l1.Perm l2 → List.Pairwise r l1 → List.Pairwise r l2 →
      (∀ a ∈ l1, ∀ b ∈ l1, r a b → r b a → a = b) → l1 = l2
  | [], l2, hp, _, _, _ => (List.Perm.nil_eq hp)
  | a :: t1, [], hp, _, _, _ => absurd hp.length_eq (by simp)
  | a :: t1, b :: t2, hp, h1, h2, hanti => by
    have hab : a = b := by
      by_contra hne
      have ha2 : a ∈ b :: t2 := hp.subset (List.mem_cons_self _ _)
      have hb1 : b ∈ a :: t1 := hp.symm.subset (List.mem_cons_self _ _)
      have ha2' : a ∈ t2 := by
        rcases List.mem_cons.mp ha2 with h | h
        · exact absurd h hne
        · exact h
      have hb1' : b ∈ t1 := by
        rcases List.mem_cons.mp hb1 with h | h
        · exact absurd h.symm hne
        · exact h
      have rba : r b a := (List.pairwise_cons.mp h2).1 a ha2'
      have rab : r a b := (List.pairwise_cons.mp h1).1 b hb1'
      exact hne (hanti a (List.mem_cons_self _ _) b hb1 rab rba)
    subst hab
    have ht : t1 = t2 := sorted_perm_unique r t1 t2 (List.Perm.cons_inv hp)
      (List.pairwise_cons.mp h1).2 (List.pairwise_cons.mp h2).2
      (fun x hx y hy => hanti x (List.mem_cons_of_mem _ hx) y (List.mem_cons_of_mem _ hy))
    rw [ht]

/-- C25: `calculateStandings` returns one standing per competitor: as many standings as
competitors, carrying the competitors' ids with their `calculateTotalPoints` (as often as the
competitor list does, so once each when the ids are distinct), and every rank lies between 1 and
the number of competitors. -/
theorem calculateStandings_one_per_competitor (st : State) :
    (calculateStandings st).length = st.competitors.length ∧
    ((calculateStandings st).map (fun s => (s.competitorId, s.totalPoints))).Perm
      (st.competitors.map (fun c => (c.id, calculateTotalPoints st c.results))) ∧
    ((st.competitors.map (fun c => c.id)).Nodup →
      ((calculateStandings st).map (fun s => s.competitorId)).Nodup) ∧
    ∀ s ∈ calculateStandings st, 1 ≤ s.rank ∧ s.rank ≤ st.competitors.length := by
  have hperm := calculateStandings_perm st
  have hlen : (calculateStandings st).length = st.competitors.length := by
    have h := hperm.length_eq
    rw [List.length_map] at h
    rw [h]
    unfold standingEntries
    rw [List.length_map]
  refine ⟨hlen, ?_, ?_, ?_⟩
  · have h := hperm.map (fun e : StandingEntry => (e.competitorId, e.totalPoints))
    rw [List.map_map] at h
    have h2 : (standingEntries st).map (fun e : StandingEntry => (e.competitorId, e.totalPoints))
        = st.competitors.map (fun c => (c.id, calculateTotalPoints st c.results)) := by
      unfold standingEntries
      rw [List.map_map]
      rfl
    rw [h2] at h
    exact h
  · intro hnd
    exact (calculateStandings_ids st).nodup_iff.mpr hnd
  · intro s hs
    have h := assignRanks_rank_bounds (jsSort compareStandings (standingEntries st)) 0 1 none
      (by omega) s hs
    have hl : (jsSort compareStandings (standingEntries st)).length = st.competitors.length := by
      rw [(jsSort_perm compareStandings (standingEntries st)).length_eq]
      unfold standingEntries
      rw [List.length_map]
    rw [hl] at h
    omega

/-- Witness of C25: the 25 drivers of the performance test give 25 standings with ranks in
1..25. -/
theorem calculateStandings_one_per_competitor_witness :
    (calculateStandings gridState).length = 25 ∧
    ∀ s ∈ calculateStandings gridState, 1 ≤ s.rank ∧ s.rank ≤ 25 :=
  ⟨(calculateStandings_one_per_competitor gridState).1,
    (calculateStandings_one_per_competitor gridState).2.2.2⟩

/-! ## The returned scenarios -/

theorem compareScenarios_total (a b : Scenario) :
    compareScenarios a b ≤ 0 ∨ compareScenarios b a ≤ 0 := by
  unfold compareScenarios
  simp only []
  split_ifs <;> omega

theorem compareScenarios_trans (a b c : Scenario) (h1 : compareScenarios a b ≤ 0)
    (h2 : compareScenarios b c ≤ 0) : compareScenarios a c ≤ 0 := by
  unfold compareScenarios at *
  simp only [] at *
  split_ifs at h1 h2 ⊢ <;> omega

/-- Within one status the sort places the scenario with more points first. -/
theorem points_le_of_compareScenarios (a b : Scenario) (h : compareScenarios a b ≤ 0)
    (hs : a.status = b.status) : b.myPoints ≤ a.myPoints := by
  unfold compareScenarios at h
  simp only [hs, ne_eq, not_true_eq_false, if_false] at h
  split_ifs at h with hp
  · exact le_of_eq hp.symm
  · omega

theorem dedupeBy_sublist {α κ : Type} [DecidableEq κ] (key : α → κ) :
    ∀ (l : List α) (seen : List κ), (dedupeBy key seen l).Sublist l
  | [], _ => by simp [dedupeBy]
  | x :: xs, seen => by
    unfold dedupeBy
    split_ifs
    · exact (dedupeBy_sublist key xs seen).cons x
    · exact (dedupeBy_sublist key xs _).cons₂ x

theorem dedupeBy_keys {α κ : Type} [DecidableEq κ] (key : α → κ) :
    ∀ (l : List α) (seen : List κ),
      ((dedupeBy key seen l).map key).Nodup ∧ ∀ x ∈ dedupeBy key seen l, key x ∉ seen
  | [], _ => by simp [dedupeBy]
  | x :: xs, seen => by
    unfold dedupeBy
    split_ifs with hx
    · exact dedupeBy_keys key xs seen
    · obtain ⟨hnd, hseen⟩ := dedupeBy_keys key xs (key x :: seen)
      refine ⟨?_, ?_⟩
      · rw [List.map_cons, List.nodup_cons]
        refine ⟨?_, hnd⟩
        intro hmem
        obtain ⟨y, hy, hky⟩ := List.mem_map.mp hmem
        exact hseen y hy (hky ▸ List.mem_cons_self _ _)
      · intro y hy
        rcases List.mem_cons.mp hy with h | h
        · rw [h]
          exact hx
        · exact fun hm => hseen y h (List.mem_cons_of_mem _ hm)

/-- One status band of the returned list: at most `cap` scenarios of status `status`, with
strictly decreasing points. -/
theorem band_properties (scenarios : List Scenario) (status : ScenarioStatus) (cap : Nat) :
    (((dedupeBy (fun s : Scenario => (s.status, s.myPoints)) []
        (jsSort compareScenarios scenarios)).filter
          (fun s => decide (s.status = status))).take cap).length ≤ cap ∧
    (∀ s ∈ ((dedupeBy (fun s : Scenario => (s.status, s.myPoints)) []
        (jsSort compareScenarios scenarios)).filter
          (fun s => decide (s.status = status))).take cap, s.status = status) ∧
    List.Pairwise (fun a b : Scenario => b.myPoints < a.myPoints)
      (((dedupeBy (fun s : Scenario => (s.status, s.myPoints)) []
        (jsSort compareScenarios scenarios)).filter
          (fun s => decide (s.status = status))).take cap) := by
  have hstatus : ∀ s ∈ ((dedupeBy (fun s : Scenario => (s.status, s.myPoints)) []
        (jsSort compareScenarios scenarios)).filter
          (fun s => decide (s.status = status))).take cap, s.status = status := by
    intro s hs
    have := (List.mem_filter.mp (List.mem_of_mem_take hs)).2
    simpa using this
  refine ⟨List.length_take_le _ _, hstatus, ?_⟩
  have hsub : (((dedupeBy (fun s : Scenario => (s.status, s.myPoints)) []
        (jsSort compareScenarios scenarios)).filter
          (fun s => decide (s.status = status))).take cap).Sublist
      (dedupeBy (fun s : Scenario => (s.status, s.myPoints)) []
        (jsSort compareScenarios scenarios)) :=
    (List.take_sublist _ _).trans (List.filter_sublist _)
  have hsorted : List.Pairwise (fun a b => compareScenarios a b ≤ 0)
      (jsSort compareScenarios scenarios) :=
    jsSort_pairwise compareScenarios compareScenarios_total compareScenarios_trans scenarios
  have h1 := (hsorted.sublist (dedupeBy_sublist _ _ _)).sublist hsub
  have h2 : List.Pairwise
      (fun a b : Scenario => (a.status, a.myPoints) ≠ (b.status, b.myPoints))
      (((dedupeBy (fun s : Scenario => (s.status, s.myPoints)) []
        (jsSort compareScenarios scenarios)).filter
          (fun s => decide (s.status = status))).take cap) := by
    have hnd := ((dedupeBy_keys (fun s : Scenario => (s.status, s.myPoints))
      (jsSort compareScenarios scenarios) []).1).sublist
        (hsub.map (fun s : Scenario => (s.status, s.myPoints)))
    exact List.pairwise_map.mp hnd
  refine (h1.and h2).imp_of_mem ?_
  intro a b ha hb hab
  have hsa := hstatus a ha
  have hsb := hstatus b hb
  have hle := points_le_of_compareScenarios a b hab.1 (hsa.trans hsb.symm)
  have hne : a.myPoints ≠ b.myPoints := by
    intro heq
    exact hab.2 (by rw [hsa, hsb, heq])
  omega

/-- C23: the list returned by `generateScenarios` is at most 5 `SAFE` scenarios, then at most 3
`RISK` scenarios, then at most 2 `FAIL` scenarios, so at most 10 scenarios; within each status
the points are strictly decreasing, and no two returned scenarios have the same status and
points. -/
theorem generateScenarios_bands (st : State) (myDriver : Competitor) (targetPosition : Nat)
    (remainingRaceIndices : List Nat) (l : List Scenario)
    (h : generateScenarios st myDriver targetPosition remainingRaceIndices = some l) :
    (∃ safe risk fail : List Scenario, l = safe ++ risk ++ fail ∧
      safe.length ≤ 5 ∧ risk.length ≤ 3 ∧ fail.length ≤ 2 ∧
      (∀ s ∈ safe, s.status = ScenarioStatus.SAFE) ∧
      (∀ s ∈ risk, s.status = ScenarioStatus.RISK) ∧
      (∀ s ∈ fail, s.status = ScenarioStatus.FAIL) ∧
      List.Pairwise (fun a b : Scenario => b.myPoints < a.myPoints) safe ∧
      List.Pairwise (fun a b : Scenario => b.myPoints < a.myPoints) risk ∧
      List.Pairwise (fun a b : Scenario => b.myPoints < a.myPoints) fail) ∧
    l.length ≤ 10 ∧
    (l.map (fun s => (s.status, s.myPoints))).Nodup := by
  unfold generateScenarios at h
  cases hc : classifiedScenarios st myDriver targetPosition remainingRaceIndices with
  | none => simp [hc] at h
  | some scs =>
    simp only [hc, Option.some.injEq] at h
    obtain ⟨s1, s2, s3⟩ := band_properties scs ScenarioStatus.SAFE 5
    obtain ⟨r1, r2, r3⟩ := band_properties scs ScenarioStatus.RISK 3
    obtain ⟨f1, f2, f3⟩ := band_properties scs ScenarioStatus.FAIL 2
    have hl : l = ((dedupeBy (fun s : Scenario => (s.status, s.myPoints)) []
          (jsSort compareScenarios scs)).filter
            (fun s => decide (s.status = ScenarioStatus.SAFE))).take 5 ++
        ((dedupeBy (fun s : Scenario => (s.status, s.myPoints)) []
          (jsSort compareScenarios scs)).filter
            (fun s => decide (s.status = ScenarioStatus.RISK))).take 3 ++
        ((dedupeBy (fun s : Scenario => (s.status, s.myPoints)) []
          (jsSort compareScenarios scs)).filter
            (fun s => decide (s.status = ScenarioStatus.FAIL))).take 2 := h.symm
    have hkeys : ∀ (band : List Scenario),
        List.Pairwise (fun a b : Scenario => b.myPoints < a.myPoints) band →
        (band.map (fun s : Scenario => (s.status, s.myPoints))).Nodup := by
      intro band hb
      refine List.pairwise_map.mpr (hb.imp ?_)
      intro a b hab heq
      have : a.myPoints = b.myPoints := congrArg Prod.snd heq
      omega
    refine ⟨⟨_, _, _, hl, s1, r1, f1, s2, r2, f2, s3, r3, f3⟩, ?_, ?_⟩
    · rw [hl, List.length_append, List.length_append]
      omega
    · rw [hl, List.map_append, List.map_append]
      refine List.Nodup.append (List.Nodup.append (hkeys _ s3) (hkeys _ r3) ?_) (hkeys _ f3) ?_
      · intro k hk1 hk2
        obtain ⟨a, ha, rfl⟩ := List.mem_map.mp hk1
        obtain ⟨b, hb, hkb⟩ := List.mem_map.mp hk2
        have h1 := s2 a ha
        have h2 := r2 b hb
        have h3 : b.status = a.status := congrArg Prod.fst hkb
        rw [h1, h2] at h3
        cases h3
      · intro k hk1 hk2
        obtain ⟨b, hb, hkb⟩ := List.mem_map.mp hk2
        have h2 := f2 b hb
        rcases List.mem_append.mp hk1 with hk1 | hk1
        · obtain ⟨a, ha, rfl⟩ := List.mem_map.mp hk1
          have h1 := s2 a ha
          have h3 : b.status = a.status := congrArg Prod.fst hkb
          rw [h1, h2] at h3
          cases h3
        · obtain ⟨a, ha, rfl⟩ := List.mem_map.mp hk1
          have h1 := r2 a ha
          have h3 : b.status = a.status := congrArg Prod.fst hkb
          rw [h1, h2] at h3
          cases h3

/-- Witness of C23: the five scenarios returned in the scenario test are one `SAFE`, three
`RISK` and one `FAIL` scenario with distinct status and points. -/
theorem generateScenarios_bands_witness :
    generateScenarios openState leaderOpen 1 [2] = some openScenarios ∧
    openScenarios.length ≤ 10 ∧
    (openScenarios.map (fun s => (s.status, s.myPoints))).Nodup :=
  ⟨by decide,
    (generateScenarios_bands openState leaderOpen 1 [2] openScenarios (by decide)).2⟩

/-! ## The candidates of the enumeration -/

/-- C22, as stated, fails for a scoring table with more than 17 entries: the candidates stop
at position 20. On a table with 18 entries the candidates of one remaining race are 1, ..., 20
and position 21 is not tried. -/
theorem one_race_candidates_capped :
    longState.championship.scoring.length + 3 = 21 ∧
    (classifiedScenarios longState rookie 1 [0]).map (fun l => l.map (fun s => s.results)) =
      some ((List.range' 1 20).map (fun pos => [pos])) := by
  refine ⟨by decide, by decide⟩

/-- C22, amended: with one remaining race, for a tracked competitor of the state,
`generateScenarios` classifies one scenario for each of the positions 1, 2, ..., `maxPosition`
in this order, where `maxPosition` is the length of the scoring table plus 3, and 20 if that
exceeds 20; for a table with at most 17 entries these are the positions 1, ..., length + 3. -/
theorem one_race_candidates (st : State) (myDriver : Competitor)
    (targetPosition raceIdx : Nat) (hm : myDriver ∈ st.competitors) :
    ∃ scs, classifiedScenarios st myDriver targetPosition [raceIdx] = some scs ∧
      scs.map (fun s => s.results) =
        (List.range' 1 (min (st.championship.scoring.length + 3) 20)).map (fun pos => [pos]) ∧
      (st.championship.scoring.length ≤ 17 →
        scs.map (fun s => s.results) =
          (List.range' 1 (st.championship.scoring.length + 3)).map (fun pos => [pos])) := by
  obtain ⟨sc, hsc⟩ := standing_of_competitor st myDriver hm
  have hmain : ∃ scs, classifiedScenarios st myDriver targetPosition [raceIdx] = some scs ∧
      scs.map (fun s => s.results) =
        (List.range' 1 (min (st.championship.scoring.length + 3) 20)).map
          (fun pos => [pos]) := by
    unfold classifiedScenarios
    simp only [hsc]
    refine ⟨_, rfl, ?_⟩
    unfold candidatePositions
    simp only [List.length_singleton, if_true, List.map_map]
    rfl
  obtain ⟨scs, h1, h2⟩ := hmain
  refine ⟨scs, h1, h2, ?_⟩
  intro hlen
  rw [h2, Nat.min_eq_left (by omega)]

/-- Witness of amended C22: on the 5-entry table of the scenario test the candidates of the
last race are the positions 1 to 8. -/
theorem one_race_candidates_witness :
    leaderOpen ∈ openState.competitors ∧
    ∃ scs, classifiedScenarios openState leaderOpen 1 [2] = some scs ∧
      scs.map (fun s => s.results) = [[1], [2], [3], [4], [5], [6], [7], [8]] :=
  ⟨by decide,
    (one_race_candidates openState leaderOpen 1 2 (by decide)).imp
      (fun _ h => ⟨h.1, h.2.1⟩)⟩

/-! ## Two remaining races -/

theorem cons_set_perm {α : Type} (a b : α) :
    ∀ (t : List α) (j : Nat), j < t.length → (a :: t.set j b).Perm (b :: t.set j a)
  | [], _, h => by simp at h
  | y :: t, 0, _ => List.Perm.swap b a t
  | y :: t, j + 1, h => by
    have ih := cons_set_perm a b t j (by simpa using h)
    simp only [List.set_cons_succ]
    exact ((List.Perm.swap y a _).trans (ih.cons y)).trans (List.Perm.swap b y _)

/-- Writing two values to two different places of an array in either order of the values gives
the same entries up to their order. -/
theorem set_set_perm {α : Type} (a b : α) :
    ∀ (l : List α) (i j : Nat), i ≠ j → i < l.length → j < l.length →
      ((l.set i a).set j b).Perm ((l.set i b).set j a)
  | [], _, _, _, h, _ => by simp at h
  | x :: t, 0, 0, hne, _, _ => absurd rfl hne
  | x :: t, 0, j + 1, _, _, hj => by
    simp only [List.set_cons_zero, List.set_cons_succ]
    exact cons_set_perm a b t j (by simpa using hj)
  | x :: t, i + 1, 0, _, hi, _ => by
    simp only [List.set_cons_zero, List.set_cons_succ]
    exact cons_set_perm b a t i (by simpa using hi)
  | x :: t, i + 1, j + 1, hne, hi, hj => by
    simp only [List.set_cons_succ]
    exact (set_set_perm a b t i j (by omega) (by simpa using hi) (by simpa using hj)).cons x

/-- The best-N sum does not depend on the order of the entries. -/
theorem bestSum_perm (k : Nat) (l1 l2 : List Int) (h : l1.Perm l2) :
    bestSum k l1 = bestSum k l2 := by
  have hs : jsSort (fun a b : Int => b - a) l1 = jsSort (fun a b : Int => b - a) l2 := by
    refine sorted_perm_unique (fun a b : Int => b ≤ a) _ _ ?_ (sortDesc_pairwise l1)
      (sortDesc_pairwise l2) ?_
    · exact ((jsSort_perm _ l1).trans h).trans (jsSort_perm _ l2).symm
    · intro a _ b _ h1 h2
      omega
  unfold bestSum
  simp only []
  rw [hs]

theorem assignAt_two_swap {α : Type} (f : Nat → α) (arr : List α) (i j p q : Nat)
    (hne : i ≠ j) (hi : i < arr.length) (hj : j < arr.length) :
    (assignAt f arr [p, q] [i, j]).Perm (assignAt f arr [q, p] [i, j]) := by
  simp only [assignAt]
  exact set_set_perm (f p) (f q) arr i j hne hi hj

/-- C29: with exactly two remaining races `i` and `j` of the tracked competitor (and a key
rival whose results list is as long as the tracked competitor's), the assignments `[p, q]` and
`[q, p]` give the same tracked total, the same conditional maximum of the rival and the same
status; so every pair of candidate positions has the status and points of a classified pair
with `p ≤ q`. -/
theorem two_race_order_irrelevant (st : State) (tracked : Competitor)
    (keyRivalComp : Option Competitor) (rivalMinPoints : Int) (i j : Nat)
    (hrem : remainingIndices tracked.results 0 = [i, j])
    (hk : ∀ k, keyRivalComp = some k → k.results.length = tracked.results.length) :
    (∀ p q : Nat,
      calcPointsWithResults st (racePointsOf st tracked.results) [i, j] [p, q] =
        calcPointsWithResults st (racePointsOf st tracked.results) [i, j] [q, p] ∧
      calcRivalMaxWithUserPositions st keyRivalComp [i, j] [p, q] =
        calcRivalMaxWithUserPositions st keyRivalComp [i, j] [q, p] ∧
      classifyScenario st (racePointsOf st tracked.results) keyRivalComp rivalMinPoints [i, j]
          [p, q] =
        { classifyScenario st (racePointsOf st tracked.results) keyRivalComp rivalMinPoints
            [i, j] [q, p] with results := [p, q] }) ∧
    (∀ maxPosition p q : Nat, p ∈ List.range' 1 maxPosition → q ∈ List.range' 1 maxPosition →
      ∃ c ∈ candidatePositions maxPosition 2,
        (classifyScenario st (racePointsOf st tracked.results) keyRivalComp rivalMinPoints
            [i, j] c).status =
          (classifyScenario st (racePointsOf st tracked.results) keyRivalComp rivalMinPoints
            [i, j] [p, q]).status ∧
        (classifyScenario st (racePointsOf st tracked.results) keyRivalComp rivalMinPoints
            [i, j] c).myPoints =
          (classifyScenario st (racePointsOf st tracked.results) keyRivalComp rivalMinPoints
            [i, j] [p, q]).myPoints) := by
  have hmemi : i ∈ remainingIndices tracked.results 0 := by rw [hrem]; simp
  have hmemj : j ∈ remainingIndices tracked.results 0 := by rw [hrem]; simp
  have hne : i ≠ j := by
    have hnd := remainingIndices_nodup tracked.results 0
    rw [hrem] at hnd
    intro h
    subst h
    simp at hnd
  have hi : i < tracked.results.length := by
    obtain ⟨i', r, hii, hr, _⟩ := (mem_remainingIndices _ _ _).mp hmemi
    have := (List.getElem?_eq_some.mp hr).1
    omega
  have hj : j < tracked.results.length := by
    obtain ⟨j', r, hjj, hr, _⟩ := (mem_remainingIndices _ _ _).mp hmemj
    have := (List.getElem?_eq_some.mp hr).1
    omega
  have hT : ∀ p q : Nat,
      calcPointsWithResults st (racePointsOf st tracked.results) [i, j] [p, q] =
        calcPointsWithResults st (racePointsOf st tracked.results) [i, j] [q, p] := by
    intro p q
    unfold calcPointsWithResults
    exact bestSum_perm _ _ _ (assignAt_two_swap _ _ i j p q hne
      (by unfold racePointsOf; rw [List.length_map]; exact hi)
      (by unfold racePointsOf; rw [List.length_map]; exact hj))
  have hM : ∀ p q : Nat,
      calcRivalMaxWithUserPositions st keyRivalComp [i, j] [p, q] =
        calcRivalMaxWithUserPositions st keyRivalComp [i, j] [q, p] := by
    intro p q
    cases hkc : keyRivalComp with
    | none => rfl
    | some k =>
      have hlen := hk k hkc
      unfold calcRivalMaxWithUserPositions
      exact bestSum_perm _ _ _ (assignAt_two_swap _ _ i j p q hne
        (by rw [List.length_map, hlen]; exact hi) (by rw [List.length_map, hlen]; exact hj))
  have hC : ∀ p q : Nat,
      classifyScenario st (racePointsOf st tracked.results) keyRivalComp rivalMinPoints [i, j]
          [p, q] =
        { classifyScenario st (racePointsOf st tracked.results) keyRivalComp rivalMinPoints
            [i, j] [q, p] with results := [p, q] } := by
    intro p q
    unfold classifyScenario
    simp only []
    rw [hT p q, hM p q]
  refine ⟨fun p q => ⟨hT p q, hM p q, hC p q⟩, ?_⟩
  intro maxPosition p q hp hq
  have hcand : ∀ a b : Nat, a ∈ List.range' 1 maxPosition → b ∈ List.range' 1 maxPosition →
      a ≤ b → [a, b] ∈ candidatePositions maxPosition 2 := by
    intro a b ha hb hab
    unfold candidatePositions
    simp only [OfNat.ofNat_ne_one, if_false, if_true, List.mem_flatMap, List.mem_map,
      List.mem_filter, decide_eq_true_eq]
    exact ⟨a, ha, b, ⟨hb, hab⟩, rfl⟩
  by_cases hpq : p ≤ q
  · exact ⟨[p, q], hcand p q hp hq hpq, rfl, rfl⟩
  · refine ⟨[q, p], hcand q p hq hp (by omega), ?_, ?_⟩
    · rw [hC p q]
    · rw [hC p q]

/-- Witness of C29: with the last two of three races open, P1 then P3 and P3 then P1 give the
same scenario up to the order of the two positions. -/
theorem two_race_order_irrelevant_witness :
    remainingIndices leaderTwoLeft.results 0 = [1, 2] ∧
    calcPointsWithResults twoLeftState (racePointsOf twoLeftState leaderTwoLeft.results) [1, 2]
        [1, 3] =
      calcPointsWithResults twoLeftState (racePointsOf twoLeftState leaderTwoLeft.results)
        [1, 2] [3, 1] :=
  ⟨by decide,
    ((two_race_order_irrelevant twoLeftState leaderTwoLeft (some challTwoLeft) 18 1 2
      (by decide) (by intro k hk; cases hk; rfl)).1 1 3).1⟩

/-! ## Required results against the position status -/

/-- C21 fails on this state: best 2 of 4 races count, Tom leads with 50 points ahead of Al (36)
and Bea (35), one race is left. `calculateRequiredResults` looks at Al only, whose maximum is
43, and returns `GUARANTEED`; `calculatePositionStatus` finds Bea, whose maximum is 50, and
returns `ON_TRACK`. When Bea wins the last race and Tom is tenth, both have 50 points and two
wins, Bea has the two fifth places, and Tom is second. -/
theorem required_guaranteed_but_on_track :
    (calculateRequiredResults dropDuel (some tom) 1).map (fun r => r.type) =
      some RequiredType.GUARANTEED ∧
    (calculatePositionStatus dropDuel (some tom) 1).map (fun r => r.status) =
      some Status.ON_TRACK ∧
    (List.zipWith (fun c d : Competitor => completes c.results d.results) dropDuel.competitors
      dropDuelDone.competitors) = [true, true, true] ∧
    (calculateStandings dropDuelDone).map (fun s => (s.name, s.totalPoints, s.rank)) =
      [("Bea", 50, 1), ("Tom", 50, 2), ("Al", 36, 3)] := by
  refine ⟨by decide, by decide, by decide, by decide⟩

/-- C28 fails on this state: Front has won the first of two races, Chaser was seventh. The
positions 1 to 6 in the last race are classified `SAFE` with 50, 43, 40, 37, 35 and 33 points;
the returned list keeps five `SAFE` scenarios, and the message of `calculateRequiredResults`
quotes P5 with 35 points, although P6 with 33 points is `SAFE` as well. -/
theorem quoted_scenario_not_easiest :
    (calculateRequiredResults chaseState (some frontMan) 1).map
        (fun r => (r.type, r.messageScenario.map (fun s => (s.results, s.myPoints, s.status)))) =
      some (RequiredType.SCENARIOS, some ([5], 35, ScenarioStatus.SAFE)) ∧
    (classifiedScenarios chaseState frontMan 1 [1]).map
        (fun l => (l.filter (fun s => s.status = ScenarioStatus.SAFE)).map
          (fun s => (s.results, s.myPoints))) =
      some [([1], 50), ([2], 43), ([3], 40), ([4], 37), ([5], 35), ([6], 33)] := by
  refine ⟨by decide, by decide⟩

/-! ## The comparator on a host collation -/

theorem consistent_collateBy (key : String → String) : ConsistentCollation (collateBy key) := by
  refine ⟨?_, ?_, ?_⟩
  · intro a b
    unfold collateBy
    rw [localeCompare_le_iff, localeCompare_le_iff]
    exact le_total _ _
  · intro a b c
    unfold collateBy
    rw [localeCompare_le_iff, localeCompare_le_iff, localeCompare_le_iff]
    exact le_trans
  · intro a b
    unfold collateBy
    rw [localeCompare_le_iff, localeCompare_le_iff]
    intro h1 h2
    have h := le_antisymm h1 h2
    rw [h]
    unfold localeCompare
    rw [if_neg (lt_irrefl _), if_pos rfl]

theorem consistent_sampleCollation : ConsistentCollation sampleCollation :=
  consistent_collateBy sampleKey

theorem consistent_localeCompare : ConsistentCollation localeCompare :=
  consistent_collateBy (fun s => s)

/-- The standings of the other claims are the standings on the host whose collation is the
character order. -/
theorem calculateStandingsOn_localeCompare (st : State) :
    calculateStandingsOn localeCompare st = calculateStandings st :=
  rfl

theorem compareStandingsOn_le_iff (collate : String → String → Int) (a b : StandingEntry) :
    compareStandingsOn collate a b ≤ 0 ↔
      KeyLe a b ∧
        (a.totalPoints = b.totalPoints → countDiff a.results b.results tiebreakPositions = none →
          collate a.name b.name ≤ 0) := by
  unfold compareStandingsOn KeyLe
  by_cases hp : b.totalPoints = a.totalPoints
  · simp only [ne_eq, hp, not_true_eq_false, if_false, lt_self_iff_false, true_and, false_or,
      forall_true_left]
    cases hc : countDiff a.results b.results tiebreakPositions with
    | none =>
      constructor
      · intro h
        exact ⟨countsLe_of_none _ _ _ hc, fun _ => h⟩
      · intro h
        exact h.2 rfl
    | some d =>
      simp only [reduceCtorEq, false_implies, and_true]
      constructor
      · intro h e he
        rw [hc] at he
        cases he
        exact h
      · intro h
        exact h d hc
  · have hp' : ¬ a.totalPoints = b.totalPoints := fun h => hp h.symm
    simp only [ne_eq, hp, not_false_eq_true, if_true, false_and, or_false, hp', false_implies,
      and_true]
    omega

theorem compareStandingsOn_total (collate : String → String → Int)
    (hc : ConsistentCollation collate) (a b : StandingEntry) :
    compareStandingsOn collate a b ≤ 0 ∨ compareStandingsOn collate b a ≤ 0 := by
  rw [compareStandingsOn_le_iff, compareStandingsOn_le_iff]
  rcases lt_trichotomy a.totalPoints b.totalPoints with hp | hp | hp
  · exact Or.inr ⟨Or.inl hp, fun h => by omega⟩
  · rcases countsLe_total a.results b.results tiebreakPositions with h | h
    · by_cases hn : countDiff a.results b.results tiebreakPositions = none
      · rcases hc.1 a.name b.name with hname | hname
        · exact Or.inl ⟨Or.inr ⟨hp.symm, h⟩, fun _ _ => hname⟩
        · exact Or.inr ⟨Or.inr ⟨hp, countsLe_of_none _ _ _ (countDiff_none_symm _ _ _ hn)⟩,
            fun _ _ => hname⟩
      · exact Or.inl ⟨Or.inr ⟨hp.symm, h⟩, fun _ hc => absurd hc hn⟩
    · by_cases hn : countDiff b.results a.results tiebreakPositions = none
      · rcases hc.1 a.name b.name with hname | hname
        · exact Or.inl ⟨Or.inr ⟨hp.symm, countsLe_of_none _ _ _ (countDiff_none_symm _ _ _ hn)⟩,
            fun _ _ => hname⟩
        · exact Or.inr ⟨Or.inr ⟨hp, h⟩, fun _ _ => hname⟩
      · exact Or.inr ⟨Or.inr ⟨hp, h⟩, fun _ hc => absurd hc hn⟩
  · exact Or.inl ⟨Or.inl hp, fun h => by omega⟩

theorem compareStandingsOn_trans (collate : String → String → Int)
    (hc : ConsistentCollation collate) (a b c : StandingEntry)
    (h1 : compareStandingsOn collate a b ≤ 0) (h2 : compareStandingsOn collate b c ≤ 0) :
    compareStandingsOn collate a c ≤ 0 := by
  rw [compareStandingsOn_le_iff] at h1 h2 ⊢
  refine ⟨keyLe_trans a b c h1.1 h2.1, ?_⟩
  intro hp hcd
  have hca : KeyLe c a := keyLe_of_tie c a hp.symm (countDiff_none_symm _ _ _ hcd)
  have hab := keyLe_antisymm a b h1.1 (keyLe_trans b c a h2.1 hca)
  have hbc := keyLe_antisymm b c h2.1 (keyLe_trans c a b hca h1.1)
  exact hc.2.1 _ _ _ (h1.2 hab.1 hab.2) (h2.2 hbc.1 hbc.2)

/-- On a consistent collation the sorted entries are pairwise in comparator order. -/
theorem sortedOn_pairwise (collate : String → String → Int) (hc : ConsistentCollation collate)
    (l : List StandingEntry) :
    List.Pairwise (fun a b => compareStandingsOn collate a b ≤ 0)
      (jsSort (compareStandingsOn collate) l) :=
  jsSort_pairwise (compareStandingsOn collate) (compareStandingsOn_total collate hc)
    (compareStandingsOn_trans collate hc) l

theorem calculateStandingsOn_entries (collate : String → String → Int) (st : State) :
    (calculateStandingsOn collate st).map Standing.toStandingEntry =
      jsSort (compareStandingsOn collate) (standingEntries st) :=
  assignRanks_entries _ _ _ _

/-- Comparator order is the three-level order of the host. -/
theorem precedesOn_of_compare (collate : String → String → Int) (a b : StandingEntry)
    (h : compareStandingsOn collate a b ≤ 0) : PrecedesOn collate a b := by
  rw [compareStandingsOn_le_iff] at h
  obtain ⟨hkey, htie⟩ := h
  rcases hkey with hp | ⟨hp, hcl⟩
  · exact Or.inl hp
  · cases hd : countDiff a.results b.results tiebreakPositions with
    | none =>
      refine Or.inr (Or.inr ⟨hp.symm, ?_, htie hp.symm hd⟩)
      exact ((sameRecord_iff_tie a b).mpr ⟨hp.symm, hd⟩).2
    | some d =>
      have hd0 : d ≠ 0 := countDiff_ne_zero _ _ _ d hd
      have hdle : d ≤ 0 := hcl d hd
      obtain ⟨k, hk1, hk2, hk3, hk4⟩ :=
        countDiff_range'_neg a.results b.results 20 1 d hd (by omega)
      exact Or.inr (Or.inl ⟨hp.symm, k, hk1, by omega, hk3, hk4⟩)

/-- On names that the collation tells apart, the comparator of the standings is antisymmetric. -/
theorem compareStandingsOn_antisymm (collate : String → String → Int)
    (hc : ConsistentCollation collate) (l : List StandingEntry)
    (hnames : (l.map (fun e => e.name)).Nodup)
    (hapart : ∀ x ∈ l.map (fun e => e.name), ∀ y ∈ l.map (fun e => e.name),
      collate x y = 0 → x = y)
    (a : StandingEntry) (ha : a ∈ l) (b : StandingEntry) (hb : b ∈ l)
    (hab : compareStandingsOn collate a b ≤ 0) (hba : compareStandingsOn collate b a ≤ 0) :
    a = b := by
  obtain ⟨k1, n1⟩ := (compareStandingsOn_le_iff collate a b).mp hab
  obtain ⟨k2, n2⟩ := (compareStandingsOn_le_iff collate b a).mp hba
  obtain ⟨hpts, hcd⟩ := keyLe_antisymm a b k1 k2
  obtain ⟨_, hcd'⟩ := keyLe_antisymm b a k2 k1
  have hle1 := n1 hpts hcd
  have hle2 := n2 hpts.symm hcd'
  have h0 := hc.2.2 _ _ hle1 hle2
  have hname : a.name = b.name :=
    hapart a.name (List.mem_map.mpr ⟨a, ha, rfl⟩) b.name (List.mem_map.mpr ⟨b, hb, rfl⟩) h0
  exact List.inj_on_of_nodup_map hnames ha hb hname

/-! ## Claims on the order of names -/

/-- C3, as stated, fails: the last level is the order of the host's `localeCompare`, not the
order of the characters. Bob `[P1, P2]` and alice `[P2, P1]` have 43 points each and the same
finish counts; a host collation that ranks letters before case lists alice first, although
`"Bob"` is the smaller string, so the three-level order with ascending names does not hold. -/
theorem standings_follow_host_collation :
    ConsistentCollation sampleCollation ∧
    (caseState.competitors.map (fun c => c.name)).Nodup ∧
    (calculateStandingsOn sampleCollation caseState).map (fun s => (s.name, s.totalPoints)) =
      [("alice", 43), ("Bob", 43)] ∧
    "Bob" < "alice" ∧
    ¬ List.Pairwise (fun a b : Standing => Precedes a.toStandingEntry b.toStandingEntry)
      (calculateStandingsOn sampleCollation caseState) := by
  have hcounts : ∀ k : Nat,
      countPositionFinishes [P 2, P 1] k = countPositionFinishes [P 1, P 2] k := by
    intro k
    unfold countPositionFinishes P
    by_cases h1 : k = 1
    · subst h1
      decide
    · by_cases h2 : k = 2
      · subst h2
        decide
      · have e1 : ¬ (1 : Nat) = k := fun h => h1 h.symm
        have e2 : ¬ (2 : Nat) = k := fun h => h2 h.symm
        simp [List.filter, e1, e2]
  refine ⟨consistent_sampleCollation, by decide, by decide,
    String.lt_iff_toList_lt.mpr (by decide), ?_⟩
  have hrows : calculateStandingsOn sampleCollation caseState =
      [aliceLowerRow, bobCapitalRow] := by decide
  rw [hrows]
  intro hpw
  have hp : Precedes aliceLowerRow.toStandingEntry bobCapitalRow.toStandingEntry :=
    (List.pairwise_cons.mp hpw).1 bobCapitalRow (List.mem_cons_self _ _)
  rcases hp with h | ⟨_, k, _, _, _, hk⟩ | ⟨_, _, hname⟩
  · exact absurd h (by decide)
  · have := hcounts k
    change countPositionFinishes [P 1, P 2] k < countPositionFinishes [P 2, P 1] k at hk
    omega
  · exact absurd (String.lt_iff_toList_lt.mp hname) (by decide)

/-- C3, amended: on a host whose `localeCompare` is a consistent comparator, the list returned
by `calculateStandings` is sorted by the three-level order of that host: every standing
precedes every later one by more points, or on equal points by the lexicographically greater
vector of P1..P20 finish counts, or on equal points and counts by a name that `localeCompare`
does not place after the later one's. -/
theorem calculateStandingsOn_sorted (collate : String → String → Int)
    (hc : ConsistentCollation collate) (st : State) :
    List.Pairwise
      (fun a b : Standing => PrecedesOn collate a.toStandingEntry b.toStandingEntry)
      (calculateStandingsOn collate st) := by
  have h := sortedOn_pairwise collate hc (standingEntries st)
  rw [← calculateStandingsOn_entries, List.pairwise_map] at h
  exact h.imp (fun {a b} hab => precedesOn_of_compare collate _ _ hab)

/-- Witness of amended C3: scoring `[10, 6, 4]`, Alice `[P1, P3, P3]` and Bob `[P2, P2, P2]`
both have 18 points and Alice is listed first, preceding Bob by her win. -/
theorem calculateStandingsOn_sorted_witness :
    (calculateStandingsOn sampleCollation winsState).map (fun s => (s.name, s.totalPoints)) =
      [("Alice", 18), ("Bob", 18)] ∧
    List.Pairwise
      (fun a b : Standing => PrecedesOn sampleCollation a.toStandingEntry b.toStandingEntry)
      (calculateStandingsOn sampleCollation winsState) :=
  ⟨by decide, calculateStandingsOn_sorted sampleCollation consistent_sampleCollation winsState⟩

/-- C30, as stated, fails: two distinct names that the host's `localeCompare` treats as equal
leave the order to the sort's stability. The names `René` written with a precomposed `é` and
with `e` and a combining accent are different strings that compare as 0; with the same record
both competitors tie on every level, and each storage order is returned unchanged. -/
theorem standings_depend_on_storage_order :
    ConsistentCollation sampleCollation ∧
    (accentState.competitors.map (fun c => c.name)).Nodup ∧
    accentState.championship = accentStateSwapped.championship ∧
    accentState.competitors.Perm accentStateSwapped.competitors ∧
    sampleCollation renePrecomposed.name reneDecomposed.name = 0 ∧
    (calculateStandingsOn sampleCollation accentState).map (fun s => s.competitorId) =
      ["comp_1", "comp_2"] ∧
    (calculateStandingsOn sampleCollation accentStateSwapped).map (fun s => s.competitorId) =
      ["comp_2", "comp_1"] := by
  refine ⟨consistent_sampleCollation, by decide, rfl, List.Perm.swap _ _ _, by decide,
    by decide, by decide⟩

/-- C30, amended: on a host whose `localeCompare` is a consistent comparator, for one
configuration and two competitor lists that are permutations of each other, whose names are
pairwise distinct and no two of which `localeCompare` treats as equal, `calculateStandings`
returns the same list of standings. -/
theorem calculateStandingsOn_order_independent (collate : String → String → Int)
    (hc : ConsistentCollation collate) (ch : Championship) (l1 l2 : List Competitor)
    (hperm : l1.Perm l2) (hnames : (l1.map (fun c => c.name)).Nodup)
    (hapart : ∀ x ∈ l1.map (fun c => c.name), ∀ y ∈ l1.map (fun c => c.name),
      collate x y = 0 → x = y) :
    calculateStandingsOn collate { championship := ch, competitors := l1 } =
      calculateStandingsOn collate { championship := ch, competitors := l2 } := by
  have hentries : (standingEntries { championship := ch, competitors := l1 }).Perm
      (standingEntries { championship := ch, competitors := l2 }) :=
    hperm.map _
  have hmap : ((jsSort (compareStandingsOn collate)
      (standingEntries { championship := ch, competitors := l1 })).map (fun e => e.name)).Perm
        (l1.map (fun c => c.name)) := by
    refine ((jsSort_perm _ _).map _).trans ?_
    rw [standingEntries_names]
  have hsorted : jsSort (compareStandingsOn collate)
        (standingEntries { championship := ch, competitors := l1 }) =
      jsSort (compareStandingsOn collate)
        (standingEntries { championship := ch, competitors := l2 }) := by
    refine sorted_perm_unique (fun a b => compareStandingsOn collate a b ≤ 0) _ _ ?_
      (sortedOn_pairwise collate hc _) (sortedOn_pairwise collate hc _) ?_
    · exact ((jsSort_perm _ _).trans hentries).trans (jsSort_perm _ _).symm
    · intro a ha b hb
      refine compareStandingsOn_antisymm collate hc _ (hmap.nodup_iff.mpr hnames) ?_ a ha b hb
      intro x hx y hy
      exact hapart x (hmap.subset hx) y (hmap.subset hy)
  unfold calculateStandingsOn
  simp only []
  rw [hsorted]

/-- Witness of amended C30: the tie-break test gives the same standings with Alice and Bob
stored in either order. -/
theorem calculateStandingsOn_order_independent_witness :
    calculateStandingsOn sampleCollation winsStateSwapped =
      calculateStandingsOn sampleCollation winsState :=
  calculateStandingsOn_order_independent sampleCollation consistent_sampleCollation
    winsState.championship [alice, bob] [bob, alice] (List.Perm.swap _ _ _) (by decide)
    (by decide)

/-! ## The heap: reads -/

theorem getElem?_append_some {α : Type} (l ext : List α) (a : Nat) (c : α)
    (h : l[a]? = some c) : (l ++ ext)[a]? = some c := by
  have hlt : a < l.length := (List.getElem?_eq_some.mp h).1
  rw [List.getElem?_append_left hlt]
  exact h

theorem mapOrThrow_mono {α β : Type} (f g : α → Option β)
    (h : ∀ a b, f a = some b → g a = some b) :
    ∀ (l : List α) (bs : List β), mapOrThrow f l = some bs → mapOrThrow g l = some bs
  | [], bs, hl => hl
  | a :: l, bs, hl => by
    unfold mapOrThrow at hl ⊢
    cases hfa : f a with
    | none => simp [hfa] at hl
    | some b =>
      rw [h a b hfa]
      simp only [hfa] at hl
      cases hfl : mapOrThrow f l with
      | none => simp [hfl] at hl
      | some bs' =>
        rw [mapOrThrow_mono f g h l bs' hfl]
        simp only [hfl] at hl
        exact hl

theorem mapOrThrow_cons_some {α β : Type} (f : α → Option β) (a : α) (l : List α)
    (bs : List β) (h : mapOrThrow f (a :: l) = some bs) :
    ∃ b bs', f a = some b ∧ mapOrThrow f l = some bs' ∧ bs = b :: bs' := by
  unfold mapOrThrow at h
  cases hfa : f a with
  | none => simp [hfa] at h
  | some b =>
    simp only [hfa] at h
    cases hfl : mapOrThrow f l with
    | none => simp [hfl] at h
    | some bs' =>
      simp only [hfl, Option.some.injEq] at h
      exact ⟨b, bs', rfl, rfl, h.symm⟩

theorem mapOrThrow_of_forall₂ {α β : Type} (f : α → Option β) :
    ∀ (l : List α) (bs : List β), List.Forall₂ (fun a b => f a = some b) l bs →
      mapOrThrow f l = some bs
  | [], _, h => by
    cases h
    rfl
  | a :: l, _, h => by
    cases h with
    | cons hab hrest =>
      unfold mapOrThrow
      rw [hab, mapOrThrow_of_forall₂ f l _ hrest]

theorem readResults_eq_some (heap : List Cell) (address : Nat) (items : List Result) :
    readResults heap address = some items ↔ heap[address]? = some (Cell.results items) := by
  unfold readResults
  cases h : heap[address]? with
  | none => simp
  | some cell => cases cell <;> simp

theorem readCompetitor_eq_some (heap : List Cell) (address : Nat) (c : Competitor) :
    readCompetitor heap address = some c ↔
      ∃ results, heap[address]? = some (Cell.competitor c.id c.name c.isMyDriver results) ∧
        heap[results]? = some (Cell.results c.results) := by
  unfold readCompetitor
  cases h : heap[address]? with
  | none => simp
  | some cell =>
    cases cell with
    | competitor id name isMyDriver results =>
      cases hr : readResults heap results with
      | none =>
        simp only [hr, reduceCtorEq, Option.some.injEq, Cell.competitor.injEq, false_iff,
          not_exists, not_and]
        intro r h1 h2
        rw [← h1.2.2.2, ← readResults_eq_some, hr] at h2
        cases h2
      | some items =>
        have hr' := (readResults_eq_some heap results items).mp hr
        simp only [hr, Option.some.injEq, Cell.competitor.injEq]
        constructor
        · intro hc
          subst hc
          exact ⟨results, ⟨rfl, rfl, rfl, rfl⟩, hr'⟩
        · rintro ⟨r, ⟨h1, h2, h3, h4⟩, h5⟩
          subst h4
          rw [hr'] at h5
          simp only [Option.some.injEq, Cell.results.injEq] at h5
          cases c
          simp only at h1 h2 h3 h5
          subst h1 h2 h3 h5
          rfl
    | config _ => simp
    | results _ => simp
    | array _ => simp
    | standing _ _ _ _ _ _ _ _ => simp

theorem readState_eq_some (heap : List Cell) (root : StateRef) (st : State) :
    readState heap root = some st ↔
      ∃ items, heap[root.championship]? = some (Cell.config st.championship) ∧
        heap[root.competitors]? = some (Cell.array items) ∧
        mapOrThrow (readCompetitor heap) items = some st.competitors := by
  unfold readState
  constructor
  · intro h
    split at h
    · rename_i championship items h1 h2
      cases hm : mapOrThrow (readCompetitor heap) items with
      | none => simp [hm] at h
      | some competitors =>
        simp only [hm, Option.some.injEq] at h
        subst h
        exact ⟨items, h1, h2, hm⟩
    · cases h
  · rintro ⟨items, h1, h2, h3⟩
    rw [h1, h2]
    simp only [h3]

/-- A heap in which every cell of `heap` is still in place gives the same reads. -/
theorem readState_mono (heap heap' : List Cell) (root : StateRef) (st : State)
    (hext : ∀ (a : Nat) (c : Cell), heap[a]? = some c → heap'[a]? = some c)
    (h : readState heap root = some st) : readState heap' root = some st := by
  rw [readState_eq_some] at h ⊢
  obtain ⟨items, h1, h2, h3⟩ := h
  refine ⟨items, hext _ _ h1, hext _ _ h2, ?_⟩
  refine mapOrThrow_mono _ _ ?_ items _ h3
  intro a c hc
  rw [readCompetitor_eq_some] at hc ⊢
  obtain ⟨r, hr1, hr2⟩ := hc
  exact ⟨r, hext _ _ hr1, hext _ _ hr2⟩

theorem readEntry_eq_some (heap : List Cell) (address : Nat) (e : StandingEntry) :
    readEntry heap address = some e ↔
      ∃ results isTied rank,
        heap[address]? = some (Cell.standing e.competitorId e.name e.isMyDriver e.totalPoints
          e.wins results isTied rank) ∧
        heap[results]? = some (Cell.results e.results) := by
  unfold readEntry
  cases h : heap[address]? with
  | none => simp
  | some cell =>
    cases cell with
    | standing competitorId name isMyDriver totalPoints wins results isTied rank =>
      cases hr : readResults heap results with
      | none =>
        simp only [hr, reduceCtorEq, Option.some.injEq, Cell.standing.injEq, false_iff,
          not_exists, not_and]
        intro r x y h1 h2
        rw [← h1.2.2.2.2.2.1, ← readResults_eq_some, hr] at h2
        cases h2
      | some items =>
        have hr' := (readResults_eq_some heap results items).mp hr
        simp only [hr, Option.some.injEq, Cell.standing.injEq]
        constructor
        · intro hc
          subst hc
          exact ⟨results, isTied, rank, ⟨rfl, rfl, rfl, rfl, rfl, rfl, rfl, rfl⟩, hr'⟩
        · rintro ⟨r, x, y, ⟨h1, h2, h3, h4, h5, h6, _, _⟩, h7⟩
          subst h6
          rw [hr'] at h7
          simp only [Option.some.injEq, Cell.results.injEq] at h7
          cases e
          simp only at h1 h2 h3 h4 h5 h7
          subst h1 h2 h3 h4 h5 h7
          rfl
    | config _ => simp
    | results _ => simp
    | array _ => simp
    | competitor _ _ _ _ => simp

theorem readStanding_eq_some (heap : List Cell) (address : Nat) (s : Standing) :
    readStanding heap address = some s ↔
      ∃ results,
        heap[address]? = some (Cell.standing s.competitorId s.name s.isMyDriver s.totalPoints
          s.wins results (some s.isTied) (some s.rank)) ∧
        heap[results]? = some (Cell.results s.results) := by
  constructor
  · intro h
    unfold readStanding at h
    split at h
    · rename_i competitorId name isMyDriver totalPoints wins results isTied rank hcell
      cases hr : readResults heap results with
      | none => simp [hr] at h
      | some items =>
        simp only [hr, Option.some.injEq] at h
        subst h
        exact ⟨results, hcell, (readResults_eq_some heap results items).mp hr⟩
    · cases h
  · rintro ⟨r, h1, h2⟩
    unfold readStanding
    rw [h1]
    simp only [(readResults_eq_some heap r s.results).mpr h2]

/-! ## The heap: the map that creates the standing objects -/

theorem standingEntries_eq (st : State) :
    standingEntries st = st.competitors.map (entryOf st) :=
  rfl

/-- The `map` creates one standing object per competitor at the next free addresses, and
changes no cell. -/
theorem buildStandings_spec (root : StateRef) (heap0 : List Cell) (st : State)
    (h0 : readState heap0 root = some st) :
    ∀ (comps : List Nat) (cs : List Competitor) (heap : List Cell),
      (∀ (a : Nat) (c : Cell), heap0[a]? = some c → heap[a]? = some c) →
      mapOrThrow (readCompetitor heap0) comps = some cs →
      ∃ cells, buildStandings root comps heap =
          some (List.range' heap.length cells.length, heap ++ cells) ∧
        List.Forall₂ (fun (c : Competitor) (cell : Cell) =>
          ∃ r, heap0[r]? = some (Cell.results c.results) ∧ cell = standingCell st c r) cs cells
  | [], cs, heap, _, hm => by
    have hcs : cs = [] := by
      unfold mapOrThrow at hm
      cases hm
      rfl
    subst hcs
    exact ⟨[], by simp [buildStandings], List.Forall₂.nil⟩
  | comp :: rest, cs, heap, hext, hm => by
    obtain ⟨c, cs', hc, hrest, hcs⟩ := mapOrThrow_cons_some _ _ _ _ hm
    subst hcs
    obtain ⟨r, hr1, hr2⟩ := (readCompetitor_eq_some heap0 comp c).mp hc
    have hst := readState_mono heap0 heap root st hext h0
    have h1 := hext _ _ hr1
    have hrr : readResults heap r = some c.results :=
      (readResults_eq_some heap r c.results).mpr (hext _ _ hr2)
    have hext' : ∀ (a : Nat) (c' : Cell), heap0[a]? = some c' →
        (heap ++ [standingCell st c r])[a]? = some c' :=
      fun a c' h => getElem?_append_some _ _ _ _ (hext a c' h)
    obtain ⟨cells, hb, hf⟩ := buildStandings_spec root heap0 st h0 rest cs'
      (heap ++ [standingCell st c r]) hext' hrest
    refine ⟨standingCell st c r :: cells, ?_, List.Forall₂.cons ⟨r, hr2, rfl⟩ hf⟩
    unfold buildStandings
    simp only [h1, hst, hrr, alloc]
    unfold standingCell at hb
    rw [hb]
    simp only [List.length_append, List.length_singleton, List.length_cons, List.range'_succ,
      List.append_assoc, List.singleton_append]
    rfl

/-- The objects created by the `map` read as the standing entries of the competitors. -/
theorem created_entries (st : State) (heap0 : List Cell) :
    ∀ (cs : List Competitor) (cells pre post : List Cell),
      (∀ (a : Nat) (c : Cell), heap0[a]? = some c → pre[a]? = some c) →
      List.Forall₂ (fun (c : Competitor) (cell : Cell) =>
        ∃ r, heap0[r]? = some (Cell.results c.results) ∧ cell = standingCell st c r) cs cells →
      List.Forall₂ (fun a e => readEntry (pre ++ cells ++ post) a = some e)
        (List.range' pre.length cells.length) (cs.map (entryOf st))
  | _, _, pre, post, _, List.Forall₂.nil => by
    simp
  | c :: cs, cell :: cells, pre, post, hext, List.Forall₂.cons hc hrest => by
    obtain ⟨r, hr, hcell⟩ := hc
    have ih := created_entries st heap0 cs cells (pre ++ [cell]) post
      (fun a c' h => getElem?_append_some _ _ _ _ (hext a c' h)) hrest
    have heq : pre ++ [cell] ++ cells ++ post = pre ++ cell :: cells ++ post := by simp
    rw [heq] at ih
    simp only [List.length_append, List.length_singleton] at ih
    rw [List.length_cons, List.range'_succ, List.map_cons]
    refine List.Forall₂.cons ?_ ih
    rw [readEntry_eq_some]
    refine ⟨r, none, none, ?_, ?_⟩
    · have h1 : (pre ++ cell :: cells ++ post)[pre.length]? = some cell := by
        rw [List.append_assoc, List.getElem?_append_right (le_refl _), Nat.sub_self,
          List.cons_append, List.getElem?_cons_zero]
      rw [h1, hcell]
      rfl
    · have h2 := hext _ _ hr
      rw [List.append_assoc]
      exact getElem?_append_some _ _ _ _ h2

/-! ## The heap: the sort and the rank pass -/

theorem jsSort_map {α β : Type} (f : α → β) (cmp : β → β → Int) (l : List α) :
    (jsSort (fun a b => cmp (f a) (f b)) l).map f = jsSort cmp (l.map f) := by
  unfold jsSort
  exact @List.map_insertionSort α β (fun a b => cmp (f a) (f b) ≤ 0) (fun a b => cmp a b ≤ 0)
    _ _ f l (fun _ _ _ _ => Iff.rfl)

theorem map_eq_of_forall₂ {α β : Type} (f : α → Option β) :
    ∀ (l : List α) (bs : List β), List.Forall₂ (fun a b => f a = some b) l bs →
      l.map f = bs.map some
  | _, _, List.Forall₂.nil => rfl
  | _, _, List.Forall₂.cons h hrest => by
    rw [List.map_cons, List.map_cons, h, map_eq_of_forall₂ f _ _ hrest]

theorem forall₂_of_map_eq {α β : Type} (f : α → Option β) :
    ∀ (l : List α) (bs : List β), l.map f = bs.map some →
      List.Forall₂ (fun a b => f a = some b) l bs
  | [], [], _ => List.Forall₂.nil
  | [], _ :: _, h => by simp at h
  | _ :: _, [], h => by simp at h
  | a :: l, b :: bs, h => by
    simp only [List.map_cons, List.cons.injEq] at h
    exact List.Forall₂.cons h.1 (forall₂_of_map_eq f l bs h.2)

theorem writeRank_other (heap : List Cell) (a : Nat) (t : Bool) (k : Nat) (b : Nat)
    (hb : b ≠ a) : (writeRank heap a t k)[b]? = heap[b]? := by
  unfold writeRank
  split
  · exact List.getElem?_set_ne (Ne.symm hb)
  · rfl

/-- The rank writes set `isTied` and `rank` of the object and leave its other fields. -/
theorem writeRank_self (heap : List Cell) (a : Nat) (t : Bool) (k : Nat) (e : StandingEntry)
    (h : readEntry heap a = some e) :
    ∃ r, (writeRank heap a t k)[a]? = some (Cell.standing e.competitorId e.name e.isMyDriver
        e.totalPoints e.wins r (some t) (some k)) ∧
      (writeRank heap a t k)[r]? = some (Cell.results e.results) := by
  obtain ⟨r, x, y, h1, h2⟩ := (readEntry_eq_some heap a e).mp h
  have hlt : a < heap.length := (List.getElem?_eq_some.mp h1).1
  have hra : r ≠ a := by
    intro hra
    rw [hra, h1] at h2
    cases h2
  refine ⟨r, ?_, ?_⟩
  · unfold writeRank
    rw [h1]
    simp [List.getElem?_set, hlt]
  · rw [writeRank_other heap a t k r hra]
    exact h2

/-- The rank writes change no entry that the comparator or the rank pass reads. -/
theorem readEntry_writeRank (heap : List Cell) (a : Nat) (t : Bool) (k : Nat) (b : Nat)
    (e : StandingEntry) (h : readEntry heap b = some e) :
    readEntry (writeRank heap a t k) b = some e := by
  obtain ⟨r, x, y, h1, h2⟩ := (readEntry_eq_some heap b e).mp h
  by_cases hba : b = a
  · subst hba
    obtain ⟨r', h3, h4⟩ := writeRank_self heap b t k e h
    exact (readEntry_eq_some _ b e).mpr ⟨r', some t, some k, h3, h4⟩
  · by_cases hr : r = a
    · subst hr
      have hw : writeRank heap r t k = heap := by
        unfold writeRank
        rw [h2]
      rw [hw]
      exact h
    · refine (readEntry_eq_some _ b e).mpr ⟨r, x, y, ?_, ?_⟩
      · rw [writeRank_other heap a t k b hba]
        exact h1
      · rw [writeRank_other heap a t k r hr]
        exact h2

/-- The write of the sorted array changes no entry. -/
theorem readEntry_set_array (heap : List Cell) (s : Nat) (old new : List Nat) (b : Nat)
    (e : StandingEntry) (hs : heap[s]? = some (Cell.array old))
    (h : readEntry heap b = some e) :
    readEntry (heap.set s (Cell.array new)) b = some e := by
  obtain ⟨r, x, y, h1, h2⟩ := (readEntry_eq_some heap b e).mp h
  have hb : s ≠ b := by
    intro hsb
    rw [hsb, h1] at hs
    cases hs
  have hr : s ≠ r := by
    intro hsr
    rw [hsr, h2] at hs
    cases hs
  refine (readEntry_eq_some _ b e).mpr ⟨r, x, y, ?_, ?_⟩
  · rw [List.getElem?_set_ne hb]
    exact h1
  · rw [List.getElem?_set_ne hr]
    exact h2

/-- A standing object whose cell and entry are in place reads as before. -/
theorem readStanding_of_cell (heap' : List Cell) (a : Nat) (e : StandingEntry)
    (t : Bool) (k r : Nat)
    (hcell : heap'[a]? = some (Cell.standing e.competitorId e.name e.isMyDriver e.totalPoints
      e.wins r (some t) (some k)))
    (hentry : readEntry heap' a = some e) :
    readStanding heap' a = some { toStandingEntry := e, isTied := t, rank := k } := by
  obtain ⟨r', x, y, h1, h2⟩ := (readEntry_eq_some heap' a e).mp hentry
  rw [hcell] at h1
  simp only [Option.some.injEq, Cell.standing.injEq, true_and] at h1
  rw [← h1.1] at h2
  exact (readStanding_eq_some heap' a _).mpr ⟨r, hcell, h2⟩

/-- The rank pass after index 0: it writes only to the objects it visits, and these then read
as the standings `assignRanks` computes from their entries. -/
theorem rankPass_spec :
    ∀ (rest : List Nat) (entries : List StandingEntry) (index currentRank p : Nat)
      (pe : StandingEntry) (heap : List Cell),
      rest.Nodup →
      List.Forall₂ (fun a e => readEntry heap a = some e) rest entries →
      readEntry heap p = some pe →
      ∃ heap', rankPass index currentRank (some p) rest heap = some heap' ∧
        (∀ b : Nat, b ∉ rest → heap'[b]? = heap[b]?) ∧
        (∀ (b : Nat) (e : StandingEntry), readEntry heap b = some e →
          readEntry heap' b = some e) ∧
        List.Forall₂ (fun a s => readStanding heap' a = some s) rest
          (assignRanks index currentRank (some pe) entries)
  | _, _, index, currentRank, p, pe, heap, _, List.Forall₂.nil, _ =>
    ⟨heap, rfl, fun _ _ => rfl, fun _ _ h => h, by
      unfold assignRanks
      exact List.Forall₂.nil⟩
  | a :: rest, e :: es, index, currentRank, p, pe, heap, hnd, List.Forall₂.cons hae hrest,
      hp => by
    have hnd' := List.nodup_cons.mp hnd
    obtain ⟨r, hself, _⟩ := writeRank_self heap a (tiedWith e pe)
      (if !tiedWith e pe then index + 1 else currentRank) e hae
    obtain ⟨heap', hrun, hframe, hmono, hf⟩ := rankPass_spec rest es (index + 1)
      (if !tiedWith e pe then index + 1 else currentRank) a e
      (writeRank heap a (tiedWith e pe) (if !tiedWith e pe then index + 1 else currentRank))
      hnd'.2 (hrest.imp (fun _ _ h => readEntry_writeRank heap a _ _ _ _ h))
      (readEntry_writeRank heap a _ _ a e hae)
    refine ⟨heap', ?_, ?_, ?_, ?_⟩
    · unfold rankPass
      simp only [hae, hp]
      exact hrun
    · intro b hb
      have hba : b ≠ a := fun h => hb (h ▸ List.mem_cons_self _ _)
      have hbr : b ∉ rest := fun h => hb (List.mem_cons_of_mem _ h)
      rw [hframe b hbr, writeRank_other heap a _ _ b hba]
    · intro b e' hb
      exact hmono b e' (readEntry_writeRank heap a _ _ b e' hb)
    · unfold assignRanks
      refine List.Forall₂.cons ?_ hf
      refine readStanding_of_cell heap' a e _ _ r ?_ ?_
      · rw [hframe a hnd'.1]
        exact hself
      · exact hmono a e (readEntry_writeRank heap a _ _ a e hae)

/-- The rank pass from index 0. -/
theorem rankPass_first :
    ∀ (rest : List Nat) (entries : List StandingEntry) (index currentRank : Nat)
      (heap : List Cell),
      rest.Nodup →
      List.Forall₂ (fun a e => readEntry heap a = some e) rest entries →
      ∃ heap', rankPass index currentRank none rest heap = some heap' ∧
        (∀ b : Nat, b ∉ rest → heap'[b]? = heap[b]?) ∧
        List.Forall₂ (fun a s => readStanding heap' a = some s) rest
          (assignRanks index currentRank none entries)
  | _, _, index, currentRank, heap, _, List.Forall₂.nil =>
    ⟨heap, rfl, fun _ _ => rfl, by
      unfold assignRanks
      exact List.Forall₂.nil⟩
  | a :: rest, e :: es, index, currentRank, heap, hnd, List.Forall₂.cons hae hrest => by
    have hnd' := List.nodup_cons.mp hnd
    obtain ⟨r, hself, _⟩ := writeRank_self heap a false currentRank e hae
    obtain ⟨heap', hrun, hframe, hmono, hf⟩ := rankPass_spec rest es (index + 1) currentRank a e
      (writeRank heap a false currentRank) hnd'.2
      (hrest.imp (fun _ _ h => readEntry_writeRank heap a _ _ _ _ h))
      (readEntry_writeRank heap a _ _ a e hae)
    refine ⟨heap', ?_, ?_, ?_⟩
    · unfold rankPass
      exact hrun
    · intro b hb
      have hba : b ≠ a := fun h => hb (h ▸ List.mem_cons_self _ _)
      have hbr : b ∉ rest := fun h => hb (List.mem_cons_of_mem _ h)
      rw [hframe b hbr, writeRank_other heap a _ _ b hba]
    · unfold assignRanks
      refine List.Forall₂.cons ?_ hf
      refine readStanding_of_cell heap' a e _ _ r ?_ ?_
      · rw [hframe a hnd'.1]
        exact hself
      · exact hmono a e (readEntry_writeRank heap a _ _ a e hae)

/-- On a heap that holds a state, `calculateStandings` returns; it changes no cell that existed
before the call, and the array it returns reads as the standings of the state. -/
theorem calculateStandingsInHeap_spec (collate : String → String → Int) (root : StateRef)
    (heap : List Cell) (st : State) (h : readState heap root = some st) :
    ∃ standings heap', calculateStandingsInHeap collate root heap = some (standings, heap') ∧
      (∀ a : Nat, a < heap.length → heap'[a]? = heap[a]?) ∧
      readStandings heap' standings = some (calculateStandingsOn collate st) := by
  obtain ⟨items, _, harr, hm⟩ := (readState_eq_some heap root st).mp h
  obtain ⟨cells, hb, hf⟩ := buildStandings_spec root heap st h items st.competitors heap
    (fun _ _ h => h) hm
  have hentries := created_entries st heap st.competitors cells heap
    [Cell.array (List.range' heap.length cells.length)] (fun _ _ h => h) hf
  rw [← standingEntries_eq] at hentries
  have hmapE := map_eq_of_forall₂ _ _ _ hentries
  have hsortE : (jsSort (fun a b => compareRead collate
        (readEntry (heap ++ cells ++ [Cell.array (List.range' heap.length cells.length)]) a)
        (readEntry (heap ++ cells ++ [Cell.array (List.range' heap.length cells.length)]) b))
        (List.range' heap.length cells.length)).map
          (readEntry (heap ++ cells ++ [Cell.array (List.range' heap.length cells.length)])) =
      (jsSort (compareStandingsOn collate) (standingEntries st)).map some := by
    rw [jsSort_map (readEntry (heap ++ cells ++
      [Cell.array (List.range' heap.length cells.length)])) (compareRead collate), hmapE]
    exact (jsSort_map some (compareRead collate) (standingEntries st)).symm
  have hsortedF := forall₂_of_map_eq _ _ _ hsortE
  have hs1 : (heap ++ cells ++ [Cell.array (List.range' heap.length cells.length)])[
      (heap ++ cells).length]? = some (Cell.array (List.range' heap.length cells.length)) := by
    rw [List.getElem?_append_right (le_refl _), Nat.sub_self, List.getElem?_cons_zero]
  have hF2 := hsortedF.imp (fun _ _ h => readEntry_set_array _ (heap ++ cells).length
    (List.range' heap.length cells.length) (jsSort (fun a b => compareRead collate
        (readEntry (heap ++ cells ++ [Cell.array (List.range' heap.length cells.length)]) a)
        (readEntry (heap ++ cells ++ [Cell.array (List.range' heap.length cells.length)]) b))
        (List.range' heap.length cells.length)) _ _ hs1 h)
  have hperm := jsSort_perm (fun a b => compareRead collate
        (readEntry (heap ++ cells ++ [Cell.array (List.range' heap.length cells.length)]) a)
        (readEntry (heap ++ cells ++ [Cell.array (List.range' heap.length cells.length)]) b))
        (List.range' heap.length cells.length)
  have hnd := hperm.nodup_iff.mpr (List.nodup_range' heap.length cells.length)
  have hmem : ∀ a ∈ jsSort (fun a b => compareRead collate
        (readEntry (heap ++ cells ++ [Cell.array (List.range' heap.length cells.length)]) a)
        (readEntry (heap ++ cells ++ [Cell.array (List.range' heap.length cells.length)]) b))
        (List.range' heap.length cells.length),
      heap.length ≤ a ∧ a < heap.length + cells.length := by
    intro a ha
    exact List.mem_range'_1.mp (hperm.subset ha)
  obtain ⟨heap', hrun, hframe, hstand⟩ := rankPass_first _ _ 0 1 _ hnd hF2
  refine ⟨(heap ++ cells).length, heap', ?_, ?_, ?_⟩
  · unfold calculateStandingsInHeap
    simp only [harr, hb, alloc]
    rw [hrun]
  · intro a ha
    have hnot : a ∉ jsSort (fun a b => compareRead collate
        (readEntry (heap ++ cells ++ [Cell.array (List.range' heap.length cells.length)]) a)
        (readEntry (heap ++ cells ++ [Cell.array (List.range' heap.length cells.length)]) b))
        (List.range' heap.length cells.length) := by
      intro hmem'
      have := (hmem a hmem').1
      omega
    have hne : (heap ++ cells).length ≠ a := by
      rw [List.length_append]
      omega
    rw [hframe a hnot, List.getElem?_set_ne hne, List.append_assoc,
      List.getElem?_append_left ha]
  · have hnot : (heap ++ cells).length ∉ jsSort (fun a b => compareRead collate
        (readEntry (heap ++ cells ++ [Cell.array (List.range' heap.length cells.length)]) a)
        (readEntry (heap ++ cells ++ [Cell.array (List.range' heap.length cells.length)]) b))
        (List.range' heap.length cells.length) := by
      intro hmem'
      have := (hmem _ hmem').2
      rw [List.length_append] at this
      omega
    have hlt : (heap ++ cells).length <
        (heap ++ cells ++ [Cell.array (List.range' heap.length cells.length)]).length := by
      simp
    unfold readStandings
    rw [hframe _ hnot]
    simp only [List.getElem?_set, hlt, if_true]
    exact mapOrThrow_of_forall₂ _ _ _ hstand

/-- C24: `calculateStandings` run on a heap that holds a state returns an array that reads as
the standings computed from the configuration and the competitor list; it changes no cell that
existed before the call, so the configuration, the competitors and their results are as before
and the heap still holds the same state; and a second call on the heap the first one leaves
returns an array that reads as the same standings. -/
theorem calculateStandings_idempotent (collate : String → String → Int) (root : StateRef)
    (heap : List Cell) (st : State) (h : readState heap root = some st) :
    ∃ standings heap', calculateStandingsInHeap collate root heap = some (standings, heap') ∧
      (∀ a : Nat, a < heap.length → heap'[a]? = heap[a]?) ∧
      readState heap' root = some st ∧
      readStandings heap' standings = some (calculateStandingsOn collate st) ∧
      ∃ standings2 heap2,
        calculateStandingsInHeap collate root heap' = some (standings2, heap2) ∧
        readStandings heap2 standings2 = readStandings heap' standings := by
  obtain ⟨standings, heap', hrun, hframe, hread⟩ :=
    calculateStandingsInHeap_spec collate root heap st h
  have hst : readState heap' root = some st := by
    refine readState_mono heap heap' root st ?_ h
    intro a c hc
    rw [hframe a (List.getElem?_eq_some.mp hc).1]
    exact hc
  obtain ⟨standings2, heap2, hrun2, _, hread2⟩ :=
    calculateStandingsInHeap_spec collate root heap' st hst
  exact ⟨standings, heap', hrun, hframe, hst, hread, standings2, heap2, hrun2,
    hread2.trans hread.symm⟩

/-- Witness of C24: the scenario test stored in a heap of six cells. The call creates the two
standing objects at the addresses 6 and 7 and the array at address 8, which lists Challenger
before Leader, both with 43 points and rank 1; the six cells are as before, and the array reads
as the standings of the state. -/
theorem calculateStandings_idempotent_witness :
    readState openHeap openRoot = some openState ∧
    (calculateStandingsInHeap localeCompare openRoot openHeap).map
        (fun r => (r.1, r.2.take 6, r.2.drop 6)) =
      some (8, openHeap,
        [Cell.standing "comp_Leader" "Leader" true 43 1 1 (some true) (some 1),
         Cell.standing "comp_Challenger" "Challenger" false 43 1 2 (some false) (some 1),
         Cell.array [7, 6]]) ∧
    ∃ standings heap', calculateStandingsInHeap localeCompare openRoot openHeap =
        some (standings, heap') ∧
      (∀ a : Nat, a < openHeap.length → heap'[a]? = openHeap[a]?) ∧
      readStandings heap' standings = some (calculateStandings openState) :=
  ⟨by decide, by decide,
    (calculateStandings_idempotent localeCompare openRoot openHeap openState (by decide)).imp
      (fun _ h1 => h1.imp (fun _ h2 => ⟨h2.1, h2.2.1, h2.2.2.2.1⟩))⟩

end RaceStand
